import Mathlib

/-!
# Excel to Yandex YML converter: a verification development

A shallow embedding of `src/excel_to_yml.go` and theorems about it.

* A Go `string` is the list of its Unicode code points (the cells come out of an XML parser and
  are taken to be valid UTF-8), a slice is a `List`, an `error` result is an `Except`.
* The `map[string]int` of column indexes is an association list with pairwise distinct keys.
  The order in which a `range` statement visits it is not fixed by Go and is an input of the
  model (`MapOrder`).
* A `float64` is modelled exactly, by sign, integer mantissa and binary exponent, with the
  special values; `strconv.ParseFloat` and `fmt.Sprintf("%.2f", _)` round to nearest, ties to
  even.
* The worksheet library is represented by the two calls the program makes, `GetSheetList` and
  `GetRows`; `time.Now()` is an argument of `createYMLCatalog`.
* `encoding/xml` is modelled at the level of the element tree, following the struct tags; the
  effects of a run (`os.Create`, the written document, the printed line, the closing of the
  workbook) are returned as a list of events next to the error.

Every loop of the source is a recursive function that carries the loop variables; where the
body of a loop is long it is a function of its own (`readProducts.product`,
`readProducts.param`, ...).
-/

namespace ExcelToYml

/-! ## Strings (package `strings` and `unicode` of the Go standard library) -/

/-- A Go string, as its sequence of Unicode code points. -/
abbrev GoString := List Char

/-- Go `unicode.IsSpace`: the code points with the Unicode White_Space property. -/
def isSpace (c : Char) : Bool :=
  c = '\t' || c = '\n' || c.toNat = 0x0B || c.toNat = 0x0C || c = '\r' || c = ' ' ||
  c.toNat = 0x85 || c.toNat = 0xA0 || c.toNat = 0x1680 ||
  (0x2000 ≤ c.toNat && c.toNat ≤ 0x200A) ||
  c.toNat = 0x2028 || c.toNat = 0x2029 || c.toNat = 0x202F || c.toNat = 0x205F ||
  c.toNat = 0x3000

/-- Go `strings.TrimSpace`: leading and trailing white space removed. -/
def TrimSpace (s : GoString) : GoString :=
  (s.dropWhile isSpace).rdropWhile isSpace

/-- Go `strings.HasPrefix`: `len(s) >= len(pre) && s[:len(pre)] == pre`. -/
def HasPrefix (s pre : GoString) : Bool :=
  decide (s.length ≥ pre.length) && decide (s.take pre.length = pre)

/-- Go `strings.TrimPrefix`: `s` without the leading `pre`, or `s` itself. -/
def TrimPrefix (s pre : GoString) : GoString :=
  if HasPrefix s pre then s.drop pre.length else s

/-- Go `strings.HasSuffix`: `len(s) >= len(suf) && s[len(s)-len(suf):] == suf`. -/
def HasSuffix (s suf : GoString) : Bool :=
  decide (s.length ≥ suf.length) && decide (s.drop (s.length - suf.length) = suf)

/-- Go `strings.TrimSuffix`: `s` without the trailing `suf`, or `s` itself. -/
def TrimSuffix (s suf : GoString) : GoString :=
  if HasSuffix s suf then s.take (s.length - suf.length) else s

/-- Go `strings.Split(s, sep)` for a separator of one (ASCII) character, the only way the
program calls it: the text up to the first separator, then the split of what follows it.  The
result is never empty; `Split "" sep` is the one empty string. -/
def Split : GoString → Char → List GoString
  | [], _ => [[]]
  | c :: cs, sep =>
    if c = sep then [] :: Split cs sep
    else
      match Split cs sep with
      | seg :: segs => (c :: seg) :: segs
      | [] => [[c]]

/-- The simple lower-case mappings of the Unicode character database (version 14.0), as ranges
`(lo, hi, delta, stride)`: every code point `lo + k * stride ≤ hi` maps to itself plus `delta`.
This is the content of Go's `unicode.CaseRanges` for `LowerCase`. -/
def lowerRanges : List (Nat × Nat × Int × Nat) := [
  (0x0041, 0x005A, 32, 1), (0x00C0, 0x00D6, 32, 1), (0x00D8, 0x00DE, 32, 1),
  (0x0100, 0x012E, 1, 2), (0x0130, 0x0130, -199, 1), (0x0132, 0x0136, 1, 2),
  (0x0139, 0x0147, 1, 2), (0x014A, 0x0176, 1, 2), (0x0178, 0x0178, -121, 1),
  (0x0179, 0x017D, 1, 2), (0x0181, 0x0181, 210, 1), (0x0182, 0x0184, 1, 2),
  (0x0186, 0x0186, 206, 1), (0x0187, 0x0187, 1, 1), (0x0189, 0x018A, 205, 1),
  (0x018B, 0x018B, 1, 1), (0x018E, 0x018E, 79, 1), (0x018F, 0x018F, 202, 1),
  (0x0190, 0x0190, 203, 1), (0x0191, 0x0191, 1, 1), (0x0193, 0x0193, 205, 1),
  (0x0194, 0x0194, 207, 1), (0x0196, 0x0196, 211, 1), (0x0197, 0x0197, 209, 1),
  (0x0198, 0x0198, 1, 1), (0x019C, 0x019C, 211, 1), (0x019D, 0x019D, 213, 1),
  (0x019F, 0x019F, 214, 1), (0x01A0, 0x01A4, 1, 2), (0x01A6, 0x01A6, 218, 1),
  (0x01A7, 0x01A7, 1, 1), (0x01A9, 0x01A9, 218, 1), (0x01AC, 0x01AC, 1, 1),
  (0x01AE, 0x01AE, 218, 1), (0x01AF, 0x01AF, 1, 1), (0x01B1, 0x01B2, 217, 1),
  (0x01B3, 0x01B5, 1, 2), (0x01B7, 0x01B7, 219, 1), (0x01B8, 0x01B8, 1, 1),
  (0x01BC, 0x01BC, 1, 1), (0x01C4, 0x01C4, 2, 1), (0x01C5, 0x01C5, 1, 1), (0x01C7, 0x01C7, 2, 1),
  (0x01C8, 0x01C8, 1, 1), (0x01CA, 0x01CA, 2, 1), (0x01CB, 0x01DB, 1, 2), (0x01DE, 0x01EE, 1, 2),
  (0x01F1, 0x01F1, 2, 1), (0x01F2, 0x01F4, 1, 2), (0x01F6, 0x01F6, -97, 1),
  (0x01F7, 0x01F7, -56, 1), (0x01F8, 0x021E, 1, 2), (0x0220, 0x0220, -130, 1),
  (0x0222, 0x0232, 1, 2), (0x023A, 0x023A, 10795, 1), (0x023B, 0x023B, 1, 1),
  (0x023D, 0x023D, -163, 1), (0x023E, 0x023E, 10792, 1), (0x0241, 0x0241, 1, 1),
  (0x0243, 0x0243, -195, 1), (0x0244, 0x0244, 69, 1), (0x0245, 0x0245, 71, 1),
  (0x0246, 0x024E, 1, 2), (0x0370, 0x0372, 1, 2), (0x0376, 0x0376, 1, 1),
  (0x037F, 0x037F, 116, 1), (0x0386, 0x0386, 38, 1), (0x0388, 0x038A, 37, 1),
  (0x038C, 0x038C, 64, 1), (0x038E, 0x038F, 63, 1), (0x0391, 0x03A1, 32, 1),
  (0x03A3, 0x03AB, 32, 1), (0x03CF, 0x03CF, 8, 1), (0x03D8, 0x03EE, 1, 2),
  (0x03F4, 0x03F4, -60, 1), (0x03F7, 0x03F7, 1, 1), (0x03F9, 0x03F9, -7, 1),
  (0x03FA, 0x03FA, 1, 1), (0x03FD, 0x03FF, -130, 1), (0x0400, 0x040F, 80, 1),
  (0x0410, 0x042F, 32, 1), (0x0460, 0x0480, 1, 2), (0x048A, 0x04BE, 1, 2),
  (0x04C0, 0x04C0, 15, 1), (0x04C1, 0x04CD, 1, 2), (0x04D0, 0x052E, 1, 2),
  (0x0531, 0x0556, 48, 1), (0x10A0, 0x10C5, 7264, 1), (0x10C7, 0x10C7, 7264, 1),
  (0x10CD, 0x10CD, 7264, 1), (0x13A0, 0x13EF, 38864, 1), (0x13F0, 0x13F5, 8, 1),
  (0x1C90, 0x1CBA, -3008, 1), (0x1CBD, 0x1CBF, -3008, 1), (0x1E00, 0x1E94, 1, 2),
  (0x1E9E, 0x1E9E, -7615, 1), (0x1EA0, 0x1EFE, 1, 2), (0x1F08, 0x1F0F, -8, 1),
  (0x1F18, 0x1F1D, -8, 1), (0x1F28, 0x1F2F, -8, 1), (0x1F38, 0x1F3F, -8, 1),
  (0x1F48, 0x1F4D, -8, 1), (0x1F59, 0x1F59, -8, 1), (0x1F5B, 0x1F5B, -8, 1),
  (0x1F5D, 0x1F5D, -8, 1), (0x1F5F, 0x1F5F, -8, 1), (0x1F68, 0x1F6F, -8, 1),
  (0x1F88, 0x1F8F, -8, 1), (0x1F98, 0x1F9F, -8, 1), (0x1FA8, 0x1FAF, -8, 1),
  (0x1FB8, 0x1FB9, -8, 1), (0x1FBA, 0x1FBB, -74, 1), (0x1FBC, 0x1FBC, -9, 1),
  (0x1FC8, 0x1FCB, -86, 1), (0x1FCC, 0x1FCC, -9, 1), (0x1FD8, 0x1FD9, -8, 1),
  (0x1FDA, 0x1FDB, -100, 1), (0x1FE8, 0x1FE9, -8, 1), (0x1FEA, 0x1FEB, -112, 1),
  (0x1FEC, 0x1FEC, -7, 1), (0x1FF8, 0x1FF9, -128, 1), (0x1FFA, 0x1FFB, -126, 1),
  (0x1FFC, 0x1FFC, -9, 1), (0x2126, 0x2126, -7517, 1), (0x212A, 0x212A, -8383, 1),
  (0x212B, 0x212B, -8262, 1), (0x2132, 0x2132, 28, 1), (0x2160, 0x216F, 16, 1),
  (0x2183, 0x2183, 1, 1), (0x24B6, 0x24CF, 26, 1), (0x2C00, 0x2C2F, 48, 1),
  (0x2C60, 0x2C60, 1, 1), (0x2C62, 0x2C62, -10743, 1), (0x2C63, 0x2C63, -3814, 1),
  (0x2C64, 0x2C64, -10727, 1), (0x2C67, 0x2C6B, 1, 2), (0x2C6D, 0x2C6D, -10780, 1),
  (0x2C6E, 0x2C6E, -10749, 1), (0x2C6F, 0x2C6F, -10783, 1), (0x2C70, 0x2C70, -10782, 1),
  (0x2C72, 0x2C72, 1, 1), (0x2C75, 0x2C75, 1, 1), (0x2C7E, 0x2C7F, -10815, 1),
  (0x2C80, 0x2CE2, 1, 2), (0x2CEB, 0x2CED, 1, 2), (0x2CF2, 0x2CF2, 1, 1), (0xA640, 0xA66C, 1, 2),
  (0xA680, 0xA69A, 1, 2), (0xA722, 0xA72E, 1, 2), (0xA732, 0xA76E, 1, 2), (0xA779, 0xA77B, 1, 2),
  (0xA77D, 0xA77D, -35332, 1), (0xA77E, 0xA786, 1, 2), (0xA78B, 0xA78B, 1, 1),
  (0xA78D, 0xA78D, -42280, 1), (0xA790, 0xA792, 1, 2), (0xA796, 0xA7A8, 1, 2),
  (0xA7AA, 0xA7AA, -42308, 1), (0xA7AB, 0xA7AB, -42319, 1), (0xA7AC, 0xA7AC, -42315, 1),
  (0xA7AD, 0xA7AD, -42305, 1), (0xA7AE, 0xA7AE, -42308, 1), (0xA7B0, 0xA7B0, -42258, 1),
  (0xA7B1, 0xA7B1, -42282, 1), (0xA7B2, 0xA7B2, -42261, 1), (0xA7B3, 0xA7B3, 928, 1),
  (0xA7B4, 0xA7C2, 1, 2), (0xA7C4, 0xA7C4, -48, 1), (0xA7C5, 0xA7C5, -42307, 1),
  (0xA7C6, 0xA7C6, -35384, 1), (0xA7C7, 0xA7C9, 1, 2), (0xA7D0, 0xA7D0, 1, 1),
  (0xA7D6, 0xA7D8, 1, 2), (0xA7F5, 0xA7F5, 1, 1), (0xFF21, 0xFF3A, 32, 1),
  (0x10400, 0x10427, 40, 1), (0x104B0, 0x104D3, 40, 1), (0x10570, 0x1057A, 39, 1),
  (0x1057C, 0x1058A, 39, 1), (0x1058C, 0x10592, 39, 1), (0x10594, 0x10595, 39, 1),
  (0x10C80, 0x10CB2, 64, 1), (0x118A0, 0x118BF, 32, 1), (0x16E40, 0x16E5F, 32, 1),
  (0x1E900, 0x1E921, 34, 1)
  ]

/-- Go `unicode.ToLower` on one code point. -/
def unicodeToLower (c : Char) : Char :=
  match lowerRanges.find? (fun r =>
      decide (r.1 ≤ c.toNat) && decide (c.toNat ≤ r.2.1) && (c.toNat - r.1) % r.2.2.2 == 0) with
  | some r => Char.ofNat (Int.toNat (c.toNat + r.2.2.1))
  | none => c

/-- Go `strings.ToLower`: every code point mapped to lower case. -/
def ToLower (s : GoString) : GoString :=
  s.map unicodeToLower


/-! ## The column-index map (`map[string]int`) -/

/-- A Go `map[string]int`, as the list of its entries; the keys are pairwise distinct. -/
abbrev GoMap := List (GoString × Nat)

/-- Go `m[k] = v`: the entry of `k` is replaced, or a new entry is added. -/
def mapAssign : GoMap → GoString → Nat → GoMap
  | [], k, v => [(k, v)]
  | (k', v') :: rest, k, v =>
    if k' = k then (k, v) :: rest else (k', v') :: mapAssign rest k v

/-- Go `v, ok := m[k]`. -/
def mapLookup : GoMap → GoString → Option Nat
  | [], _ => none
  | (k', v') :: rest, k => if k' = k then some v' else mapLookup rest k

/-- The order in which a `for key, idx := range m` statement visits the entries of `m`.  Go
leaves it unspecified and it may change from one loop to the next, so it is an input of the
model: `ord i m` is the order used by the loop run for the row of index `i`. -/
abbrev MapOrder := Nat → GoMap → List (GoString × Nat)

/-- A legal iteration order visits every entry of the map exactly once. -/
def MapOrder.Valid (ord : MapOrder) : Prop :=
  ∀ (i : Nat) (m : GoMap), (ord i m).Perm m

/-- The iteration order that follows the order of insertion. -/
def insertionOrder : MapOrder := fun _ m => m

/-! ## Floating point (`strconv.ParseFloat`, `fmt.Sprintf("%.2f", _)`) -/

/-- An IEEE 754 binary64 value: `(-1)^neg * mant * 2^exp`, an infinity, or a NaN.  Values made
by `roundFloat64` have `mant < 2^53` and `-1074 ≤ exp ≤ 971`. -/
inductive Float64 where
  | finite (neg : Bool) (mant : Nat) (exp : Int)
  | inf (neg : Bool)
  | nan
deriving DecidableEq, Repr

/-- The zero value of a Go `float64` variable. -/
def Float64.zero : Float64 := .finite false 0 (-1074)

/-- The quotient `n / d` rounded to the nearest integer, ties to even. -/
def roundHalfEven (n d : Nat) : Nat :=
  let q := n / d
  let r := n % d
  if 2 * r < d then q
  else if 2 * r > d then q + 1
  else if q % 2 = 0 then q else q + 1

/-- Number of binary digits of `n`, with `fuel` bounding the recursion. -/
def bitLength.go : Nat → Nat → Nat
  | 0, _ => 0
  | fuel + 1, n => if n = 0 then 0 else bitLength.go fuel (n / 2) + 1

/-- Number of binary digits of `n` (`0` for `0`). -/
def bitLength (n : Nat) : Nat := bitLength.go n n

/-- The value `num / den * 2^sh` for an integer shift, as a fraction of naturals. -/
def scaleFraction (num den : Nat) (sh : Int) : Nat × Nat :=
  if sh ≥ 0 then (num * 2 ^ sh.toNat, den) else (num, den * 2 ^ (-sh).toNat)

/-- Floor of the binary logarithm of the positive fraction `num / den`. -/
def floorLog2 (num den : Nat) : Int :=
  let k : Int := (bitLength num : Int) - (bitLength den : Int)
  let p := scaleFraction num den (-k)
  if p.1 ≥ p.2 then k else k - 1

/-- The fraction `num / den` (`den > 0`), with sign `neg`, rounded to the nearest binary64 value,
ties to even; `none` when the rounded value is out of range (Go: `ErrRange`).  Underflow gives a
subnormal or a zero and is no error. -/
def roundFloat64 (neg : Bool) (num den : Nat) : Option Float64 :=
  if num = 0 then some (.finite neg 0 (-1074))
  else
    let e : Int := max (floorLog2 num den - 52) (-1074)
    let p := scaleFraction num den (-e)
    let m := roundHalfEven p.1 p.2
    let me : Nat × Int := if m = 2 ^ 53 then (2 ^ 52, e + 1) else (m, e)
    if me.2 > 971 then none else some (.finite neg me.1 me.2)

/-- Go `lower(c)` of `strconv`, `c | ('x' - 'X')`, on the characters it is compared with. -/
def asciiLower (c : Char) : Char :=
  if 'A' ≤ c ∧ c ≤ 'Z' then Char.ofNat (c.toNat + 32) else c

/-- Go `commonPrefixLenIgnoreCase(s, pre) == len(pre)`: `s` starts with the lower-case text
`pre`, ASCII case ignored; the rest of `s` is returned. -/
def stripIgnoreCase : GoString → GoString → Option GoString
  | s, [] => some s
  | [], _ :: _ => none
  | c :: cs, p :: ps => if asciiLower c = p then stripIgnoreCase cs ps else none

/-- Go `special` of `strconv`: an optionally signed `inf` or `infinity`, or an unsigned `nan`,
at the start of `s`; returns the value and the text that follows. -/
def special (s : GoString) : Option (Float64 × GoString) :=
  let infinity (neg : Bool) (t : GoString) : Option (Float64 × GoString) :=
    match stripIgnoreCase t "infinity".toList with
    | some rest => some (.inf neg, rest)
    | none =>
      match stripIgnoreCase t "inf".toList with
      | some rest => some (.inf neg, rest)
      | none => none
  match s with
  | [] => none
  | '+' :: t => infinity false t
  | '-' :: t => infinity true t
  | c :: t =>
    if c = 'i' ∨ c = 'I' then infinity false (c :: t)
    else if c = 'n' ∨ c = 'N' then
      match stripIgnoreCase (c :: t) "nan".toList with
      | some rest => some (.nan, rest)
      | none => none
    else none

/-- What `readFloat` has read: the sign, the base, all mantissa digits as one number, how many
of them follow the point, the exponent, whether an underscore was seen, and the unread text. -/
structure Scanned where
  neg : Bool
  hex : Bool
  mant : Nat
  frac : Nat
  exp : Int
  underscores : Bool
  rest : GoString

/-- Value of a decimal digit, or of a hexadecimal digit when `hex` is set. -/
def digitValue (hex : Bool) (c : Char) : Option Nat :=
  if '0' ≤ c ∧ c ≤ '9' then some (c.toNat - '0'.toNat)
  else if hex ∧ 'a' ≤ asciiLower c ∧ asciiLower c ≤ 'f' then
    some ((asciiLower c).toNat - 'a'.toNat + 10)
  else none

/-- The mantissa loop of `readFloat`: digits, at most one point, underscores.  Returns
`(sawdigits, mant, frac, underscores, rest)`. -/
def readMantissa (hex : Bool) :
    GoString → Bool → Bool → Nat → Nat → Bool → Bool × Nat × Nat × Bool × GoString
  | [], _, sawdigits, mant, frac, us => (sawdigits, mant, frac, us, [])
  | c :: cs, sawdot, sawdigits, mant, frac, us =>
    if c = '_' then readMantissa hex cs sawdot sawdigits mant frac true
    else if c = '.' then
      if sawdot then (sawdigits, mant, frac, us, c :: cs)
      else readMantissa hex cs true sawdigits mant frac us
    else
      match digitValue hex c with
      | some d =>
        readMantissa hex cs sawdot true (mant * (if hex then 16 else 10) + d)
          (if sawdot then frac + 1 else frac) us
      | none => (sawdigits, mant, frac, us, c :: cs)

/-- The exponent digits of `readFloat`; the value stops growing once it has reached 10000.
Returns `(e, underscores, rest)`. -/
def readExponent : GoString → Nat → Bool → Nat × Bool × GoString
  | [], e, us => (e, us, [])
  | c :: cs, e, us =>
    if c = '_' then readExponent cs e true
    else if '0' ≤ c ∧ c ≤ '9' then
      readExponent cs (if e < 10000 then e * 10 + (c.toNat - '0'.toNat) else e) us
    else (e, us, c :: cs)

/-- Go `readFloat` of `strconv`, up to the check of the underscores: sign, optional `0x`,
mantissa, exponent (optional in base 10, required in base 16). -/
def readFloat (s : GoString) : Option Scanned :=
  let afterSign : Bool × GoString :=
    match s with
    | '+' :: t => (false, t)
    | '-' :: t => (true, t)
    | t => (false, t)
  let neg := afterSign.1
  let based : Bool × GoString :=
    match afterSign.2 with
    | '0' :: x :: c :: cs => if x = 'x' ∨ x = 'X' then (true, c :: cs) else (false, afterSign.2)
    | t => (false, t)
  let hex := based.1
  match s, readMantissa hex based.2 false false 0 0 false with
  | [], _ => none
  | _ :: _, (false, _, _, _, _) => none
  | _ :: _, (true, mant, frac, us, rest) =>
    let expChar : Char := if hex then 'p' else 'e'
    match rest with
    | c :: t =>
      if asciiLower c = expChar then
        let signed : Bool × GoString :=
          match t with
          | '+' :: u => (false, u)
          | '-' :: u => (true, u)
          | u => (false, u)
        match signed.2 with
        | d :: _ =>
          if '0' ≤ d ∧ d ≤ '9' then
            let r := readExponent signed.2 0 us
            some ⟨neg, hex, mant, frac, if signed.1 then -(r.1 : Int) else r.1, r.2.1, r.2.2⟩
          else none
        | [] => none
      else if hex then none
      else some ⟨neg, hex, mant, frac, 0, us, rest⟩
    | [] => if hex then none else some ⟨neg, hex, mant, frac, 0, us, []⟩

/-- The scan of Go `underscoreOK`: `saw` is the kind of the last character, `'0'` for a digit
or a base prefix, `'_'` for an underscore, `'!'` for anything else, `'^'` at the start. -/
def underscoreScan (hex : Bool) : GoString → Char → Bool
  | [], saw => saw ≠ '_'
  | c :: cs, saw =>
    if ('0' ≤ c ∧ c ≤ '9') ∨ (hex ∧ 'a' ≤ asciiLower c ∧ asciiLower c ≤ 'f') then
      underscoreScan hex cs '0'
    else if c = '_' then
      if saw ≠ '0' then false else underscoreScan hex cs '_'
    else if saw = '_' then false
    else underscoreScan hex cs '!'

/-- Go `underscoreOK` of `strconv`: every underscore separates two digits, or a base prefix
and a digit. -/
def underscoreOK (s : GoString) : Bool :=
  let t : GoString :=
    match s with
    | '-' :: u => u
    | '+' :: u => u
    | u => u
  match t with
  | '0' :: x :: u =>
    if asciiLower x = 'b' ∨ asciiLower x = 'o' ∨ asciiLower x = 'x' then
      underscoreScan (asciiLower x = 'x') u '0'
    else underscoreScan false t '^'
  | _ => underscoreScan false t '^'

/-- Go `strconv.ParseFloat(s, 64)`: `some f` when the error is `nil`, `none` otherwise (a
syntax error, text left over after the number, or a value out of range).  The digits are read
exactly and the value is rounded once, to nearest and ties to even, as the library documents. -/
def ParseFloat (s : GoString) : Option Float64 :=
  match special s with
  | some (f, rest) => if rest = [] then some f else none
  | none =>
    match readFloat s with
    | none => none
    | some r =>
      if r.underscores ∧ ¬ underscoreOK s then none
      else if r.rest ≠ [] then none
      else if r.hex then
        let sh : Int := r.exp - 4 * (r.frac : Int)
        let p := scaleFraction r.mant 1 sh
        roundFloat64 r.neg p.1 p.2
      else
        let sh : Int := r.exp - (r.frac : Int)
        if sh ≥ 0 then roundFloat64 r.neg (r.mant * 10 ^ sh.toNat) 1
        else roundFloat64 r.neg r.mant (10 ^ (-sh).toNat)

/-- The character of a decimal digit. -/
def digitChar (d : Nat) : Char := Char.ofNat ('0'.toNat + d % 10)

/-- Decimal digits of `n` in front of `acc`, most significant first. -/
def formatNat.go : Nat → Nat → GoString → GoString
  | 0, _, acc => acc
  | fuel + 1, n, acc =>
    if n / 10 = 0 then digitChar n :: acc
    else formatNat.go fuel (n / 10) (digitChar n :: acc)

/-- Decimal representation of a natural number (`"0"` for zero). -/
def formatNat (n : Nat) : GoString := formatNat.go (n + 1) n []

/-- Go `fmt.Sprintf("%.2f", f)`: sign, integer part, point and two decimals of the value
rounded to hundredths (ties to even) when `f` is finite; `NaN`, `+Inf` or `-Inf` otherwise. -/
def Sprintf2f : Float64 → GoString
  | .nan => "NaN".toList
  | .inf false => "+Inf".toList
  | .inf true => "-Inf".toList
  | .finite neg mant exp =>
    let p := scaleFraction (mant * 100) 1 exp
    let n := roundHalfEven p.1 p.2
    (if neg then ['-'] else []) ++ formatNat (n / 100) ++
      ['.', digitChar (n / 10), digitChar n]


/-! ## Records -/

/-- XML record of one currency. -/
structure Currency where
  ID : GoString
  Rate : GoString
deriving DecidableEq, Repr

/-- XML record of one category. -/
structure Category where
  ID : GoString
  ParentID : GoString
  Name : GoString
deriving DecidableEq, Repr

/-- XML record of one parameter of an offer. -/
structure Param where
  Name : GoString
  Unit : GoString
  Value : GoString
deriving DecidableEq, Repr

/-- XML record of one offer. -/
structure Offer where
  ID : GoString
  Available : GoString
  URL : GoString
  Price : GoString
  CurrencyID : GoString
  CategoryID : GoString
  Picture : List GoString
  Name : GoString
  Vendor : GoString
  Description : GoString
  SalesNotes : GoString
  Params : List Param
deriving DecidableEq, Repr

/-- The `currencies` element. -/
structure Currencies where
  Currency : List Currency
deriving DecidableEq, Repr

/-- The `categories` element. -/
structure Categories where
  Category : List Category
deriving DecidableEq, Repr

/-- The `offers` element. -/
structure Offers where
  Offer : List Offer
deriving DecidableEq, Repr

/-- The `shop` element. -/
structure Shop where
  Name : GoString
  Company : GoString
  URL : GoString
  Currencies : Currencies
  Categories : Categories
  Offers : Offers
deriving DecidableEq, Repr

/-- The root element `yml_catalog`. -/
structure YMLCatalog where
  Date : GoString
  Shop : Shop
deriving DecidableEq, Repr

/-- Shop settings read from the workbook. -/
structure ShopData where
  Name : GoString
  Company : GoString
  URL : GoString
deriving DecidableEq, Repr

/-- One parameter of a product read from the workbook. -/
structure ParamData where
  Name : GoString
  Unit : GoString
  Value : GoString
deriving DecidableEq, Repr

/-- One product read from the workbook. -/
structure ProductData where
  ID : GoString
  Available : Bool
  URL : GoString
  Price : Float64
  CurrencyID : GoString
  CategoryID : GoString
  Pictures : List GoString
  Name : GoString
  Vendor : GoString
  Description : GoString
  SalesNotes : GoString
  Params : List ParamData
deriving DecidableEq, Repr

/-! ## The workbook -/

/-- The opened workbook (`*excelize.File`), through the two calls the program makes. -/
structure File where
  GetSheetList : List GoString
  GetRows : GoString → Except GoString (List (List GoString))

/-- The errors the readers build with `fmt.Errorf`. -/
inductive Error where
  /-- The message `лист '%s' не найден`. -/
  | sheetNotFound (sheet : GoString)
  /-- The message `ошибка при чтении листа '%s': %w`. -/
  | readSheet (sheet : GoString) (err : GoString)
  /-- The message `не указаны валюты в листе '%s'`. -/
  | noCurrencies (sheet : GoString)
  /-- The message `не указаны категории в листе '%s'`. -/
  | noCategories (sheet : GoString)
  /-- The message `лист '%s' не содержит данных`. -/
  | noData (sheet : GoString)
  /-- The message `не найдено товаров для добавления в YML-файл`. -/
  | noProducts
deriving DecidableEq, Repr

/-- The loop `for _, sheet := range sheets { if sheet == sheetName { sheetExists = true; break } }`. -/
def sheetExists : List GoString → GoString → Bool
  | [], _ => false
  | sheet :: sheets, sheetName => if sheet = sheetName then true else sheetExists sheets sheetName

/-! ## Shop settings -/

/-- Name of the shop-settings sheet. -/
def sheetShopSettings : GoString := "Настройки магазина".toList
/-- Key of the shop name. -/
def keyShopName : GoString := "Название магазина".toList
/-- Key of the company name. -/
def keyCompany : GoString := "Название компании".toList
/-- Key of the site URL. -/
def keyURL : GoString := "URL сайта".toList
/-- Default shop name. -/
def defaultShopName : GoString := "Мой магазин".toList
/-- Default company name. -/
def defaultCompany : GoString := "Моя компания".toList
/-- Default site URL. -/
def defaultURL : GoString := "https://example.com".toList

/-- The body of the row loop of `readShopSettings` for a data row: the `switch` on the key of a
row with at least two cells. -/
def readShopSettings.row (shopData : ShopData) (row : List GoString) : ShopData :=
  match row with
  | key :: value :: _ =>
    if key = keyShopName then { shopData with Name := value }
    else if key = keyCompany then { shopData with Company := value }
    else if key = keyURL then { shopData with URL := value }
    else shopData
  | _ => shopData

/-- The row loop of `readShopSettings`; `i` is the index of the first row of the list. -/
def readShopSettings.loop : Nat → List (List GoString) → ShopData → ShopData
  | _, [], shopData => shopData
  | i, row :: rows, shopData =>
    if i = 0 then readShopSettings.loop (i + 1) rows shopData
    else readShopSettings.loop (i + 1) rows (readShopSettings.row shopData row)

/-- The defaults `readShopSettings` puts in the fields left empty. -/
def readShopSettings.defaults (shopData : ShopData) : ShopData :=
  let shopData := if shopData.Name = [] then { shopData with Name := defaultShopName } else shopData
  let shopData :=
    if shopData.Company = [] then { shopData with Company := defaultCompany } else shopData
  if shopData.URL = [] then { shopData with URL := defaultURL } else shopData

/-- Go `readShopSettings`. -/
def readShopSettings (xlsx : File) : Except Error ShopData :=
  let sheetName := sheetShopSettings
  if !sheetExists xlsx.GetSheetList sheetName then .error (.sheetNotFound sheetName)
  else
    match xlsx.GetRows sheetName with
    | .error err => .error (.readSheet sheetName err)
    | .ok rows => .ok (readShopSettings.defaults (readShopSettings.loop 0 rows ⟨[], [], []⟩))

/-! ## Currencies -/

/-- Name of the currencies sheet. -/
def sheetCurrencies : GoString := "Валюты".toList

/-- The body of the row loop of `readCurrencies` for a data row: the currency it appends, if
any. -/
def readCurrencies.row (row : List GoString) : Option Currency :=
  match row with
  | id :: rate :: _ => if id ≠ [] then some ⟨id, rate⟩ else none
  | _ => none

/-- The row loop of `readCurrencies`; `i` is the index of the first row of the list. -/
def readCurrencies.loop : Nat → List (List GoString) → List Currency → List Currency
  | _, [], currencies => currencies
  | i, row :: rows, currencies =>
    if i = 0 then readCurrencies.loop (i + 1) rows currencies
    else
      match readCurrencies.row row with
      | some currency => readCurrencies.loop (i + 1) rows (currencies ++ [currency])
      | none => readCurrencies.loop (i + 1) rows currencies

/-- Go `readCurrencies`. -/
def readCurrencies (xlsx : File) : Except Error (List Currency) :=
  let sheetName := sheetCurrencies
  if !sheetExists xlsx.GetSheetList sheetName then .error (.sheetNotFound sheetName)
  else
    match xlsx.GetRows sheetName with
    | .error err => .error (.readSheet sheetName err)
    | .ok rows =>
      let currencies := readCurrencies.loop 0 rows []
      if currencies.length = 0 then .error (.noCurrencies sheetName) else .ok currencies

/-! ## Categories -/

/-- Name of the categories sheet. -/
def sheetCategories : GoString := "Категории".toList

/-- The body of the row loop of `readCategories` for a data row: the category it appends, if
any. -/
def readCategories.row (row : List GoString) : Option Category :=
  match row with
  | id :: name :: more =>
    let parentID : GoString :=
      match more with
      | third :: _ => third
      | [] => []
    if id ≠ [] ∧ name ≠ [] then some ⟨id, parentID, name⟩ else none
  | _ => none

/-- The row loop of `readCategories`; `i` is the index of the first row of the list. -/
def readCategories.loop : Nat → List (List GoString) → List Category → List Category
  | _, [], categories => categories
  | i, row :: rows, categories =>
    if i = 0 then readCategories.loop (i + 1) rows categories
    else
      match readCategories.row row with
      | some category => readCategories.loop (i + 1) rows (categories ++ [category])
      | none => readCategories.loop (i + 1) rows categories

/-- Go `readCategories`. -/
def readCategories (xlsx : File) : Except Error (List Category) :=
  let sheetName := sheetCategories
  if !sheetExists xlsx.GetSheetList sheetName then .error (.sheetNotFound sheetName)
  else
    match xlsx.GetRows sheetName with
    | .error err => .error (.readSheet sheetName err)
    | .ok rows =>
      let categories := readCategories.loop 0 rows []
      if categories.length = 0 then .error (.noCategories sheetName) else .ok categories

/-! ## Products -/

/-- Name of the products sheet. -/
def sheetProducts : GoString := "Товары".toList
/-- Header of the id column. -/
def colID : GoString := "ID товара".toList
/-- Header of the name column. -/
def colName : GoString := "Название товара".toList
/-- Header of the availability column. -/
def colAvailable : GoString := "Доступность (true/false)".toList
/-- Header of the URL column. -/
def colURL : GoString := "URL товара".toList
/-- Header of the price column. -/
def colPrice : GoString := "Цена".toList
/-- Header of the currency column. -/
def colCurrency : GoString := "Валюта (ID)".toList
/-- Header of the category column. -/
def colCategory : GoString := "ID категории".toList
/-- Header of the pictures column. -/
def colPictures : GoString := "URL изображения".toList
/-- Header of the vendor column. -/
def colVendor : GoString := "Производитель".toList
/-- Header of the description column. -/
def colDescription : GoString := "Описание".toList
/-- Header of the sales-notes column. -/
def colSalesNotes : GoString := "Примечания".toList
/-- Start of the header of a parameter column. -/
def paramPrefix : GoString := "Параметр:".toList

/-- The loop `for i, cell := range rows[0] { colIndexes[cell] = i }`; `i` is the index of the
first cell of the list. -/
def buildColIndexes.loop : Nat → List GoString → GoMap → GoMap
  | _, [], colIndexes => colIndexes
  | i, cell :: cells, colIndexes =>
    buildColIndexes.loop (i + 1) cells (mapAssign colIndexes cell i)

/-- The column-index map `readProducts` builds from the header row. -/
def buildColIndexes (header : List GoString) : GoMap :=
  buildColIndexes.loop 0 header []

/-- The guard `idx, ok := colIndexes[key]; ok && len(row) > idx` followed by the read of
`row[idx]`: the cell of `row` under the header `key`, when there is one. -/
def cellAt (colIndexes : GoMap) (row : List GoString) (key : GoString) : Option GoString :=
  match mapLookup colIndexes key with
  | some idx => if h : row.length > idx then some (row.get ⟨idx, h⟩) else none
  | none => none

/-- The picture loop of `readProducts`: every piece is trimmed and kept when it is not
empty. -/
def readProducts.pictures : List GoString → List GoString → List GoString
  | [], acc => acc
  | pic :: pics, acc =>
    let pic := TrimSpace pic
    if pic ≠ [] then readProducts.pictures pics (acc ++ [pic])
    else readProducts.pictures pics acc

/-- Name and unit of a parameter, from the header text that follows `Параметр:`. -/
def readProducts.nameUnit (paramName : GoString) : GoString × GoString :=
  let parts := Split paramName '('
  let name := TrimSpace paramName
  let unit : GoString := []
  match parts with
  | p0 :: p1 :: _ => (TrimSpace p0, TrimSuffix (TrimSpace p1) ")".toList)
  | _ => (name, unit)

/-- The body of the parameter loop of `readProducts` for the map entry `(key, idx)`: the
parameter it appends for the row, if any. -/
def readProducts.param (row : List GoString) (key : GoString) (idx : Nat) : Option ParamData :=
  if h : HasPrefix key paramPrefix = true ∧ row.length > idx then
    let paramName := TrimPrefix key paramPrefix
    let paramValue := row.get ⟨idx, h.2⟩
    if paramValue ≠ [] then
      let nu := readProducts.nameUnit paramName
      some ⟨nu.1, nu.2, paramValue⟩
    else none
  else none

/-- The parameter loop of `readProducts`, over the entries of the column-index map in the
order the `range` statement yields them. -/
def readProducts.params (row : List GoString) :
    List (GoString × Nat) → List ParamData → List ParamData
  | [], acc => acc
  | (key, idx) :: entries, acc =>
    match readProducts.param row key idx with
    | some param => readProducts.params row entries (acc ++ [param])
    | none => readProducts.params row entries acc

/-- The part of the body of the row loop of `readProducts` that follows the check of the id
and the name: the product of a row that is kept. -/
def readProducts.fill (ord : MapOrder) (colIndexes : GoMap) (i : Nat) (row : List GoString)
    (id name : GoString) : ProductData :=
  { ID := id
    Name := name
    Available :=
      match cellAt colIndexes row colAvailable with
      | some cell => ToLower cell == "да".toList || ToLower cell == "true".toList
      | none => true
    URL := (cellAt colIndexes row colURL).getD []
    Price :=
      match cellAt colIndexes row colPrice with
      | some cell =>
        match ParseFloat cell with
        | some price => price
        | none => Float64.zero
      | none => Float64.zero
    CurrencyID := (cellAt colIndexes row colCurrency).getD []
    CategoryID := (cellAt colIndexes row colCategory).getD []
    Pictures :=
      match cellAt colIndexes row colPictures with
      | some cell => readProducts.pictures (Split cell ',') []
      | none => []
    Vendor := (cellAt colIndexes row colVendor).getD []
    Description := (cellAt colIndexes row colDescription).getD []
    SalesNotes := (cellAt colIndexes row colSalesNotes).getD []
    Params := readProducts.params row (ord i colIndexes) [] }

/-- The body of the row loop of `readProducts` for the row of index `i`: `none` when the
row is skipped (`continue`), the product otherwise. -/
def readProducts.product (ord : MapOrder) (colIndexes : GoMap) (i : Nat)
    (row : List GoString) : Option ProductData :=
  if row.length = 0 then none
  else
    let id : GoString := (cellAt colIndexes row colID).getD []
    let name : GoString := (cellAt colIndexes row colName).getD []
    if id = [] ∨ name = [] then none
    else some (readProducts.fill ord colIndexes i row id name)

/-- The row loop of `readProducts`; `i` is the index of the first row of the list. -/
def readProducts.loop (ord : MapOrder) (colIndexes : GoMap) :
    Nat → List (List GoString) → List ProductData → List ProductData
  | _, [], products => products
  | i, row :: rows, products =>
    if i = 0 then readProducts.loop ord colIndexes (i + 1) rows products
    else
      match readProducts.product ord colIndexes i row with
      | none => readProducts.loop ord colIndexes (i + 1) rows products
      | some product => readProducts.loop ord colIndexes (i + 1) rows (products ++ [product])

/-- Go `readProducts`; `ord` is the order in which the column-index map is ranged over. -/
def readProducts (ord : MapOrder) (xlsx : File) : Except Error (List ProductData) :=
  let sheetName := sheetProducts
  if !sheetExists xlsx.GetSheetList sheetName then .error (.sheetNotFound sheetName)
  else
    match xlsx.GetRows sheetName with
    | .error err => .error (.readSheet sheetName err)
    | .ok rows =>
      match rows with
      | [] => .error (.noData sheetName)
      | header :: _ =>
        let colIndexes := buildColIndexes header
        let products := readProducts.loop ord colIndexes 0 rows []
        if products.length = 0 then .error .noProducts else .ok products

/-! ## The catalog -/

/-- Go `strconv.FormatBool`. -/
def FormatBool (b : Bool) : GoString :=
  if b then "true".toList else "false".toList

/-- The loop of `createYMLCatalog` that copies the parameters of a product. -/
def createYMLCatalog.params : List ParamData → List Param → List Param
  | [], acc => acc
  | param :: params, acc =>
    createYMLCatalog.params params (acc ++ [⟨param.Name, param.Unit, param.Value⟩])

/-- The offer `createYMLCatalog` makes of one product. -/
def createYMLCatalog.offer (product : ProductData) : Offer :=
  { ID := product.ID
    Available := FormatBool product.Available
    URL := product.URL
    Price := Sprintf2f product.Price
    CurrencyID := product.CurrencyID
    CategoryID := product.CategoryID
    Picture := product.Pictures
    Name := product.Name
    Vendor := product.Vendor
    Description := product.Description
    SalesNotes := product.SalesNotes
    Params := createYMLCatalog.params product.Params [] }

/-- The product loop of `createYMLCatalog`. -/
def createYMLCatalog.loop : List ProductData → List Offer → List Offer
  | [], offers => offers
  | product :: products, offers =>
    createYMLCatalog.loop products (offers ++ [createYMLCatalog.offer product])

/-- Go `createYMLCatalog`; `now` is `time.Now().Format("2006-01-02 15:04")`. -/
def createYMLCatalog (now : GoString) (shopData : ShopData) (currencies : List Currency)
    (categories : List Category) (products : List ProductData) : YMLCatalog :=
  { Date := now
    Shop :=
      { Name := shopData.Name
        Company := shopData.Company
        URL := shopData.URL
        Currencies := ⟨currencies⟩
        Categories := ⟨categories⟩
        Offers := ⟨createYMLCatalog.loop products []⟩ } }

/-! ## Writing the XML file (`encoding/xml`) -/

/-- An XML element, with its attributes and children in document order, or character data. -/
inductive XmlNode where
  | element (name : GoString) (attrs : List (GoString × GoString)) (children : List XmlNode)
  | chardata (text : GoString)

/-- Name of an element (empty for character data). -/
def XmlNode.name : XmlNode → GoString
  | .element name _ _ => name
  | .chardata _ => []

/-- Attributes of an element. -/
def XmlNode.attrs : XmlNode → List (GoString × GoString)
  | .element _ attrs _ => attrs
  | .chardata _ => []

/-- Children of an element. -/
def XmlNode.children : XmlNode → List XmlNode
  | .element _ _ children => children
  | .chardata _ => []

/-- The encoding of a string field with the tag `xml:"name"`: an element that holds the value
as character data; it is emitted also when the value is empty. -/
def textElement (name value : GoString) : XmlNode :=
  .element name [] [.chardata value]

/-- The encoding of a string field with the tag `xml:"name,omitempty"`: nothing when the value
is empty. -/
def optionalElement (name value : GoString) : List XmlNode :=
  if value = [] then [] else [textElement name value]

/-- The encoding of a string field with the tag `xml:"name,attr,omitempty"`: no attribute when
the value is empty. -/
def optionalAttr (name value : GoString) : List (GoString × GoString) :=
  if value = [] then [] else [(name, value)]

/-- The encoding of a `Currency`: tags `id,attr` and `rate,attr`. -/
def marshalCurrency (c : Currency) : XmlNode :=
  .element "currency".toList [("id".toList, c.ID), ("rate".toList, c.Rate)] []

/-- The encoding of a `Category`: tags `id,attr`, `parentId,attr,omitempty` and `,chardata`. -/
def marshalCategory (c : Category) : XmlNode :=
  .element "category".toList
    ([("id".toList, c.ID)] ++ optionalAttr "parentId".toList c.ParentID) [.chardata c.Name]

/-- The encoding of a `Param`: tags `name,attr`, `unit,attr,omitempty` and `,chardata`. -/
def marshalParam (p : Param) : XmlNode :=
  .element "param".toList
    ([("name".toList, p.Name)] ++ optionalAttr "unit".toList p.Unit) [.chardata p.Value]

/-- The encoding of an `Offer`, field by field in the order of the struct: a slice field gives
one element per item. -/
def marshalOffer (o : Offer) : XmlNode :=
  .element "offer".toList [("id".toList, o.ID), ("available".toList, o.Available)]
    ([textElement "url".toList o.URL, textElement "price".toList o.Price,
        textElement "currencyId".toList o.CurrencyID,
        textElement "categoryId".toList o.CategoryID] ++
      o.Picture.map (textElement "picture".toList) ++
      [textElement "name".toList o.Name] ++
      optionalElement "vendor".toList o.Vendor ++
      optionalElement "description".toList o.Description ++
      optionalElement "sales_notes".toList o.SalesNotes ++
      o.Params.map marshalParam)

/-- The encoding of a `Shop`. -/
def marshalShop (s : Shop) : XmlNode :=
  .element "shop".toList []
    [textElement "name".toList s.Name, textElement "company".toList s.Company,
      textElement "url".toList s.URL,
      .element "currencies".toList [] (s.Currencies.Currency.map marshalCurrency),
      .element "categories".toList [] (s.Categories.Category.map marshalCategory),
      .element "offers".toList [] (s.Offers.Offer.map marshalOffer)]

/-- The encoding of a `YMLCatalog`: the root element `yml_catalog` with the attribute `date`. -/
def marshalYMLCatalog (c : YMLCatalog) : XmlNode :=
  .element "yml_catalog".toList [("date".toList, c.Date)] [marshalShop c.Shop]

/-- What `writeXML` puts in the file: the XML declaration line, then the encoded catalog
(indented by two spaces). -/
structure Document where
  declaration : GoString
  root : XmlNode

/-- The line `writeXML` writes first. -/
def xmlDeclaration : GoString := "<?xml version=\"1.0\" encoding=\"UTF-8\"?>\n".toList

/-- The operating system and the worksheet library, as far as `parseExcelToYML` calls them:
`excelize.OpenFile`, the error of `os.Create` (if any) and the error met while writing to the
created file (if any). -/
structure System where
  OpenFile : GoString → Except GoString File
  Create : GoString → Option GoString
  WriteError : GoString → Option GoString

/-- The effects of a run, in the order they happen. -/
inductive Event where
  /-- The call `os.Create(path)` of `writeXML`. -/
  | create (path : GoString)
  /-- The declaration and the encoded catalog have been written to the file `path`. -/
  | write (path : GoString) (doc : Document)
  /-- A line printed on the standard output. -/
  | print (line : GoString)
  /-- The deferred `xlsx.Close()`. -/
  | close

/-- The event is a call of `os.Create` or a written file: `writeXML` has been invoked. -/
def Event.isOutput : Event → Bool
  | .create _ => true
  | .write _ _ => true
  | _ => false

/-- Go `writeXML`: the error it returns (`none` for `nil`) and its effects. -/
def writeXML (sys : System) (ymlCatalog : YMLCatalog) (outputFile : GoString) :
    Option GoString × List Event :=
  match sys.Create outputFile with
  | some err => (some err, [.create outputFile])
  | none =>
    match sys.WriteError outputFile with
    | some err => (some err, [.create outputFile])
    | none =>
      (none, [.create outputFile,
        .write outputFile ⟨xmlDeclaration, marshalYMLCatalog ymlCatalog⟩])

/-! ## The run -/

/-- The errors of `parseExcelToYML`: the error of a stage, wrapped with the message of the
stage. -/
inductive RunError where
  /-- The message `ошибка при открытии Excel файла: %w`. -/
  | openFile (err : GoString)
  /-- The message `ошибка при чтении настроек магазина: %w`. -/
  | shopSettings (err : Error)
  /-- The message `ошибка при чтении валют: %w`. -/
  | currencies (err : Error)
  /-- The message `ошибка при чтении категорий: %w`. -/
  | categories (err : Error)
  /-- The message `ошибка при чтении товаров: %w`. -/
  | products (err : Error)
  /-- The message `ошибка при записи XML: %w`. -/
  | writeXML (err : GoString)
deriving DecidableEq

/-- Go `parseExcelToYML`: the error it returns (`none` for `nil`) and its effects.  `ord` is
the order in which `readProducts` ranges over the column-index map and `now` the formatted
current time. -/
def parseExcelToYML (sys : System) (ord : MapOrder) (now : GoString)
    (inputFile outputFile : GoString) : Option RunError × List Event :=
  match sys.OpenFile inputFile with
  | .error err => (some (.openFile err), [])
  | .ok xlsx =>
    match readShopSettings xlsx with
    | .error err => (some (.shopSettings err), [.close])
    | .ok shopData =>
      match readCurrencies xlsx with
      | .error err => (some (.currencies err), [.close])
      | .ok currencies =>
        match readCategories xlsx with
        | .error err => (some (.categories err), [.close])
        | .ok categories =>
          match readProducts ord xlsx with
          | .error err => (some (.products err), [.close])
          | .ok products =>
            let ymlCatalog := createYMLCatalog now shopData currencies categories products
            match writeXML sys ymlCatalog outputFile with
            | (some err, events) => (some (.writeXML err), events ++ [.close])
            | (none, events) =>
              (none, events ++
                [.print ("YML-файл успешно создан: ".toList ++ outputFile ++ "\n".toList),
                  .close])

/-- The element has a child element with the given name. -/
def XmlNode.hasChild (node : XmlNode) (name : GoString) : Bool :=
  node.children.any (fun child => child.name == name)

/-- The element has an attribute with the given name. -/
def XmlNode.hasAttr (node : XmlNode) (name : GoString) : Bool :=
  node.attrs.any (fun attr => attr.1 == name)

/-! ## Vocabulary of the specification -/

/-- Index of the rightmost cell of `header` equal to `key`, when there is one. -/
def lastIndexOf : List GoString → GoString → Option Nat
  | [], _ => none
  | cell :: cells, key =>
    match lastIndexOf cells key with
    | some j => some (j + 1)
    | none => if cell = key then some 0 else none

/-- The cell of `row` under the header text `key`: its cell in the rightmost column of the
header row that carries `key`, when the header row has such a column and the row reaches it. -/
def headerCell (header row : List GoString) (key : GoString) : Option GoString :=
  (lastIndexOf header key).bind (fun j => row[j]?)

/-- A product row qualifies when its cells under the headers `ID товара` and `Название товара`
are both there and not empty. -/
def qualifyingRow (header row : List GoString) : Bool :=
  decide ((headerCell header row colID).getD [] ≠ [] ∧
    (headerCell header row colName).getD [] ≠ [])

/-- The id of a product row: its cell under the header `ID товара`, empty when the header or
the cell is missing. -/
def rowID (colIndexes : GoMap) (row : List GoString) : GoString :=
  (cellAt colIndexes row colID).getD []

/-- The name of a product row: its cell under the header `Название товара`, empty when the
header or the cell is missing. -/
def rowName (colIndexes : GoMap) (row : List GoString) : GoString :=
  (cellAt colIndexes row colName).getD []

/-- The test `id == "" || name == ""` of `readProducts`, negated: the row is kept. -/
def qualifies (colIndexes : GoMap) (row : List GoString) : Bool :=
  decide (rowID colIndexes row ≠ [] ∧ rowName colIndexes row ≠ [])

/-! ## Sample workbook -/

/-- Header row of the sample products sheet. -/
def sampleHeader : List GoString :=
  [colID, colName, colAvailable, colPrice, colPictures,
    "Параметр: Weight (kg)".toList, "Параметр: Color".toList]

/-- The full row of the sample products sheet; it has no cell under the last header. -/
def sampleRow : List GoString :=
  ["1".toList, "A".toList, "Да".toList, "19.5".toList, "a.jpg, b.jpg ,  , c.jpg".toList,
    "2.5".toList]

/-- The product of `sampleRow`, read as the row of index 1 with the map ranged over in
insertion order. -/
def sampleProduct : ProductData :=
  readProducts.fill insertionOrder (buildColIndexes sampleHeader) 1 sampleRow
    "1".toList "A".toList

/-- The data rows of the sample products sheet: the full row, a row without name, an empty
row, a row that ends after the name, a row with all its cells, and a row with an empty id. -/
def sampleData : List (List GoString) := [
  sampleRow,
  ["2".toList, [], "Да".toList],
  [],
  ["3".toList, "B".toList],
  ["4".toList, "C".toList, "no".toList, "abc".toList, [], [], "red".toList],
  [[], "D".toList, "true".toList]]

/-- Rows of the sample currencies sheet. -/
def sampleCurrencyRows : List (List GoString) :=
  [["ID".toList, "Rate".toList], ["RUR".toList, "1".toList], ["USD".toList]]

/-- Rows of the sample categories sheet. -/
def sampleCategoryRows : List (List GoString) :=
  [["ID".toList, "Name".toList, "Parent".toList], ["10".toList, "Books".toList],
    ["11".toList, "Novels".toList, "10".toList], ["12".toList]]

/-- Rows of the sample shop-settings sheet. -/
def sampleShopRows : List (List GoString) :=
  [["Key".toList, "Value".toList], [keyShopName, "Shop".toList], ["Phone".toList, "123".toList]]

/-- A workbook with the four sheets. -/
def sampleFile : File where
  GetSheetList := [sheetShopSettings, sheetCurrencies, sheetCategories, sheetProducts]
  GetRows := fun sheet =>
    if sheet = sheetProducts then .ok (sampleHeader :: sampleData)
    else if sheet = sheetCurrencies then .ok sampleCurrencyRows
    else if sheet = sheetCategories then .ok sampleCategoryRows
    else if sheet = sheetShopSettings then .ok sampleShopRows
    else .error "sheet does not exist".toList

/-! ## Inputs of the counterexamples -/

/-- A products header with an availability column. -/
def shortRowHeader : List GoString := [colID, colName, colAvailable]

/-- A product row that ends before the availability column. -/
def shortRow : List GoString := ["1".toList, "A".toList]

/-- A workbook whose products sheet is `shortRowHeader` followed by `shortRow`. -/
def shortRowFile : File where
  GetSheetList := [sheetProducts]
  GetRows := fun _ => .ok [shortRowHeader, shortRow]

/-- The unit of a parameter as the specification words it: everything after the first `(` of
the header text `rest`, without one trailing `)`. -/
def unitAfterFirstParen (rest : GoString) : GoString :=
  TrimSuffix ((rest.dropWhile (fun c => decide (c ≠ '('))).drop 1) ")".toList

/-- A products header with two parameter columns: one with two pairs of parentheses and one
with a blank after the opening parenthesis. -/
def parenHeader : List GoString :=
  [colID, colName, "Параметр: Weight (kg) (approx)".toList, "Параметр: Size ( cm)".toList]

/-- A product row with a value in both parameter columns of `parenHeader`. -/
def parenRow : List GoString := ["1".toList, "A".toList, "2.5".toList, "10".toList]

/-- The parameter the column `j` of the header row, with header text `key`, contributes to the
product of `row`: a parameter column contributes its cell when the cell is there and not empty,
unless the same header text stands again further right. -/
def columnParam (header row : List GoString) (j : Nat) (key : GoString) : Option ParamData :=
  match row[j]? with
  | some cell =>
    if HasPrefix key paramPrefix = true ∧ lastIndexOf header key = some j ∧ cell ≠ [] then
      some ⟨(readProducts.nameUnit (TrimPrefix key paramPrefix)).1,
        (readProducts.nameUnit (TrimPrefix key paramPrefix)).2, cell⟩
    else none
  | none => none

/-- A products header in which the text of a parameter column stands twice. -/
def repeatedHeader : List GoString :=
  [colID, colName, "Параметр: W".toList, "Параметр: W".toList]

/-- A product row with a value under the first of the two equal headers only. -/
def repeatedRow : List GoString := ["1".toList, "A".toList, "x".toList, []]

/-- An optional minus sign followed by one or more decimal digits. -/
def isIntegerText (s : GoString) : Bool :=
  match s with
  | '-' :: ds => !ds.isEmpty && ds.all Char.isDigit
  | ds => !ds.isEmpty && ds.all Char.isDigit

/-- A number written with exactly two decimal places: an integer text, a point, two digits. -/
def hasTwoDecimals (t : GoString) : Bool :=
  match t.reverse with
  | d2 :: d1 :: '.' :: intRev => d1.isDigit && d2.isDigit && isIntegerText intRev.reverse
  | _ => false

/-- A products header with a price column. -/
def priceHeader : List GoString := [colID, colName, colPrice]

/-! ## Inputs for the run -/

/-- A system on which every input path opens the workbook `xlsx` and no file operation
fails. -/
def systemOf (xlsx : File) : System where
  OpenFile := fun _ => .ok xlsx
  Create := fun _ => none
  WriteError := fun _ => none

/-- A workbook whose products sheet exists and has no row at all. -/
def emptySheetFile : File where
  GetSheetList := [sheetProducts]
  GetRows := fun _ => .ok []

/-- A workbook without any sheet. -/
def noSheetFile : File where
  GetSheetList := []
  GetRows := fun _ => .error "sheet does not exist".toList

/-- A workbook with the shop-settings sheet only. -/
def settingsOnlyFile : File where
  GetSheetList := [sheetShopSettings]
  GetRows := fun sheet =>
    if sheet = sheetShopSettings then .ok sampleShopRows
    else .error "sheet does not exist".toList


/-- A product whose currency id and category id are in no collection. -/
def orphanProduct : ProductData :=
  { sampleProduct with CurrencyID := "USD".toList, CategoryID := "7".toList }

/-! ## Vocabulary: shop settings, products up to the order of parameters, column permutations -/

/-- The value a row of the shop-settings sheet gives to `key`: its second cell, when the row has
at least two cells and its first cell is `key`. -/
def rowValue (row : List GoString) (key : GoString) : Option GoString :=
  match row with
  | k :: value :: _ => if k = key then some value else none
  | _ => none

/-- The value of the last row of the list that gives a value to `key`, when there is one. -/
def lastValue : List (List GoString) → GoString → Option GoString
  | [], _ => none
  | row :: rows, key =>
    match lastValue rows key with
    | some value => some value
    | none => rowValue row key

/-- The value of a shop-settings field: the last value given to its key when that value is not
empty, the default otherwise. -/
def settingOr (value : Option GoString) (default : GoString) : GoString :=
  match value with
  | some v => if v = [] then default else v
  | none => default

/-- A product without its parameters: all the other fields. -/
def ProductData.scalars (p : ProductData) : ProductData :=
  { p with Params := [] }

/-- Two product lists agree up to the order of the parameters of each product. -/
def sameProducts (products products' : List ProductData) : Prop :=
  List.Forall₂ (fun p p' => p.scalars = p'.scalars ∧ p.Params.Perm p'.Params) products products'

/-- The row whose cells are the cells of `row` in the columns `cols`, in that order. -/
def permuteColumns (cols : List Nat) (row : List GoString) : List GoString :=
  cols.map (fun j => row.getD j [])

/-- The iteration order opposite to the order of insertion. -/
def reverseOrder : MapOrder := fun _ m => m.reverse

/-- A product row with a value under both of the equal headers of `repeatedHeader`. -/
def repeatedRowBoth : List GoString := ["1".toList, "A".toList, "x".toList, "y".toList]

/-- The parameter the column `j` contributes to the product of `row` when no header text is
repeated: a parameter column contributes its cell when the cell is not empty. -/
def columnParamOf (header row : List GoString) (j : Nat) : Option ParamData :=
  if HasPrefix (header.getD j []) paramPrefix = true ∧ row.getD j [] ≠ [] then
    some ⟨(readProducts.nameUnit (TrimPrefix (header.getD j []) paramPrefix)).1,
      (readProducts.nameUnit (TrimPrefix (header.getD j []) paramPrefix)).2, row.getD j []⟩
  else none

/-- The columns of `sampleHeader` in another order. -/
def sampleColumns : List Nat := [6, 0, 5, 1, 4, 2, 3]

/-- A products sheet in which every data row has the width of the header: the header, two rows
that are kept and a row without id. -/
def wideData : List (List GoString) := [
  ["1".toList, "A".toList, "Да".toList, "19.5".toList, "a.jpg".toList, "2.5".toList,
    "red".toList],
  [[], "B".toList, "true".toList, "1".toList, [], "3".toList, []],
  ["3".toList, "C".toList, "no".toList, [], [], [], "blue".toList]]

/-- A workbook whose products sheet is the given list of rows. -/
def productsFile (rows : List (List GoString)) : File where
  GetSheetList := [sheetProducts]
  GetRows := fun _ => .ok rows

/-! ## Loops as list operations -/

theorem readProducts_loop_succ (ord : MapOrder) (colIndexes : GoMap)
    (rows : List (List GoString)) (i : Nat) (products : List ProductData) :
    readProducts.loop ord colIndexes (i + 1) rows products =
      products ++ (rows.enumFrom (i + 1)).filterMap
        (fun ir => readProducts.product ord colIndexes ir.1 ir.2) := by
  induction rows generalizing i products with
  | nil => simp [readProducts.loop]
  | cons row rows ih =>
    rw [readProducts.loop]
    simp only [Nat.add_one_ne_zero, if_false, List.enumFrom_cons, List.filterMap_cons]
    cases hp : readProducts.product ord colIndexes (i + 1) row with
    | none => simp [ih]
    | some p => simp [ih]

theorem readProducts_loop_zero (ord : MapOrder) (colIndexes : GoMap)
    (header : List GoString) (data : List (List GoString)) :
    readProducts.loop ord colIndexes 0 (header :: data) [] =
      (data.enumFrom 1).filterMap (fun ir => readProducts.product ord colIndexes ir.1 ir.2) := by
  rw [readProducts.loop]
  simp [readProducts_loop_succ]

theorem createYMLCatalog_loop_eq (products : List ProductData) (offers : List Offer) :
    createYMLCatalog.loop products offers = offers ++ products.map createYMLCatalog.offer := by
  induction products generalizing offers with
  | nil => simp [createYMLCatalog.loop]
  | cons p ps ih => simp [createYMLCatalog.loop, ih]

theorem cellAt_nil (colIndexes : GoMap) (key : GoString) : cellAt colIndexes [] key = none := by
  unfold cellAt
  cases mapLookup colIndexes key <;> simp

theorem product_eq_none_iff (ord : MapOrder) (colIndexes : GoMap) (i : Nat)
    (row : List GoString) :
    readProducts.product ord colIndexes i row = none ↔ qualifies colIndexes row = false := by
  unfold readProducts.product qualifies rowID rowName
  by_cases hrow : row.length = 0
  · have hnil : row = [] := List.length_eq_zero.mp hrow
    subst hnil
    simp [cellAt_nil]
  · simp only [hrow, if_false]
    by_cases h1 : (cellAt colIndexes row colID).getD [] = [] <;>
      by_cases h2 : (cellAt colIndexes row colName).getD [] = [] <;> simp [h1, h2]

theorem product_eq_some_iff (ord : MapOrder) (colIndexes : GoMap) (i : Nat)
    (row : List GoString) (p : ProductData) :
    readProducts.product ord colIndexes i row = some p ↔
      qualifies colIndexes row = true ∧
        p = readProducts.fill ord colIndexes i row (rowID colIndexes row)
          (rowName colIndexes row) := by
  unfold readProducts.product qualifies rowID rowName
  by_cases hrow : row.length = 0
  · have hnil : row = [] := List.length_eq_zero.mp hrow
    subst hnil
    simp [cellAt_nil]
  · simp only [hrow, if_false]
    by_cases h1 : (cellAt colIndexes row colID).getD [] = [] <;>
      by_cases h2 : (cellAt colIndexes row colName).getD [] = [] <;> simp [h1, h2, eq_comm]

theorem product_some_keys (ord : MapOrder) (colIndexes : GoMap) (i : Nat)
    (row : List GoString) (p : ProductData)
    (hp : readProducts.product ord colIndexes i row = some p) :
    p.ID = rowID colIndexes row ∧ p.Name = rowName colIndexes row := by
  rw [product_eq_some_iff] at hp
  rw [hp.2]
  exact ⟨rfl, rfl⟩

/-! ## The column-index map -/

theorem mapLookup_mapAssign (m : GoMap) (k : GoString) (v : Nat) (key : GoString) :
    mapLookup (mapAssign m k v) key = if k = key then some v else mapLookup m key := by
  induction m with
  | nil => simp [mapAssign, mapLookup]
  | cons e m ih =>
    obtain ⟨k', v'⟩ := e
    unfold mapAssign
    by_cases h : k' = k
    · subst h
      by_cases h2 : k' = key <;> simp [mapLookup, h2]
    · by_cases h2 : k' = key
      · subst h2
        have h3 : ¬ k = k' := fun h4 => h h4.symm
        simp [mapLookup, h, h3]
      · simp [mapLookup, h, h2, ih]

theorem mapLookup_loop (i : Nat) (cells : List GoString) (m : GoMap) (key : GoString) :
    mapLookup (buildColIndexes.loop i cells m) key =
      match lastIndexOf cells key with
      | some j => some (i + j)
      | none => mapLookup m key := by
  induction cells generalizing i m with
  | nil => simp [buildColIndexes.loop, lastIndexOf]
  | cons cell cells ih =>
    rw [buildColIndexes.loop, ih, lastIndexOf]
    cases h : lastIndexOf cells key with
    | some j => simp; omega
    | none =>
      simp only [mapLookup_mapAssign]
      by_cases h2 : cell = key <;> simp [h2]

theorem mapLookup_buildColIndexes (header : List GoString) (key : GoString) :
    mapLookup (buildColIndexes header) key = lastIndexOf header key := by
  unfold buildColIndexes
  rw [mapLookup_loop]
  cases lastIndexOf header key <;> simp [mapLookup]

theorem lastIndexOf_eq_none_iff (header : List GoString) (key : GoString) :
    lastIndexOf header key = none ↔ key ∉ header := by
  induction header with
  | nil => simp [lastIndexOf]
  | cons cell cells ih =>
    rw [lastIndexOf]
    cases h : lastIndexOf cells key with
    | some j =>
      have : key ∈ cells := by
        by_contra hc
        rw [ih.mpr hc] at h
        cases h
      simp [this]
    | none =>
      have hn := ih.mp h
      by_cases h2 : cell = key
      · simp [h2]
      · have h3 : ¬ key = cell := fun h4 => h2 h4.symm
        simp [h2, h3, hn]

theorem lastIndexOf_some (header : List GoString) (key : GoString) (j : Nat)
    (h : lastIndexOf header key = some j) :
    header[j]? = some key ∧ ∀ k, j < k → header[k]? ≠ some key := by
  induction header generalizing j with
  | nil => simp [lastIndexOf] at h
  | cons cell cells ih =>
    rw [lastIndexOf] at h
    cases h1 : lastIndexOf cells key with
    | some j' =>
      rw [h1] at h
      simp only [Option.some.injEq] at h
      subst h
      obtain ⟨ha, hb⟩ := ih j' h1
      refine ⟨by simpa using ha, ?_⟩
      intro k hk
      cases k with
      | zero => omega
      | succ k => simpa using hb k (by omega)
    | none =>
      rw [h1] at h
      by_cases h2 : cell = key
      · simp only [h2, if_true, Option.some.injEq] at h
        subst h
        refine ⟨by simp [h2], ?_⟩
        intro k hk
        cases k with
        | zero => omega
        | succ k =>
          have hn := (lastIndexOf_eq_none_iff cells key).mp h1
          simp only [List.getElem?_cons_succ]
          intro hc
          exact hn (List.getElem?_mem hc)
      · simp [h2] at h

/-! ## Cells under a header -/

theorem cellAt_eq_bind (colIndexes : GoMap) (row : List GoString) (key : GoString) :
    cellAt colIndexes row key = (mapLookup colIndexes key).bind (fun idx => row[idx]?) := by
  unfold cellAt
  cases mapLookup colIndexes key with
  | none => rfl
  | some idx =>
    by_cases h : row.length > idx
    · simp [h, List.getElem?_eq_getElem h]
    · simp [h, List.getElem?_eq_none (Nat.le_of_not_lt h)]

theorem cellAt_buildColIndexes (header row : List GoString) (key : GoString) :
    cellAt (buildColIndexes header) row key =
      (lastIndexOf header key).bind (fun idx => row[idx]?) := by
  rw [cellAt_eq_bind, mapLookup_buildColIndexes]

theorem cellAt_eq_headerCell (header row : List GoString) (key : GoString) :
    cellAt (buildColIndexes header) row key = headerCell header row key :=
  cellAt_buildColIndexes header row key

theorem qualifies_eq_qualifyingRow (header row : List GoString) :
    qualifies (buildColIndexes header) row = qualifyingRow header row := by
  unfold qualifies qualifyingRow rowID rowName
  rw [cellAt_eq_headerCell, cellAt_eq_headerCell]

/-! ## Strings -/

theorem rdropWhile_append_rtakeWhile (p : Char → Bool) (l : GoString) :
    l.rdropWhile p ++ l.rtakeWhile p = l := by
  unfold List.rdropWhile List.rtakeWhile
  rw [← List.reverse_append, List.takeWhile_append_dropWhile, List.reverse_reverse]

theorem TrimSpace_decomp (s : GoString) :
    ∃ l r, s = l ++ TrimSpace s ++ r ∧ (∀ c ∈ l, isSpace c = true) ∧
      (∀ c ∈ r, isSpace c = true) := by
  refine ⟨s.takeWhile isSpace, (s.dropWhile isSpace).rtakeWhile isSpace, ?_, ?_, ?_⟩
  · unfold TrimSpace
    rw [List.append_assoc, rdropWhile_append_rtakeWhile, List.takeWhile_append_dropWhile]
  · intro c hc
    exact List.mem_takeWhile_imp hc
  · intro c hc
    exact List.mem_rtakeWhile_imp hc

theorem TrimSpace_within (s : GoString) : TrimSpace s <:+: s := by
  obtain ⟨l, r, h, _, _⟩ := TrimSpace_decomp s
  exact ⟨l, r, h.symm⟩

theorem TrimSpace_head (s : GoString) (c : Char) (h : (TrimSpace s).head? = some c) :
    isSpace c = false := by
  have hne : TrimSpace s ≠ [] := by
    intro h0
    rw [h0] at h
    cases h
  have hpre : TrimSpace s <+: s.dropWhile isSpace := List.rdropWhile_prefix isSpace _
  have hd : s.dropWhile isSpace ≠ [] := by
    intro h0
    rw [h0] at hpre
    exact hne (List.prefix_nil.mp hpre)
  have h1 := List.IsPrefix.head hpre hne
  have h2 := List.head_dropWhile_not isSpace s hd
  rw [List.head?_eq_head hne] at h
  simp only [Option.some.injEq] at h
  rw [← h, h1]
  exact h2

theorem TrimSpace_getLast (s : GoString) (c : Char) (h : (TrimSpace s).getLast? = some c) :
    isSpace c = false := by
  have hne : TrimSpace s ≠ [] := by
    intro h0
    rw [h0] at h
    cases h
  rw [List.getLast?_eq_getLast _ hne] at h
  simp only [Option.some.injEq] at h
  have := List.rdropWhile_last_not isSpace (s.dropWhile isSpace) hne
  rw [← h]
  simpa [TrimSpace] using this

theorem Split_ne_nil (s : GoString) (sep : Char) : Split s sep ≠ [] := by
  cases s with
  | nil => simp [Split]
  | cons c cs =>
    unfold Split
    split
    · simp
    · split <;> simp

theorem intercalate_Split (s : GoString) (sep : Char) : [sep].intercalate (Split s sep) = s := by
  induction s with
  | nil => simp [Split, List.intercalate]
  | cons c cs ih =>
    unfold Split
    by_cases h : c = sep
    · subst h
      simp only [if_true]
      cases hs : Split cs c with
      | nil => exact absurd hs (Split_ne_nil cs c)
      | cons seg segs =>
        rw [hs] at ih
        rw [← ih]
        simp [List.intercalate, List.intersperse]
    · simp only [h, if_false]
      cases hs : Split cs sep with
      | nil => exact absurd hs (Split_ne_nil cs sep)
      | cons seg segs =>
        rw [hs] at ih
        simp only
        rw [← ih]
        cases segs <;> simp [List.intercalate, List.intersperse]

theorem not_mem_of_mem_Split (s : GoString) (sep : Char) (seg : GoString)
    (h : seg ∈ Split s sep) : sep ∉ seg := by
  induction s generalizing seg with
  | nil =>
    simp only [Split, List.mem_singleton] at h
    subst h
    simp
  | cons c cs ih =>
    unfold Split at h
    by_cases hc : c = sep
    · simp only [hc, if_true, List.mem_cons] at h
      rcases h with h | h
      · subst h
        simp
      · exact ih seg h
    · simp only [hc, if_false] at h
      cases hs : Split cs sep with
      | nil => exact absurd hs (Split_ne_nil cs sep)
      | cons seg' segs =>
        rw [hs] at h ih
        simp only [List.mem_cons] at h
        rcases h with h | h
        · subst h
          have := ih seg' (by simp)
          simp only [List.mem_cons, not_or]
          exact ⟨fun h' => hc h'.symm, this⟩
        · exact ih seg (by simp [h])

theorem pictures_loop_eq (pics acc : List GoString) :
    readProducts.pictures pics acc =
      acc ++ (pics.map TrimSpace).filter (fun pic => decide (pic ≠ [])) := by
  induction pics generalizing acc with
  | nil => simp [readProducts.pictures]
  | cons pic pics ih =>
    unfold readProducts.pictures
    by_cases h : TrimSpace pic = []
    · simp [h, ih]
    · simp [h, ih]

/-! ## Products and offers -/

theorem products_rowwise (ord : MapOrder) (colIndexes : GoMap) (n : Nat)
    (data : List (List GoString)) :
    List.Forall₂
      (fun (p : ProductData) (row : List GoString) =>
        p.ID = rowID colIndexes row ∧ p.Name = rowName colIndexes row ∧
          ∃ i, readProducts.product ord colIndexes i row = some p)
      ((data.enumFrom n).filterMap (fun ir => readProducts.product ord colIndexes ir.1 ir.2))
      (data.filter (qualifies colIndexes)) := by
  induction data generalizing n with
  | nil => simp
  | cons row data ih =>
    simp only [List.enumFrom_cons, List.filterMap_cons, List.filter_cons]
    cases hp : readProducts.product ord colIndexes n row with
    | none =>
      have hq := (product_eq_none_iff ord colIndexes n row).mp hp
      simpa [hq] using ih (n + 1)
    | some p =>
      have hq := ((product_eq_some_iff ord colIndexes n row p).mp hp).1
      have hk := product_some_keys ord colIndexes n row p hp
      simp only [hq, if_true]
      exact List.Forall₂.cons ⟨hk.1, hk.2, n, hp⟩ (ih (n + 1))

theorem readProducts_of_rows (ord : MapOrder) (xlsx : File) (header : List GoString)
    (data : List (List GoString))
    (hsheet : sheetExists xlsx.GetSheetList sheetProducts = true)
    (hrows : xlsx.GetRows sheetProducts = .ok (header :: data)) :
    readProducts ord xlsx =
      if ((data.enumFrom 1).filterMap
          (fun ir => readProducts.product ord (buildColIndexes header) ir.1 ir.2)).length = 0
      then .error .noProducts
      else .ok ((data.enumFrom 1).filterMap
          (fun ir => readProducts.product ord (buildColIndexes header) ir.1 ir.2)) := by
  unfold readProducts
  simp only [hsheet, hrows, readProducts_loop_zero]
  rfl

/-- C1: on a products sheet with a header row, `readProducts` followed by `createYMLCatalog`
yields the offers of the data rows whose cells under the headers `ID товара` and
`Название товара` are both there and not empty: the offers and those rows correspond one to
one and in row order, every offer being the offer of its row and carrying the row's id and
name, so the number of offers is the number of such rows; when no row qualifies,
`readProducts` fails and no offer is made. -/
theorem readProducts_offers_match_qualifying_rows (ord : MapOrder) (xlsx : File)
    (header : List GoString) (data : List (List GoString)) (now : GoString)
    (shopData : ShopData) (currencies : List Currency) (categories : List Category)
    (hsheet : sheetExists xlsx.GetSheetList sheetProducts = true)
    (hrows : xlsx.GetRows sheetProducts = .ok (header :: data)) :
    (data.filter (qualifyingRow header) ≠ [] →
      ∃ products, readProducts ord xlsx = .ok products ∧
        List.Forall₂
          (fun (offer : Offer) (row : List GoString) =>
            offer.ID = (headerCell header row colID).getD [] ∧
            offer.Name = (headerCell header row colName).getD [] ∧
            ∃ i p, readProducts.product ord (buildColIndexes header) i row = some p ∧
              offer = createYMLCatalog.offer p)
          (createYMLCatalog now shopData currencies categories products).Shop.Offers.Offer
          (data.filter (qualifyingRow header)) ∧
        (createYMLCatalog now shopData currencies categories products).Shop.Offers.Offer.length =
          (data.filter (qualifyingRow header)).length) ∧
    (data.filter (qualifyingRow header) = [] →
      readProducts ord xlsx = .error .noProducts) := by
  have hrel := products_rowwise ord (buildColIndexes header) 1 data
  have hq : qualifies (buildColIndexes header) = qualifyingRow header :=
    funext (qualifies_eq_qualifyingRow header)
  rw [hq] at hrel
  rw [readProducts_of_rows ord xlsx header data hsheet hrows]
  generalize (data.enumFrom 1).filterMap
    (fun ir => readProducts.product ord (buildColIndexes header) ir.1 ir.2) = ps at hrel ⊢
  have hlen := hrel.length_eq
  constructor
  · intro hne
    have hpos : (data.filter (qualifyingRow header)).length ≠ 0 := by
      simpa [List.length_eq_zero] using hne
    refine ⟨ps, ?_, ?_, ?_⟩
    · rw [if_neg (by rw [hlen]; exact hpos)]
    · simp only [createYMLCatalog, createYMLCatalog_loop_eq, List.nil_append]
      rw [List.forall₂_map_left_iff]
      refine hrel.imp ?_
      rintro p row ⟨h1, h2, i, h3⟩
      refine ⟨?_, ?_, i, p, h3, rfl⟩
      · rw [← cellAt_eq_headerCell]
        exact h1
      · rw [← cellAt_eq_headerCell]
        exact h2
    · simp only [createYMLCatalog, createYMLCatalog_loop_eq, List.nil_append, List.length_map]
      exact hlen
  · intro hnil
    rw [if_pos (by rw [hlen, hnil]; rfl)]

/-- C1, witness: the sample workbook, in which three of the six data rows qualify. -/
theorem readProducts_offers_match_qualifying_rows_witness :
    sheetExists sampleFile.GetSheetList sheetProducts = true ∧
    sampleFile.GetRows sheetProducts = .ok (sampleHeader :: sampleData) ∧
    (sampleData.filter (qualifyingRow sampleHeader)).length = 3 ∧
    ∃ products, readProducts insertionOrder sampleFile = .ok products ∧
      (createYMLCatalog [] ⟨[], [], []⟩ [] [] products).Shop.Offers.Offer.length =
        (sampleData.filter (qualifyingRow sampleHeader)).length :=
  ⟨by decide, by rfl, by decide,
    ((readProducts_offers_match_qualifying_rows insertionOrder sampleFile
      sampleHeader sampleData [] ⟨[], [], []⟩ [] [] (by decide) (by rfl)).1 (by decide)).elim
      (fun products h => ⟨products, h.1, h.2.2⟩)⟩

/-! ## Availability -/

theorem formatBool_eq_true (b : Bool) : FormatBool b = "true".toList ↔ b = true := by
  cases b <;> simp [FormatBool]

theorem formatBool_eq_false (b : Bool) : FormatBool b = "false".toList ↔ b = false := by
  cases b <;> simp [FormatBool]

/-- C2, counterexample: the header has an availability column (at index 2) and the qualifying
row ends before it, so the row has no cell that compares equal to `да` or `true`; the
attribute of its offer is `"true"` all the same. -/
theorem available_short_row_counterexample :
    colAvailable ∈ shortRowHeader ∧
    lastIndexOf shortRowHeader colAvailable = some 2 ∧
    shortRow[2]? = none ∧
    (¬ ∃ cell, shortRow[2]? = some cell ∧
      (ToLower cell = "да".toList ∨ ToLower cell = "true".toList)) ∧
    qualifyingRow shortRowHeader shortRow = true ∧
    (readProducts insertionOrder shortRowFile).toOption.map
        (fun products =>
          (createYMLCatalog [] ⟨[], [], []⟩ [] [] products).Shop.Offers.Offer.map
            (fun offer => offer.Available)) =
      some ["true".toList] := by
  refine ⟨by decide, by decide, by decide, ?_, by decide, ?_⟩
  · rintro ⟨cell, hcell, _⟩
    have hnone : shortRow[2]? = none := by decide
    rw [hnone] at hcell
    cases hcell
  · decide

/-- C2 (amended): for a qualifying product row the `available` attribute is `"true"` when the
header has no availability column, and also when the row ends before that column; when the row
has a cell under the availability header, the attribute is `"true"` exactly when the lower-cased
cell is `"да"` or `"true"` and `"false"` for any other cell.  The cells `"Да"`, `"да"`, `"true"`
and `"TRUE"` all pass the comparison. -/
theorem available_attribute (ord : MapOrder) (header : List GoString) (i : Nat)
    (row : List GoString) (p : ProductData)
    (hp : readProducts.product ord (buildColIndexes header) i row = some p) :
    (colAvailable ∉ header → (createYMLCatalog.offer p).Available = "true".toList) ∧
    (∀ idx, lastIndexOf header colAvailable = some idx →
      (row.length ≤ idx → (createYMLCatalog.offer p).Available = "true".toList) ∧
      (∀ cell, row[idx]? = some cell →
        ((createYMLCatalog.offer p).Available = "true".toList ↔
          (ToLower cell = "да".toList ∨ ToLower cell = "true".toList)) ∧
        (¬ (ToLower cell = "да".toList ∨ ToLower cell = "true".toList) →
          (createYMLCatalog.offer p).Available = "false".toList))) ∧
    (∀ cell ∈ ["Да".toList, "да".toList, "true".toList, "TRUE".toList],
      ToLower cell = "да".toList ∨ ToLower cell = "true".toList) := by
  rw [product_eq_some_iff] at hp
  have hA : (createYMLCatalog.offer p).Available =
      FormatBool (match (lastIndexOf header colAvailable).bind (fun idx => row[idx]?) with
        | some cell => ToLower cell == "да".toList || ToLower cell == "true".toList
        | none => true) := by
    rw [hp.2, ← cellAt_buildColIndexes]
    rfl
  refine ⟨?_, ?_, by decide⟩
  · intro hno
    rw [hA, (lastIndexOf_eq_none_iff header colAvailable).mpr hno]
    rfl
  · intro idx hidx
    rw [hA, hidx]
    refine ⟨?_, ?_⟩
    · intro hlen
      simp only [Option.some_bind, List.getElem?_eq_none hlen]
      rfl
    · intro cell hcell
      simp only [Option.some_bind, hcell]
      refine ⟨?_, ?_⟩
      · rw [formatBool_eq_true]
        simp
      · intro hnot
        rw [formatBool_eq_false]
        simpa using hnot

/-- C2, witness: the sample row has the cell `Да` under the availability header. -/
theorem available_attribute_witness :
    readProducts.product insertionOrder (buildColIndexes sampleHeader) 1 sampleRow =
      some sampleProduct ∧
    lastIndexOf sampleHeader colAvailable = some 2 ∧
    sampleRow[2]? = some "Да".toList ∧
    (createYMLCatalog.offer sampleProduct).Available = "true".toList :=
  ⟨by rfl, by decide, by rfl,
    (((available_attribute insertionOrder sampleHeader 1 sampleRow sampleProduct
      (by rfl)).2.1 2 (by decide)).2 "Да".toList (by rfl)).1.mpr (by decide)⟩

/-! ## Pictures -/

/-- C3: when a product row has the cell `s` under the header `URL изображения`, the picture
list of the product is the list of the comma-separated pieces of `s` (joining them with commas gives `s`
back and no piece holds a comma), each trimmed of the white space around it, without the empty
ones and in the original order; no picture is empty, holds a comma, or starts or ends with
white space; and the cell `a.jpg, b.jpg ,  , c.jpg` gives `a.jpg`, `b.jpg`, `c.jpg`. -/
theorem pictures_of_cell (ord : MapOrder) (header : List GoString) (i : Nat)
    (row : List GoString) (p : ProductData) (s : GoString)
    (hp : readProducts.product ord (buildColIndexes header) i row = some p)
    (hs : headerCell header row colPictures = some s) :
    p.Pictures = ((Split s ',').map TrimSpace).filter (fun pic => decide (pic ≠ [])) ∧
    [','].intercalate (Split s ',') = s ∧
    (∀ seg ∈ Split s ',', ',' ∉ seg ∧
      ∃ l r, seg = l ++ TrimSpace seg ++ r ∧ (∀ c ∈ l, isSpace c = true) ∧
        (∀ c ∈ r, isSpace c = true)) ∧
    (∀ pic ∈ p.Pictures, pic ≠ [] ∧ ',' ∉ pic ∧
      (∀ c, pic.head? = some c → isSpace c = false) ∧
      (∀ c, pic.getLast? = some c → isSpace c = false)) ∧
    readProducts.pictures (Split "a.jpg, b.jpg ,  , c.jpg".toList ',') [] =
      ["a.jpg".toList, "b.jpg".toList, "c.jpg".toList] := by
  rw [product_eq_some_iff] at hp
  rw [← cellAt_eq_headerCell] at hs
  have hP : p.Pictures = ((Split s ',').map TrimSpace).filter (fun pic => decide (pic ≠ [])) := by
    rw [hp.2]
    show (match cellAt (buildColIndexes header) row colPictures with
      | some cell => readProducts.pictures (Split cell ',') []
      | none => []) = _
    rw [hs]
    simp only [pictures_loop_eq, List.nil_append]
  refine ⟨hP, intercalate_Split s ',', ?_, ?_, by decide⟩
  · intro seg hseg
    exact ⟨not_mem_of_mem_Split s ',' seg hseg, TrimSpace_decomp seg⟩
  · intro pic hpic
    rw [hP, List.mem_filter, List.mem_map] at hpic
    obtain ⟨⟨seg, hseg, hpicseg⟩, hne⟩ := hpic
    subst hpicseg
    refine ⟨by simpa using hne, ?_, TrimSpace_head seg, TrimSpace_getLast seg⟩
    intro hcomma
    exact not_mem_of_mem_Split s ',' seg hseg ((TrimSpace_within seg).mem hcomma)

/-- C3, witness: the sample row has the pictures cell `a.jpg, b.jpg ,  , c.jpg`. -/
theorem pictures_of_cell_witness :
    readProducts.product insertionOrder (buildColIndexes sampleHeader) 1 sampleRow =
      some sampleProduct ∧
    headerCell sampleHeader sampleRow colPictures = some "a.jpg, b.jpg ,  , c.jpg".toList ∧
    sampleProduct.Pictures = ["a.jpg".toList, "b.jpg".toList, "c.jpg".toList] :=
  ⟨by rfl, by rfl,
    (pictures_of_cell insertionOrder sampleHeader 1 sampleRow sampleProduct
      "a.jpg, b.jpg ,  , c.jpg".toList (by rfl) (by rfl)).1.trans (by decide)⟩

/-! ## Parameter names and units -/

theorem Split_eq_takeWhile_cons (s : GoString) (sep : Char) :
    Split s sep = s.takeWhile (fun c => decide (c ≠ sep)) ::
      (match s.dropWhile (fun c => decide (c ≠ sep)) with
        | [] => []
        | _ :: rest => Split rest sep) := by
  induction s with
  | nil => simp [Split]
  | cons c cs ih =>
    conv_lhs => rw [Split]
    by_cases h : c = sep
    · simp [h, List.takeWhile_cons, List.dropWhile_cons]
    · simp only [h, if_false]
      rw [ih]
      simp [h, List.takeWhile_cons, List.dropWhile_cons]

theorem dropWhile_ne_eq_nil_iff (s : GoString) (sep : Char) :
    s.dropWhile (fun c => decide (c ≠ sep)) = [] ↔ sep ∉ s := by
  rw [List.dropWhile_eq_nil_iff]
  constructor
  · intro h hmem
    simpa using h sep hmem
  · intro h x hx
    have : x ≠ sep := fun hxs => h (hxs ▸ hx)
    simpa using this

theorem dropWhile_ne_of_mem (s : GoString) (sep : Char) (h : sep ∈ s) :
    s.dropWhile (fun c => decide (c ≠ sep)) =
      sep :: (s.dropWhile (fun c => decide (c ≠ sep))).drop 1 := by
  induction s with
  | nil => simp at h
  | cons c cs ih =>
    by_cases hc : c = sep
    · simp [hc, List.dropWhile_cons]
    · have hmem : sep ∈ cs := by
        rcases List.mem_cons.mp h with h1 | h1
        · exact absurd h1.symm hc
        · exact h1
      simp only [List.dropWhile_cons, hc, ne_eq, not_false_eq_true, decide_True, if_true]
      exact ih hmem

theorem nameUnit_of_paren (rest : GoString) (h : '(' ∈ rest) :
    readProducts.nameUnit rest =
      (TrimSpace (rest.takeWhile (fun c => decide (c ≠ '('))),
        TrimSuffix (TrimSpace (((rest.dropWhile (fun c => decide (c ≠ '('))).drop 1).takeWhile
          (fun c => decide (c ≠ '(')))) ")".toList) := by
  unfold readProducts.nameUnit
  rw [Split_eq_takeWhile_cons rest '(', dropWhile_ne_of_mem rest '(' h]
  simp only
  rw [Split_eq_takeWhile_cons _ '(']
  simp

theorem nameUnit_of_no_paren (rest : GoString) (h : '(' ∉ rest) :
    readProducts.nameUnit rest = (TrimSpace rest, []) := by
  unfold readProducts.nameUnit
  rw [Split_eq_takeWhile_cons rest '(', (dropWhile_ne_eq_nil_iff rest '(').mpr h]

theorem param_of_cell (row : List GoString) (key : GoString) (idx : Nat)
    (hpre : HasPrefix key paramPrefix = true) (hidx : idx < row.length)
    (hcell : row.get ⟨idx, hidx⟩ ≠ []) :
    readProducts.param row key idx =
      some ⟨(readProducts.nameUnit (TrimPrefix key paramPrefix)).1,
        (readProducts.nameUnit (TrimPrefix key paramPrefix)).2, row.get ⟨idx, hidx⟩⟩ := by
  have h : HasPrefix key paramPrefix = true ∧ row.length > idx := ⟨hpre, hidx⟩
  simp only [readProducts.param, h, and_self, dite_true, hcell, ne_eq, not_false_eq_true,
    if_true]

theorem params_single (row : List GoString) (key : GoString) (idx : Nat)
    (hpre : HasPrefix key paramPrefix = true) (hidx : idx < row.length)
    (hcell : row.get ⟨idx, hidx⟩ ≠ []) :
    readProducts.params row [(key, idx)] [] =
      [⟨(readProducts.nameUnit (TrimPrefix key paramPrefix)).1,
        (readProducts.nameUnit (TrimPrefix key paramPrefix)).2, row.get ⟨idx, hidx⟩⟩] := by
  simp only [readProducts.params, param_of_cell row key idx hpre hidx hcell, List.nil_append]

/-- C4, counterexample: with a second `(` in the header the unit stops before it, and white
space after the first `(` is trimmed away, whereas the text after the first `(` without one
trailing `)` is `kg) (approx` and ` cm`. -/
theorem param_unit_counterexample :
    '(' ∈ TrimPrefix "Параметр: Weight (kg) (approx)".toList paramPrefix ∧
    '(' ∈ TrimPrefix "Параметр: Size ( cm)".toList paramPrefix ∧
    (readProducts.product insertionOrder (buildColIndexes parenHeader) 1 parenRow).map
        (fun p => p.Params) =
      some [⟨"Weight".toList, "kg".toList, "2.5".toList⟩,
        ⟨"Size".toList, "cm".toList, "10".toList⟩] ∧
    unitAfterFirstParen (TrimPrefix "Параметр: Weight (kg) (approx)".toList paramPrefix) =
      "kg) (approx".toList ∧
    unitAfterFirstParen (TrimPrefix "Параметр: Size ( cm)".toList paramPrefix) =
      " cm".toList := by
  decide

/-- C4 (amended): for a parameter column whose header, after the text `Параметр:`, holds a
`(`, the parameter made of a non-empty cell has as name the trimmed text before the first `(`,
and as unit the text between that `(` and the next `(` (or the end of the header), trimmed of
the white space around it and then without one trailing `)`. -/
theorem param_name_unit_of_paren (row : List GoString) (key : GoString) (idx : Nat)
    (hpre : HasPrefix key paramPrefix = true)
    (hparen : '(' ∈ TrimPrefix key paramPrefix)
    (hidx : idx < row.length) (hcell : row.get ⟨idx, hidx⟩ ≠ []) :
    readProducts.params row [(key, idx)] [] =
      [⟨TrimSpace ((TrimPrefix key paramPrefix).takeWhile (fun c => decide (c ≠ '('))),
        TrimSuffix (TrimSpace
          ((((TrimPrefix key paramPrefix).dropWhile (fun c => decide (c ≠ '('))).drop 1).takeWhile
            (fun c => decide (c ≠ '(')))) ")".toList,
        row.get ⟨idx, hidx⟩⟩] := by
  rw [params_single row key idx hpre hidx hcell, nameUnit_of_paren _ hparen]

/-- C4, witness: the header `Параметр: Weight (kg)` over the cell `2.5`. -/
theorem param_name_unit_of_paren_witness :
    HasPrefix "Параметр: Weight (kg)".toList paramPrefix = true ∧
    '(' ∈ TrimPrefix "Параметр: Weight (kg)".toList paramPrefix ∧
    readProducts.params ["2.5".toList] [("Параметр: Weight (kg)".toList, 0)] [] =
      [⟨"Weight".toList, "kg".toList, "2.5".toList⟩] :=
  ⟨by decide, by decide,
    param_name_unit_of_paren ["2.5".toList] "Параметр: Weight (kg)".toList 0
      (by decide) (by decide) (by decide) (by decide)⟩

/-- C5: for a parameter column whose header, after the text `Параметр:`, holds no `(`, the
parameter made of a non-empty cell has the empty unit and, as name, the whole remainder of the
header trimmed of the white space around it. -/
theorem param_name_unit_of_no_paren (row : List GoString) (key : GoString) (idx : Nat)
    (hpre : HasPrefix key paramPrefix = true)
    (hparen : '(' ∉ TrimPrefix key paramPrefix)
    (hidx : idx < row.length) (hcell : row.get ⟨idx, hidx⟩ ≠ []) :
    readProducts.params row [(key, idx)] [] =
      [⟨TrimSpace (TrimPrefix key paramPrefix), [], row.get ⟨idx, hidx⟩⟩] := by
  rw [params_single row key idx hpre hidx hcell, nameUnit_of_no_paren _ hparen]

/-- C5, witness: the header `Параметр: Color` over the cell `red`. -/
theorem param_name_unit_of_no_paren_witness :
    HasPrefix "Параметр: Color".toList paramPrefix = true ∧
    '(' ∉ TrimPrefix "Параметр: Color".toList paramPrefix ∧
    readProducts.params ["red".toList] [("Параметр: Color".toList, 0)] [] =
      [⟨"Color".toList, [], "red".toList⟩] :=
  ⟨by decide, by decide,
    param_name_unit_of_no_paren ["red".toList] "Параметр: Color".toList 0
      (by decide) (by decide) (by decide) (by decide)⟩

/-! ## Entries of the column-index map -/

theorem keys_mapAssign (m : GoMap) (k : GoString) (v : Nat) :
    (mapAssign m k v).map Prod.fst =
      if k ∈ m.map Prod.fst then m.map Prod.fst else m.map Prod.fst ++ [k] := by
  induction m with
  | nil => simp [mapAssign]
  | cons e m ih =>
    obtain ⟨k', v'⟩ := e
    unfold mapAssign
    by_cases h : k' = k
    · simp [h]
    · have h' : ¬ k = k' := fun h2 => h h2.symm
      simp only [h, if_false, List.map_cons, ih, List.mem_cons, h', false_or]
      split <;> simp

theorem keys_nodup_mapAssign (m : GoMap) (k : GoString) (v : Nat)
    (h : (m.map Prod.fst).Nodup) : ((mapAssign m k v).map Prod.fst).Nodup := by
  rw [keys_mapAssign]
  split
  · exact h
  · rename_i hk
    exact List.Nodup.append h (List.nodup_singleton k) (by simpa using hk)

theorem keys_nodup_loop (i : Nat) (cells : List GoString) (m : GoMap)
    (h : (m.map Prod.fst).Nodup) : ((buildColIndexes.loop i cells m).map Prod.fst).Nodup := by
  induction cells generalizing i m with
  | nil => simpa [buildColIndexes.loop] using h
  | cons cell cells ih =>
    rw [buildColIndexes.loop]
    exact ih _ _ (keys_nodup_mapAssign m cell i h)

theorem keys_nodup_buildColIndexes (header : List GoString) :
    ((buildColIndexes header).map Prod.fst).Nodup :=
  keys_nodup_loop 0 header [] (by simp)

theorem mem_iff_mapLookup (m : GoMap) (h : (m.map Prod.fst).Nodup) (k : GoString) (v : Nat) :
    (k, v) ∈ m ↔ mapLookup m k = some v := by
  induction m with
  | nil => simp [mapLookup]
  | cons e m ih =>
    obtain ⟨k', v'⟩ := e
    simp only [List.map_cons, List.nodup_cons] at h
    unfold mapLookup
    by_cases hk : k' = k
    · subst hk
      have hnot : (k', v) ∉ m := fun hm => h.1 (List.mem_map.mpr ⟨(k', v), hm, rfl⟩)
      simp only [List.mem_cons, Prod.mk.injEq, true_and, hnot, or_false, if_true,
        Option.some.injEq]
      exact eq_comm
    · have hk' : ¬ k = k' := fun h2 => hk h2.symm
      simp only [List.mem_cons, Prod.mk.injEq, hk', false_and, false_or, hk, if_false]
      exact ih h.2

theorem mem_buildColIndexes (header : List GoString) (k : GoString) (v : Nat) :
    (k, v) ∈ buildColIndexes header ↔ lastIndexOf header k = some v := by
  rw [mem_iff_mapLookup _ (keys_nodup_buildColIndexes header), mapLookup_buildColIndexes]

theorem buildColIndexes_perm (header : List GoString) :
    (buildColIndexes header).Perm
      (header.enum.filterMap
        (fun jk => if lastIndexOf header jk.2 = some jk.1 then some (jk.2, jk.1) else none)) := by
  rw [List.perm_ext_iff_of_nodup]
  · intro e
    obtain ⟨k, v⟩ := e
    rw [mem_buildColIndexes, List.mem_filterMap]
    constructor
    · intro h
      refine ⟨(v, k), ?_, by simp [h]⟩
      rw [List.mem_enum_iff_getElem?]
      exact (lastIndexOf_some header k v h).1
    · rintro ⟨⟨j, key⟩, _, h2⟩
      by_cases hc : lastIndexOf header key = some j
      · simp only [hc, if_true, Option.some.injEq, Prod.mk.injEq] at h2
        rw [← h2.1, ← h2.2]
        exact hc
      · simp [hc] at h2
  · exact List.Nodup.of_map _ (keys_nodup_buildColIndexes header)
  · refine List.Nodup.filterMap ?_ (List.Nodup.of_map Prod.fst (List.nodup_enum_map_fst header))
    intro a a' b ha ha'
    obtain ⟨j, key⟩ := a
    obtain ⟨j', key'⟩ := a'
    by_cases hc : lastIndexOf header key = some j
    · by_cases hc' : lastIndexOf header key' = some j'
      · simp only [hc, hc', if_true, Option.mem_def, Option.some.injEq] at ha ha'
        rw [← ha'] at ha
        simp only [Prod.mk.injEq] at ha
        simp [ha.1, ha.2]
      · simp [hc'] at ha'
    · simp [hc] at ha

/-! ## Parameters -/

theorem params_loop_eq (row : List GoString) (entries : List (GoString × Nat))
    (acc : List ParamData) :
    readProducts.params row entries acc =
      acc ++ entries.filterMap (fun e => readProducts.param row e.1 e.2) := by
  induction entries generalizing acc with
  | nil => simp [readProducts.params]
  | cons e entries ih =>
    obtain ⟨key, idx⟩ := e
    rw [readProducts.params]
    cases h : readProducts.param row key idx with
    | none => simp [ih, h]
    | some q => simp [ih, h]

theorem param_eq_columnParam (header row : List GoString) (j : Nat) (key : GoString)
    (h : lastIndexOf header key = some j) :
    readProducts.param row key j = columnParam header row j key := by
  unfold readProducts.param columnParam
  by_cases hj : j < row.length
  · rw [List.getElem?_eq_getElem hj]
    by_cases hpre : HasPrefix key paramPrefix = true
    · by_cases hcell : row[j] = []
      · simp [hj, hpre, hcell, h]
      · simp [hj, hpre, hcell, h]
    · simp [hpre]
  · rw [List.getElem?_eq_none (Nat.le_of_not_lt hj)]
    simp [hj]

theorem columnParam_of_not_last (header row : List GoString) (j : Nat) (key : GoString)
    (h : lastIndexOf header key ≠ some j) : columnParam header row j key = none := by
  unfold columnParam
  cases row[j]? <;> simp [h]

theorem params_perm_columns (ord : MapOrder) (hord : ord.Valid) (header : List GoString)
    (i : Nat) (row : List GoString) :
    (readProducts.params row (ord i (buildColIndexes header)) []).Perm
      (header.enum.filterMap (fun jk => columnParam header row jk.1 jk.2)) := by
  rw [params_loop_eq, List.nil_append]
  refine ((hord i (buildColIndexes header)).filterMap _).trans ?_
  refine ((buildColIndexes_perm header).filterMap _).trans ?_
  rw [List.filterMap_filterMap]
  refine List.Perm.of_eq (List.filterMap_congr ?_)
  intro jk _
  obtain ⟨j, key⟩ := jk
  by_cases hc : lastIndexOf header key = some j
  · simp [hc, param_eq_columnParam header row j key hc]
  · simp [hc, columnParam_of_not_last header row j key hc]

theorem createYMLCatalog_params_eq (params : List ParamData) (acc : List Param) :
    createYMLCatalog.params params acc =
      acc ++ params.map (fun q => (⟨q.Name, q.Unit, q.Value⟩ : Param)) := by
  induction params generalizing acc with
  | nil => simp [createYMLCatalog.params]
  | cons q params ih => simp [createYMLCatalog.params, ih]

theorem insertionOrder_valid : insertionOrder.Valid := fun _ m => List.Perm.refl m

/-- C6, counterexample: the header text of the parameter column 2 stands again in column 3;
the qualifying row has the non-empty cell `x` in column 2 and its product has no parameter. -/
theorem repeated_header_counterexample :
    repeatedHeader[2]? = some "Параметр: W".toList ∧
    HasPrefix "Параметр: W".toList paramPrefix = true ∧
    repeatedRow[2]? = some "x".toList ∧
    qualifyingRow repeatedHeader repeatedRow = true ∧
    (readProducts.product insertionOrder (buildColIndexes repeatedHeader) 1 repeatedRow).map
        (fun p => p.Params) = some [] := by
  decide

/-- C6 (amended): whatever the order in which the column-index map is ranged over, the
parameter list of the product of a qualifying row holds, up to order, exactly one entry for
every parameter column whose header text does not stand again further right and whose cell in
the row is there and not empty, and nothing else.  For such a column with a cell in the row,
the entry made of the column's name and unit and of the cell is in the list if and only if the
cell is not empty.  The offer carries the same entries in the same order.  The header
`Параметр: Weight (kg)` with the cell `2.5` gives the parameter `Weight`, `kg`, `2.5`, and with
an empty cell it gives no parameter. -/
theorem params_of_row (ord : MapOrder) (hord : ord.Valid) (header : List GoString) (i : Nat)
    (row : List GoString) (p : ProductData)
    (hp : readProducts.product ord (buildColIndexes header) i row = some p) :
    p.Params.Perm (header.enum.filterMap (fun jk => columnParam header row jk.1 jk.2)) ∧
    (∀ j key cell, header[j]? = some key → HasPrefix key paramPrefix = true →
      lastIndexOf header key = some j → row[j]? = some cell →
      ((⟨(readProducts.nameUnit (TrimPrefix key paramPrefix)).1,
          (readProducts.nameUnit (TrimPrefix key paramPrefix)).2, cell⟩ : ParamData) ∈ p.Params ↔
        cell ≠ [])) ∧
    (createYMLCatalog.offer p).Params =
      p.Params.map (fun q => (⟨q.Name, q.Unit, q.Value⟩ : Param)) ∧
    (readProducts.product insertionOrder
        (buildColIndexes [colID, colName, "Параметр: Weight (kg)".toList]) 1
        ["1".toList, "A".toList, "2.5".toList]).map (fun q => q.Params) =
      some [⟨"Weight".toList, "kg".toList, "2.5".toList⟩] ∧
    (readProducts.product insertionOrder
        (buildColIndexes [colID, colName, "Параметр: Weight (kg)".toList]) 1
        ["1".toList, "A".toList, []]).map (fun q => q.Params) = some [] := by
  rw [product_eq_some_iff] at hp
  have hP : p.Params = readProducts.params row (ord i (buildColIndexes header)) [] := by
    rw [hp.2]
    rfl
  have hperm := params_perm_columns ord hord header i row
  rw [← hP] at hperm
  refine ⟨hperm, ?_, ?_, by decide, by decide⟩
  · intro j key cell hkey hpre hlast hcell
    rw [hperm.mem_iff, List.mem_filterMap]
    constructor
    · rintro ⟨⟨j', key'⟩, _, hcol⟩
      unfold columnParam at hcol
      cases hrow : row[j']? with
      | none => simp [hrow] at hcol
      | some cell' =>
        simp only [hrow] at hcol
        split at hcol
        · rename_i hcond
          simp only [Option.some.injEq, ParamData.mk.injEq] at hcol
          rw [← hcol.2.2]
          exact hcond.2.2
        · cases hcol
    · intro hne
      refine ⟨(j, key), List.mem_enum_iff_getElem?.mpr hkey, ?_⟩
      simp [columnParam, hcell, hpre, hlast, hne]
  · rw [hp.2]
    show createYMLCatalog.params _ [] = _
    rw [createYMLCatalog_params_eq, List.nil_append]

/-- C6, witness: the sample row, with the map ranged over in insertion order. -/
theorem params_of_row_witness :
    insertionOrder.Valid ∧
    readProducts.product insertionOrder (buildColIndexes sampleHeader) 1 sampleRow =
      some sampleProduct ∧
    sampleProduct.Params.Perm
      (sampleHeader.enum.filterMap (fun jk => columnParam sampleHeader sampleRow jk.1 jk.2)) :=
  ⟨insertionOrder_valid, by rfl,
    (params_of_row insertionOrder insertionOrder_valid sampleHeader 1 sampleRow sampleProduct
      (by rfl)).1⟩

/-! ## Currencies -/

theorem readCurrencies_loop_succ (rows : List (List GoString)) (i : Nat)
    (currencies : List Currency) :
    readCurrencies.loop (i + 1) rows currencies =
      currencies ++ rows.filterMap readCurrencies.row := by
  induction rows generalizing i currencies with
  | nil => simp [readCurrencies.loop]
  | cons row rows ih =>
    rw [readCurrencies.loop]
    simp only [Nat.add_one_ne_zero, if_false, List.filterMap_cons]
    cases h : readCurrencies.row row with
    | none => simp [ih]
    | some c => simp [ih]

theorem readCurrencies_loop_zero (rows : List (List GoString)) :
    readCurrencies.loop 0 rows [] = (rows.drop 1).filterMap readCurrencies.row := by
  cases rows with
  | nil => simp [readCurrencies.loop]
  | cons header data =>
    rw [readCurrencies.loop]
    simp [readCurrencies_loop_succ]

theorem readCurrencies_row_eq (row : List GoString) :
    readCurrencies.row row =
      if 2 ≤ row.length ∧ row[0]?.getD [] ≠ [] then
        some ⟨row[0]?.getD [], row[1]?.getD []⟩
      else none := by
  unfold readCurrencies.row
  match row with
  | [] => simp
  | [_] => simp
  | id :: rate :: _ => simp

theorem filterMap_ite_eq_map_filter {α β : Type} (P : α → Prop) [DecidablePred P] (f : α → β)
    (l : List α) :
    l.filterMap (fun a => if P a then some (f a) else none) =
      (l.filter (fun a => decide (P a))).map f := by
  induction l with
  | nil => simp
  | cons a l ih =>
    by_cases h : P a
    · simp [List.filterMap_cons, h, ih]
    · simp [List.filterMap_cons, h, ih]

theorem readCurrencies_of_rows (xlsx : File) (rows : List (List GoString))
    (hsheet : sheetExists xlsx.GetSheetList sheetCurrencies = true)
    (hrows : xlsx.GetRows sheetCurrencies = .ok rows) :
    readCurrencies xlsx =
      if ((rows.drop 1).filterMap readCurrencies.row).length = 0 then
        .error (.noCurrencies sheetCurrencies)
      else .ok ((rows.drop 1).filterMap readCurrencies.row) := by
  unfold readCurrencies
  simp only [hsheet, hrows, readCurrencies_loop_zero]
  rfl

/-- C7, counterexample: the only data row has the non-empty id `USD` and no second cell; it is
skipped and `readCurrencies` fails. -/
theorem currency_one_cell_counterexample :
    (["USD".toList] : List GoString)[0]? = some "USD".toList ∧
    "USD".toList ≠ [] ∧
    readCurrencies ⟨[sheetCurrencies],
        fun _ => .ok [["ID".toList, "Rate".toList], ["USD".toList]]⟩ =
      .error (.noCurrencies sheetCurrencies) := by
  refine ⟨by decide, by decide, by rfl⟩

/-- C7 (amended): on the rows of the currencies sheet, `readCurrencies` returns, in row order,
one currency (id and rate copied unchanged) for every row after the header that has at least two
cells and a non-empty id; the rows with an empty id and the rows with fewer than two cells are
skipped; it fails exactly when that collection is empty. -/
theorem readCurrencies_of_data_rows (xlsx : File) (rows : List (List GoString))
    (hsheet : sheetExists xlsx.GetSheetList sheetCurrencies = true)
    (hrows : xlsx.GetRows sheetCurrencies = .ok rows) :
    readCurrencies xlsx =
      if ((rows.drop 1).filter
          (fun row => decide (2 ≤ row.length ∧ row[0]?.getD [] ≠ []))) = [] then
        .error (.noCurrencies sheetCurrencies)
      else
        .ok (((rows.drop 1).filter
            (fun row => decide (2 ≤ row.length ∧ row[0]?.getD [] ≠ []))).map
          (fun row => (⟨row[0]?.getD [], row[1]?.getD []⟩ : Currency))) := by
  rw [readCurrencies_of_rows xlsx rows hsheet hrows]
  have h : (rows.drop 1).filterMap readCurrencies.row =
      ((rows.drop 1).filter (fun row => decide (2 ≤ row.length ∧ row[0]?.getD [] ≠ []))).map
        (fun row => (⟨row[0]?.getD [], row[1]?.getD []⟩ : Currency)) := by
    rw [← filterMap_ite_eq_map_filter]
    exact List.filterMap_congr (fun row _ => readCurrencies_row_eq row)
  rw [h]
  simp only [List.length_map, List.length_eq_zero]

/-- C7, witness: the sample currencies sheet. -/
theorem readCurrencies_of_data_rows_witness :
    sheetExists sampleFile.GetSheetList sheetCurrencies = true ∧
    sampleFile.GetRows sheetCurrencies = .ok sampleCurrencyRows ∧
    readCurrencies sampleFile = .ok [⟨"RUR".toList, "1".toList⟩] :=
  ⟨by decide, by rfl, readCurrencies_of_data_rows sampleFile sampleCurrencyRows (by decide) (by rfl)⟩

/-! ## Categories -/

theorem readCategories_loop_succ (rows : List (List GoString)) (i : Nat)
    (categories : List Category) :
    readCategories.loop (i + 1) rows categories =
      categories ++ rows.filterMap readCategories.row := by
  induction rows generalizing i categories with
  | nil => simp [readCategories.loop]
  | cons row rows ih =>
    rw [readCategories.loop]
    simp only [Nat.add_one_ne_zero, if_false, List.filterMap_cons]
    cases h : readCategories.row row with
    | none => simp [ih]
    | some c => simp [ih]

theorem readCategories_loop_zero (rows : List (List GoString)) :
    readCategories.loop 0 rows [] = (rows.drop 1).filterMap readCategories.row := by
  cases rows with
  | nil => simp [readCategories.loop]
  | cons header data =>
    rw [readCategories.loop]
    simp [readCategories_loop_succ]

theorem readCategories_row_eq (row : List GoString) :
    readCategories.row row =
      if row[0]?.getD [] ≠ [] ∧ row[1]?.getD [] ≠ [] then
        some ⟨row[0]?.getD [], row[2]?.getD [], row[1]?.getD []⟩
      else none := by
  unfold readCategories.row
  match row with
  | [] => simp
  | [_] => simp
  | [id, name] => simp
  | id :: name :: third :: _ => simp

/-- C8: on the rows of the categories sheet, `readCategories` returns, in row order, one category
for every row after the header whose id (first cell) and name (second cell) are both there and
not empty, with the third cell as parent id when the row has one and the empty string
otherwise; the other rows are skipped; it fails exactly when that collection is empty. -/
theorem readCategories_of_data_rows (xlsx : File) (rows : List (List GoString))
    (hsheet : sheetExists xlsx.GetSheetList sheetCategories = true)
    (hrows : xlsx.GetRows sheetCategories = .ok rows) :
    readCategories xlsx =
      if ((rows.drop 1).filter
          (fun row => decide (row[0]?.getD [] ≠ [] ∧ row[1]?.getD [] ≠ []))) = [] then
        .error (.noCategories sheetCategories)
      else
        .ok (((rows.drop 1).filter
            (fun row => decide (row[0]?.getD [] ≠ [] ∧ row[1]?.getD [] ≠ []))).map
          (fun row => (⟨row[0]?.getD [], row[2]?.getD [], row[1]?.getD []⟩ : Category))) := by
  have h : (rows.drop 1).filterMap readCategories.row =
      ((rows.drop 1).filter
          (fun row => decide (row[0]?.getD [] ≠ [] ∧ row[1]?.getD [] ≠ []))).map
        (fun row => (⟨row[0]?.getD [], row[2]?.getD [], row[1]?.getD []⟩ : Category)) := by
    rw [← filterMap_ite_eq_map_filter]
    exact List.filterMap_congr (fun row _ => readCategories_row_eq row)
  unfold readCategories
  simp only [hsheet, hrows, readCategories_loop_zero, h, List.length_map, List.length_eq_zero]
  rfl

/-- C8, witness: the sample categories sheet. -/
theorem readCategories_of_data_rows_witness :
    sheetExists sampleFile.GetSheetList sheetCategories = true ∧
    sampleFile.GetRows sheetCategories = .ok sampleCategoryRows ∧
    readCategories sampleFile =
      .ok [⟨"10".toList, [], "Books".toList⟩, ⟨"11".toList, "10".toList, "Novels".toList⟩] :=
  ⟨by decide, by rfl,
    readCategories_of_data_rows sampleFile sampleCategoryRows (by decide) (by rfl)⟩

/-! ## Shop settings -/

theorem readShopSettings_loop_succ (rows : List (List GoString)) (i : Nat)
    (shopData : ShopData) :
    readShopSettings.loop (i + 1) rows shopData = rows.foldl readShopSettings.row shopData := by
  induction rows generalizing i shopData with
  | nil => simp [readShopSettings.loop]
  | cons row rows ih =>
    rw [readShopSettings.loop]
    simp only [Nat.add_one_ne_zero, if_false, List.foldl_cons]
    exact ih _ _

theorem readShopSettings_loop_zero (rows : List (List GoString)) (shopData : ShopData) :
    readShopSettings.loop 0 rows shopData =
      (rows.drop 1).foldl readShopSettings.row shopData := by
  cases rows with
  | nil => simp [readShopSettings.loop]
  | cons header data =>
    rw [readShopSettings.loop]
    simp [readShopSettings_loop_succ]

theorem readShopSettings_of_rows (xlsx : File) (rows : List (List GoString))
    (hsheet : sheetExists xlsx.GetSheetList sheetShopSettings = true)
    (hrows : xlsx.GetRows sheetShopSettings = .ok rows) :
    readShopSettings xlsx =
      .ok (readShopSettings.defaults
        ((rows.drop 1).foldl readShopSettings.row ⟨[], [], []⟩)) := by
  unfold readShopSettings
  simp only [hsheet, hrows, readShopSettings_loop_zero]
  rfl

theorem row_of_unknown_key (shopData : ShopData) (row : List GoString)
    (h1 : row.head? ≠ some keyShopName) (h2 : row.head? ≠ some keyCompany)
    (h3 : row.head? ≠ some keyURL) : readShopSettings.row shopData row = shopData := by
  unfold readShopSettings.row
  match row with
  | [] => rfl
  | [_] => rfl
  | key :: value :: _ =>
    simp only [List.head?_cons, ne_eq, Option.some.injEq] at h1 h2 h3
    simp [h1, h2, h3]

theorem row_Name_of_other_key (shopData : ShopData) (row : List GoString)
    (h : row.head? ≠ some keyShopName) :
    (readShopSettings.row shopData row).Name = shopData.Name := by
  unfold readShopSettings.row
  match row with
  | [] => rfl
  | [_] => rfl
  | key :: value :: _ =>
    simp only [List.head?_cons, ne_eq, Option.some.injEq] at h
    simp only []
    split_ifs <;> rfl

theorem row_Company_of_other_key (shopData : ShopData) (row : List GoString)
    (h : row.head? ≠ some keyCompany) :
    (readShopSettings.row shopData row).Company = shopData.Company := by
  unfold readShopSettings.row
  match row with
  | [] => rfl
  | [_] => rfl
  | key :: value :: _ =>
    simp only [List.head?_cons, ne_eq, Option.some.injEq] at h
    simp only []
    split_ifs <;> rfl

theorem row_URL_of_other_key (shopData : ShopData) (row : List GoString)
    (h : row.head? ≠ some keyURL) :
    (readShopSettings.row shopData row).URL = shopData.URL := by
  unfold readShopSettings.row
  match row with
  | [] => rfl
  | [_] => rfl
  | key :: value :: _ =>
    simp only [List.head?_cons, ne_eq, Option.some.injEq] at h
    simp only []
    split_ifs <;> rfl

theorem defaults_Name (shopData : ShopData) (h : shopData.Name = []) :
    (readShopSettings.defaults shopData).Name = defaultShopName := by
  unfold readShopSettings.defaults
  by_cases b : shopData.Company = [] <;> by_cases c : shopData.URL = [] <;> simp [h, b, c]

theorem defaults_Company (shopData : ShopData) (h : shopData.Company = []) :
    (readShopSettings.defaults shopData).Company = defaultCompany := by
  unfold readShopSettings.defaults
  by_cases a : shopData.Name = [] <;> by_cases c : shopData.URL = [] <;> simp [h, a, c]

theorem defaults_URL (shopData : ShopData) (h : shopData.URL = []) :
    (readShopSettings.defaults shopData).URL = defaultURL := by
  unfold readShopSettings.defaults
  by_cases a : shopData.Name = [] <;> by_cases b : shopData.Company = [] <;> simp [h, a, b]

theorem foldl_field_unchanged {α : Type} (field : ShopData → α) (key : GoString)
    (hrow : ∀ (shopData : ShopData) (row : List GoString), row.head? ≠ some key →
      field (readShopSettings.row shopData row) = field shopData)
    (rows : List (List GoString)) (shopData : ShopData)
    (h : ∀ row ∈ rows, row.head? ≠ some key) :
    field (rows.foldl readShopSettings.row shopData) = field shopData := by
  induction rows generalizing shopData with
  | nil => rfl
  | cons row rows ih =>
    rw [List.foldl_cons, ih _ (fun r hr => h r (List.mem_cons_of_mem _ hr)),
      hrow _ _ (h row (List.mem_cons_self _ _))]

/-- C9: when the shop-settings sheet exists and its rows are read, `readShopSettings` succeeds;
a field whose key stands in no row after the header has its fixed default; and a row after the
header whose key is none of the three recognised keys can be taken out (or put in) without
changing the result. -/
theorem readShopSettings_succeeds (xlsx : File) (rows : List (List GoString))
    (hsheet : sheetExists xlsx.GetSheetList sheetShopSettings = true)
    (hrows : xlsx.GetRows sheetShopSettings = .ok rows) :
    ∃ shopData, readShopSettings xlsx = .ok shopData ∧
      ((∀ row ∈ rows.drop 1, row.head? ≠ some keyShopName) →
        shopData.Name = "Мой магазин".toList) ∧
      ((∀ row ∈ rows.drop 1, row.head? ≠ some keyCompany) →
        shopData.Company = "Моя компания".toList) ∧
      ((∀ row ∈ rows.drop 1, row.head? ≠ some keyURL) →
        shopData.URL = "https://example.com".toList) ∧
      (∀ (other : File) (header : List GoString) (before after : List (List GoString))
          (row : List GoString),
        rows = header :: (before ++ row :: after) →
        row.head? ≠ some keyShopName → row.head? ≠ some keyCompany →
        row.head? ≠ some keyURL →
        sheetExists other.GetSheetList sheetShopSettings = true →
        other.GetRows sheetShopSettings = .ok (header :: (before ++ after)) →
        readShopSettings other = .ok shopData) := by
  refine ⟨_, readShopSettings_of_rows xlsx rows hsheet hrows, ?_, ?_, ?_, ?_⟩
  · intro h
    exact defaults_Name _ (foldl_field_unchanged ShopData.Name keyShopName
      row_Name_of_other_key (rows.drop 1) ⟨[], [], []⟩ h)
  · intro h
    exact defaults_Company _ (foldl_field_unchanged ShopData.Company keyCompany
      row_Company_of_other_key (rows.drop 1) ⟨[], [], []⟩ h)
  · intro h
    exact defaults_URL _ (foldl_field_unchanged ShopData.URL keyURL
      row_URL_of_other_key (rows.drop 1) ⟨[], [], []⟩ h)
  · intro other header before after row hr h1 h2 h3 hs hg
    rw [readShopSettings_of_rows other _ hs hg, hr]
    simp only [List.drop_succ_cons, List.drop_zero, List.foldl_append, List.foldl_cons,
      row_of_unknown_key _ row h1 h2 h3]

/-- C9, witness: the sample shop-settings sheet, which has no company row. -/
theorem readShopSettings_succeeds_witness :
    sheetExists sampleFile.GetSheetList sheetShopSettings = true ∧
    sampleFile.GetRows sheetShopSettings = .ok sampleShopRows ∧
    ∃ shopData, readShopSettings sampleFile = .ok shopData ∧
      ((∀ row ∈ sampleShopRows.drop 1, row.head? ≠ some keyCompany) →
        shopData.Company = "Моя компания".toList) :=
  ⟨by decide, by rfl,
    (readShopSettings_succeeds sampleFile sampleShopRows (by decide) (by rfl)).elim
      (fun shopData h => ⟨shopData, h.1, h.2.2.1⟩)⟩

/-! ## Prices -/

theorem digitChar_isDigit (d : Nat) : (digitChar d).isDigit = true := by
  unfold digitChar
  have h : d % 10 < 10 := Nat.mod_lt _ (by decide)
  generalize d % 10 = k at h
  interval_cases k <;> decide

theorem formatNat_go_digits (fuel n : Nat) (acc : GoString) (hfuel : fuel ≠ 0) :
    ∃ ds, ds ≠ [] ∧ (∀ c ∈ ds, c.isDigit = true) ∧ formatNat.go fuel n acc = ds ++ acc := by
  induction fuel generalizing n acc with
  | zero => exact absurd rfl hfuel
  | succ fuel ih =>
    rw [formatNat.go]
    by_cases h : n / 10 = 0
    · refine ⟨[digitChar n], by simp, ?_, by simp [h]⟩
      intro c hc
      rw [List.mem_singleton.mp hc]
      exact digitChar_isDigit n
    · simp only [h, if_false]
      by_cases hf : fuel = 0
      · subst hf
        refine ⟨[digitChar n], by simp, ?_, by simp [formatNat.go]⟩
        intro c hc
        rw [List.mem_singleton.mp hc]
        exact digitChar_isDigit n
      · obtain ⟨ds, hne, hdig, heq⟩ := ih (n / 10) (digitChar n :: acc) hf
        refine ⟨ds ++ [digitChar n], by simp, ?_, by simp [heq]⟩
        intro c hc
        rcases List.mem_append.mp hc with h1 | h1
        · exact hdig c h1
        · rw [List.mem_singleton.mp h1]
          exact digitChar_isDigit n

theorem formatNat_digits (n : Nat) :
    formatNat n ≠ [] ∧ ∀ c ∈ formatNat n, c.isDigit = true := by
  obtain ⟨ds, hne, hdig, heq⟩ := formatNat_go_digits (n + 1) n [] (Nat.succ_ne_zero n)
  unfold formatNat
  rw [heq, List.append_nil]
  exact ⟨hne, hdig⟩

theorem isIntegerText_of_digits (ds : GoString) (hne : ds ≠ [])
    (hdig : ∀ c ∈ ds, c.isDigit = true) : isIntegerText ds = true := by
  cases ds with
  | nil => exact absurd rfl hne
  | cons c cs =>
    have hc : c ≠ '-' := by
      intro h
      have := hdig c (List.mem_cons_self _ _)
      rw [h] at this
      exact absurd this (by decide)
    unfold isIntegerText
    split
    · rename_i heq
      simp only [List.cons.injEq] at heq
      exact absurd heq.1 hc
    · simp only [List.isEmpty_cons, Bool.not_false, Bool.true_and, List.all_eq_true]
      exact hdig

theorem isIntegerText_minus (ds : GoString) (hne : ds ≠ [])
    (hdig : ∀ c ∈ ds, c.isDigit = true) : isIntegerText ('-' :: ds) = true := by
  cases ds with
  | nil => exact absurd rfl hne
  | cons c cs =>
    simp only [isIntegerText, List.isEmpty_cons, Bool.not_false, Bool.true_and, List.all_eq_true]
    exact hdig

theorem hasTwoDecimals_finite (neg : Bool) (mant : Nat) (exp : Int) :
    hasTwoDecimals (Sprintf2f (.finite neg mant exp)) = true := by
  unfold Sprintf2f hasTwoDecimals
  simp only [List.reverse_append, List.reverse_cons, List.reverse_nil, List.nil_append,
    List.singleton_append, List.cons_append, List.reverse_reverse, digitChar_isDigit,
    Bool.true_and]
  obtain ⟨hne, hdig⟩ := formatNat_digits
    (roundHalfEven (scaleFraction (mant * 100) 1 exp).1 (scaleFraction (mant * 100) 1 exp).2 / 100)
  cases neg with
  | false => simpa using isIntegerText_of_digits _ hne hdig
  | true => simpa using isIntegerText_minus _ hne hdig

theorem roundHalfEven_zero (d : Nat) (hd : 0 < d) : roundHalfEven 0 d = 0 := by
  simp [roundHalfEven, hd]

theorem Sprintf2f_zero (exp : Int) : Sprintf2f (.finite false 0 exp) = "0.00".toList := by
  have h : roundHalfEven (scaleFraction (0 * 100) 1 exp).1 (scaleFraction (0 * 100) 1 exp).2 = 0 := by
    unfold scaleFraction
    split
    · simp [roundHalfEven_zero]
    · simp only [Nat.zero_mul, Nat.one_mul]
      exact roundHalfEven_zero _ (Nat.pos_pow_of_pos _ (by decide))
  unfold Sprintf2f
  simp only [h]
  decide

/-- C10, counterexample: the price cell `NaN` parses without error, and the price text of the
offer is `NaN`, which has no decimal places and is not `0.00`. -/
theorem price_nan_counterexample :
    (readProducts.product insertionOrder (buildColIndexes priceHeader) 1
        ["1".toList, "A".toList, "NaN".toList]).map
        (fun p => (createYMLCatalog.offer p).Price) = some "NaN".toList ∧
    ParseFloat "NaN".toList = some Float64.nan ∧
    hasTwoDecimals "NaN".toList = false ∧
    "NaN".toList ≠ "0.00".toList := by
  decide

/-- C10 (amended): the price text of the offer of a product row is `0.00` when the header has
no price column, when the row has no cell under it, and when the cell does not parse as a
number; otherwise it is the rendering of the parsed number, which for every finite number has
exactly two decimal places, so that the text always has two decimal places unless it is `NaN`,
`+Inf` or `-Inf` (a cell such as `NaN` or `Inf` parses without error).  The cell `19.5` gives
`19.50`, the cell `0` gives `0.00`, and an unparseable price never makes a qualifying row
fail. -/
theorem price_text (ord : MapOrder) (header : List GoString) (i : Nat) (row : List GoString)
    (p : ProductData)
    (hp : readProducts.product ord (buildColIndexes header) i row = some p) :
    (colPrice ∉ header → (createYMLCatalog.offer p).Price = "0.00".toList) ∧
    (headerCell header row colPrice = none →
      (createYMLCatalog.offer p).Price = "0.00".toList) ∧
    (∀ cell, headerCell header row colPrice = some cell →
      (ParseFloat cell = none → (createYMLCatalog.offer p).Price = "0.00".toList) ∧
      (∀ f, ParseFloat cell = some f → (createYMLCatalog.offer p).Price = Sprintf2f f)) ∧
    (hasTwoDecimals (createYMLCatalog.offer p).Price = true ∨
      (createYMLCatalog.offer p).Price ∈ ["NaN".toList, "+Inf".toList, "-Inf".toList]) ∧
    (∀ neg mant exp, hasTwoDecimals (Sprintf2f (.finite neg mant exp)) = true) ∧
    (ParseFloat "19.5".toList).map Sprintf2f = some "19.50".toList ∧
    (ParseFloat "0".toList).map Sprintf2f = some "0.00".toList ∧
    ParseFloat "abc".toList = none ∧
    (∀ other, qualifyingRow header other = true →
      ∃ q, readProducts.product ord (buildColIndexes header) i other = some q) := by
  rw [product_eq_some_iff] at hp
  have hA : (createYMLCatalog.offer p).Price =
      Sprintf2f (match headerCell header row colPrice with
        | some cell =>
          match ParseFloat cell with
          | some price => price
          | none => Float64.zero
        | none => Float64.zero) := by
    rw [hp.2, ← cellAt_eq_headerCell]
    rfl
  have hzero : Sprintf2f Float64.zero = "0.00".toList := Sprintf2f_zero _
  have hnone : headerCell header row colPrice = none →
      (createYMLCatalog.offer p).Price = "0.00".toList := by
    intro h
    rw [hA, h]
    exact hzero
  have hparse0 : ParseFloat "0".toList = some Float64.zero := by decide
  refine ⟨?_, hnone, ?_, ?_, hasTwoDecimals_finite, by decide, ?_, by decide, ?_⟩
  · intro hno
    apply hnone
    rw [headerCell, (lastIndexOf_eq_none_iff header colPrice).mpr hno]
    rfl
  · intro cell hcell
    rw [hA, hcell]
    refine ⟨?_, ?_⟩
    · intro h
      simp only [h]
      exact hzero
    · intro f h
      simp only [h]
  · rw [hA]
    generalize (match headerCell header row colPrice with
        | some cell =>
          match ParseFloat cell with
          | some price => price
          | none => Float64.zero
        | none => Float64.zero) = f
    cases f with
    | finite neg mant exp => exact Or.inl (hasTwoDecimals_finite neg mant exp)
    | inf neg => cases neg <;> exact Or.inr (by simp [Sprintf2f])
    | nan => exact Or.inr (by simp [Sprintf2f])
  · rw [hparse0]
    exact congrArg some hzero
  · intro other hq
    rw [← qualifies_eq_qualifyingRow] at hq
    exact ⟨_, (product_eq_some_iff ord _ i other _).mpr ⟨hq, rfl⟩⟩

/-- C10, witness: the sample row has the price cell `19.5`. -/
theorem price_text_witness :
    readProducts.product insertionOrder (buildColIndexes sampleHeader) 1 sampleRow =
      some sampleProduct ∧
    headerCell sampleHeader sampleRow colPrice = some "19.5".toList ∧
    ParseFloat "19.5".toList = some (.finite false 5488762045857792 (-48)) ∧
    (createYMLCatalog.offer sampleProduct).Price = "19.50".toList :=
  ⟨by rfl, by rfl, by decide,
    (((price_text insertionOrder sampleHeader 1 sampleRow sampleProduct (by rfl)).2.2.1
      "19.5".toList (by rfl)).2 (.finite false 5488762045857792 (-48)) (by decide)).trans
      (by decide)⟩

/-! ## The run -/

theorem readProducts_of_no_rows (ord : MapOrder) (xlsx : File)
    (hsheet : sheetExists xlsx.GetSheetList sheetProducts = true)
    (hrows : xlsx.GetRows sheetProducts = .ok []) :
    readProducts ord xlsx = .error (.noData sheetProducts) := by
  unfold readProducts
  simp only [hsheet, hrows]
  rfl

theorem readProducts_of_header_rows (ord : MapOrder) (xlsx : File) (header : List GoString)
    (data : List (List GoString))
    (hsheet : sheetExists xlsx.GetSheetList sheetProducts = true)
    (hrows : xlsx.GetRows sheetProducts = .ok (header :: data)) :
    (data.filter (qualifyingRow header) = [] → readProducts ord xlsx = .error .noProducts) ∧
    (data.filter (qualifyingRow header) ≠ [] →
      ∃ products, readProducts ord xlsx = .ok products ∧
        products.length = (data.filter (qualifyingRow header)).length) := by
  have hrel := products_rowwise ord (buildColIndexes header) 1 data
  have hq : qualifies (buildColIndexes header) = qualifyingRow header :=
    funext (qualifies_eq_qualifyingRow header)
  rw [hq] at hrel
  rw [readProducts_of_rows ord xlsx header data hsheet hrows]
  have hlen := hrel.length_eq
  constructor
  · intro hnil
    rw [if_pos (by rw [hlen, hnil]; rfl)]
  · intro hne
    have hpos : (data.filter (qualifyingRow header)).length ≠ 0 := by
      simpa [List.length_eq_zero] using hne
    exact ⟨_, by rw [if_neg (by rw [hlen]; exact hpos)], hlen⟩

theorem parseExcelToYML_of_products_error (sys : System) (ord : MapOrder) (now : GoString)
    (inputFile outputFile : GoString) (xlsx : File) (err : Error)
    (hopen : sys.OpenFile inputFile = .ok xlsx)
    (hprod : readProducts ord xlsx = .error err) :
    (parseExcelToYML sys ord now inputFile outputFile).1 ≠ none ∧
    ∀ e ∈ (parseExcelToYML sys ord now inputFile outputFile).2, e.isOutput = false := by
  unfold parseExcelToYML
  simp only [hopen, hprod]
  cases readShopSettings xlsx with
  | error e => simp [Event.isOutput]
  | ok shopData =>
    cases readCurrencies xlsx with
    | error e => simp [Event.isOutput]
    | ok currencies =>
      cases readCategories xlsx with
      | error e => simp [Event.isOutput]
      | ok categories => simp [Event.isOutput]

/-- C11, counterexample: the products sheet exists and has no row, hence no data row with an id
and a name; `readProducts` returns the error of a sheet without data, which is not the
no-products error. -/
theorem empty_products_sheet_counterexample :
    sheetExists emptySheetFile.GetSheetList sheetProducts = true ∧
    emptySheetFile.GetRows sheetProducts = .ok [] ∧
    readProducts insertionOrder emptySheetFile = .error (.noData sheetProducts) ∧
    readProducts insertionOrder emptySheetFile ≠ .error .noProducts := by
  refine ⟨by decide, by rfl, by rfl, ?_⟩
  rw [readProducts_of_no_rows insertionOrder emptySheetFile (by decide) (by rfl)]
  intro h
  cases h

/-- C11 (amended): on a products sheet with a header row in which no data row has both a
non-empty id and a non-empty name, `readProducts` returns the no-products error instead of an
empty list, and when at least one data row qualifies it succeeds with a non-empty list; a
products sheet without any row makes it return the no-data error.  Whenever no data row
qualifies, `parseExcelToYML` returns an error and its effects hold no call of `os.Create` and
no written file: `writeXML` is not invoked. -/
theorem readProducts_fails_without_qualifying_row (sys : System) (ord : MapOrder)
    (now inputFile outputFile : GoString) (xlsx : File) (rows : List (List GoString))
    (hsheet : sheetExists xlsx.GetSheetList sheetProducts = true)
    (hrows : xlsx.GetRows sheetProducts = .ok rows) :
    (rows = [] → readProducts ord xlsx = .error (.noData sheetProducts)) ∧
    (∀ header data, rows = header :: data →
      ((∀ row ∈ data, qualifyingRow header row = false) →
        readProducts ord xlsx = .error .noProducts) ∧
      ((∃ row ∈ data, qualifyingRow header row = true) →
        ∃ products, readProducts ord xlsx = .ok products ∧ products ≠ [])) ∧
    ((∀ header data, rows = header :: data → ∀ row ∈ data, qualifyingRow header row = false) →
      sys.OpenFile inputFile = .ok xlsx →
      (parseExcelToYML sys ord now inputFile outputFile).1 ≠ none ∧
      ∀ e ∈ (parseExcelToYML sys ord now inputFile outputFile).2, e.isOutput = false) := by
  have hhead : ∀ header data, rows = header :: data →
      ((∀ row ∈ data, qualifyingRow header row = false) →
        readProducts ord xlsx = .error .noProducts) ∧
      ((∃ row ∈ data, qualifyingRow header row = true) →
        ∃ products, readProducts ord xlsx = .ok products ∧ products ≠ []) := by
    intro header data hr
    subst hr
    obtain ⟨h1, h2⟩ := readProducts_of_header_rows ord xlsx header data hsheet hrows
    constructor
    · intro hnone
      exact h1 (List.filter_eq_nil_iff.mpr (fun row hrow => by simp [hnone row hrow]))
    · rintro ⟨row, hrow, hq⟩
      have hne : data.filter (qualifyingRow header) ≠ [] :=
        List.ne_nil_of_mem (List.mem_filter.mpr ⟨hrow, hq⟩)
      obtain ⟨products, hok, hlen⟩ := h2 hne
      refine ⟨products, hok, ?_⟩
      intro hnil
      rw [hnil] at hlen
      exact hne (List.length_eq_zero.mp hlen.symm)
  refine ⟨?_, hhead, ?_⟩
  · intro hnil
    subst hnil
    exact readProducts_of_no_rows ord xlsx hsheet hrows
  · intro hnone hopen
    cases rows with
    | nil =>
      exact parseExcelToYML_of_products_error sys ord now inputFile outputFile xlsx _ hopen
        (readProducts_of_no_rows ord xlsx hsheet hrows)
    | cons header data =>
      exact parseExcelToYML_of_products_error sys ord now inputFile outputFile xlsx _ hopen
        ((hhead header data rfl).1 (hnone header data rfl))

/-- C11, witness: the sample workbook has qualifying rows and `readProducts` succeeds on
it. -/
theorem readProducts_fails_without_qualifying_row_witness :
    sheetExists sampleFile.GetSheetList sheetProducts = true ∧
    sampleFile.GetRows sheetProducts = .ok (sampleHeader :: sampleData) ∧
    (∃ row ∈ sampleData, qualifyingRow sampleHeader row = true) ∧
    ∃ products, readProducts insertionOrder sampleFile = .ok products ∧ products ≠ [] :=
  ⟨by decide, by rfl, ⟨sampleRow, by decide, by decide⟩,
    ((readProducts_fails_without_qualifying_row (systemOf sampleFile) insertionOrder [] [] []
      sampleFile (sampleHeader :: sampleData) (by decide) (by rfl)).2.1
        sampleHeader sampleData rfl).2 ⟨sampleRow, by decide, by decide⟩⟩

theorem sheetNotFound_of_missing_currencies (xlsx : File)
    (h : sheetExists xlsx.GetSheetList sheetCurrencies = false) :
    readCurrencies xlsx = .error (.sheetNotFound sheetCurrencies) := by
  unfold readCurrencies
  simp [h]

/-- C12, counterexample: the workbook has no sheet at all, so it lacks the sheet `Валюты`; the
run fails with the error of the shop-settings stage, not with the sheet-not-found error of
`readCurrencies`. -/
theorem missing_currencies_counterexample :
    sheetExists noSheetFile.GetSheetList sheetCurrencies = false ∧
    (parseExcelToYML (systemOf noSheetFile) insertionOrder [] [] []).1 =
      some (.shopSettings (.sheetNotFound sheetShopSettings)) ∧
    (parseExcelToYML (systemOf noSheetFile) insertionOrder [] [] []).1 ≠
      some (.currencies (.sheetNotFound sheetCurrencies)) := by
  decide

/-- C12 (amended): once the workbook is open, `parseExcelToYML` reports the error of the first
reader that fails in the order shop settings, currencies, categories, products, wrapped with
the message of that stage, and then does nothing but close the workbook; only when the four
readers succeed is the catalog assembled and `writeXML` invoked on it.  So if any reader
fails, the effects hold no call of `os.Create` and no written file.  For a workbook that lacks
the sheet `Валюты` the run fails without output, and its error is the sheet-not-found error
of `readCurrencies` when the shop settings are read successfully. -/
theorem parseExcelToYML_stages (sys : System) (ord : MapOrder)
    (now inputFile outputFile : GoString) (xlsx : File)
    (hopen : sys.OpenFile inputFile = .ok xlsx) :
    (∀ err, readShopSettings xlsx = .error err →
      parseExcelToYML sys ord now inputFile outputFile =
        (some (.shopSettings err), [.close])) ∧
    (∀ shopData err, readShopSettings xlsx = .ok shopData →
      readCurrencies xlsx = .error err →
      parseExcelToYML sys ord now inputFile outputFile =
        (some (.currencies err), [.close])) ∧
    (∀ shopData currencies err, readShopSettings xlsx = .ok shopData →
      readCurrencies xlsx = .ok currencies → readCategories xlsx = .error err →
      parseExcelToYML sys ord now inputFile outputFile =
        (some (.categories err), [.close])) ∧
    (∀ shopData currencies categories err, readShopSettings xlsx = .ok shopData →
      readCurrencies xlsx = .ok currencies → readCategories xlsx = .ok categories →
      readProducts ord xlsx = .error err →
      parseExcelToYML sys ord now inputFile outputFile =
        (some (.products err), [.close])) ∧
    (∀ shopData currencies categories products, readShopSettings xlsx = .ok shopData →
      readCurrencies xlsx = .ok currencies → readCategories xlsx = .ok categories →
      readProducts ord xlsx = .ok products →
      (parseExcelToYML sys ord now inputFile outputFile).1 =
        (writeXML sys (createYMLCatalog now shopData currencies categories products)
          outputFile).1.map RunError.writeXML ∧
      ∃ rest, (parseExcelToYML sys ord now inputFile outputFile).2 =
        (writeXML sys (createYMLCatalog now shopData currencies categories products)
          outputFile).2 ++ rest ∧ ∀ e ∈ rest, e.isOutput = false) ∧
    (((∃ err, readShopSettings xlsx = .error err) ∨ (∃ err, readCurrencies xlsx = .error err) ∨
        (∃ err, readCategories xlsx = .error err) ∨
        (∃ err, readProducts ord xlsx = .error err)) →
      (parseExcelToYML sys ord now inputFile outputFile).1 ≠ none ∧
      ∀ e ∈ (parseExcelToYML sys ord now inputFile outputFile).2, e.isOutput = false) ∧
    (sheetExists xlsx.GetSheetList sheetCurrencies = false →
      (parseExcelToYML sys ord now inputFile outputFile).1 ≠ none ∧
      (∀ e ∈ (parseExcelToYML sys ord now inputFile outputFile).2, e.isOutput = false) ∧
      (∀ shopData, readShopSettings xlsx = .ok shopData →
        (parseExcelToYML sys ord now inputFile outputFile).1 =
          some (.currencies (.sheetNotFound sheetCurrencies)))) := by
  have hfail : ((∃ err, readShopSettings xlsx = .error err) ∨
        (∃ err, readCurrencies xlsx = .error err) ∨
        (∃ err, readCategories xlsx = .error err) ∨
        (∃ err, readProducts ord xlsx = .error err)) →
      (parseExcelToYML sys ord now inputFile outputFile).1 ≠ none ∧
      ∀ e ∈ (parseExcelToYML sys ord now inputFile outputFile).2, e.isOutput = false := by
    intro h
    unfold parseExcelToYML
    simp only [hopen]
    cases h1 : readShopSettings xlsx with
    | error e => simp [Event.isOutput]
    | ok shopData =>
      cases h2 : readCurrencies xlsx with
      | error e => simp [Event.isOutput]
      | ok currencies =>
        cases h3 : readCategories xlsx with
        | error e => simp [Event.isOutput]
        | ok categories =>
          cases h4 : readProducts ord xlsx with
          | error e => simp [Event.isOutput]
          | ok products =>
            rw [h1, h2, h3, h4] at h
            simp at h
  refine ⟨?_, ?_, ?_, ?_, ?_, hfail, ?_⟩
  · intro err h1
    unfold parseExcelToYML
    simp only [hopen, h1]
  · intro shopData err h1 h2
    unfold parseExcelToYML
    simp only [hopen, h1, h2]
  · intro shopData currencies err h1 h2 h3
    unfold parseExcelToYML
    simp only [hopen, h1, h2, h3]
  · intro shopData currencies categories err h1 h2 h3 h4
    unfold parseExcelToYML
    simp only [hopen, h1, h2, h3, h4]
  · intro shopData currencies categories products h1 h2 h3 h4
    unfold parseExcelToYML
    simp only [hopen, h1, h2, h3, h4]
    cases hw : writeXML sys (createYMLCatalog now shopData currencies categories products)
        outputFile with
    | mk werr events =>
      cases werr with
      | none => exact ⟨rfl, _, rfl, by simp [Event.isOutput]⟩
      | some e => exact ⟨rfl, _, rfl, by simp [Event.isOutput]⟩
  · intro hmiss
    have hcur := sheetNotFound_of_missing_currencies xlsx hmiss
    obtain ⟨hne, hout⟩ := hfail (Or.inr (Or.inl ⟨_, hcur⟩))
    refine ⟨hne, hout, ?_⟩
    intro shopData h1
    unfold parseExcelToYML
    simp only [hopen, h1, hcur]

/-- C12, witness: a workbook with the shop-settings sheet only. -/
theorem parseExcelToYML_stages_witness :
    (systemOf settingsOnlyFile).OpenFile [] = .ok settingsOnlyFile ∧
    sheetExists settingsOnlyFile.GetSheetList sheetCurrencies = false ∧
    (parseExcelToYML (systemOf settingsOnlyFile) insertionOrder [] [] []).1 =
      some (.currencies (.sheetNotFound sheetCurrencies)) :=
  ⟨rfl, by decide,
    ((parseExcelToYML_stages (systemOf settingsOnlyFile) insertionOrder [] [] []
      settingsOnlyFile rfl).2.2.2.2.2.2 (by decide)).2.2
        ⟨"Shop".toList, defaultCompany, defaultURL⟩ (by rfl)⟩

/-! ## The catalog -/

/-- C13: `createYMLCatalog` returns a catalog whose shop name, company, URL, currencies and
categories are its arguments unchanged and whose offers are the products mapped one by one, in
order: the offer of a product copies its id, URL, currency id, category id, pictures, name,
vendor, description, sales notes and parameters (name, unit, value, in the same order), and
renders the availability as `"true"` or `"false"`.  Nothing is required of the currency id or
category id of a product: a product whose currency id is in no currency still gets its
offer. -/
theorem createYMLCatalog_copies (now : GoString) (shopData : ShopData)
    (currencies : List Currency) (categories : List Category) (products : List ProductData) :
    (createYMLCatalog now shopData currencies categories products).Shop.Name = shopData.Name ∧
    (createYMLCatalog now shopData currencies categories products).Shop.Company =
      shopData.Company ∧
    (createYMLCatalog now shopData currencies categories products).Shop.URL = shopData.URL ∧
    (createYMLCatalog now shopData currencies categories products).Shop.Currencies.Currency =
      currencies ∧
    (createYMLCatalog now shopData currencies categories products).Shop.Categories.Category =
      categories ∧
    (createYMLCatalog now shopData currencies categories products).Shop.Offers.Offer.length =
      products.length ∧
    (createYMLCatalog now shopData currencies categories products).Shop.Offers.Offer =
      products.map (fun p =>
        { ID := p.ID
          Available := if p.Available = true then "true".toList else "false".toList
          URL := p.URL
          Price := Sprintf2f p.Price
          CurrencyID := p.CurrencyID
          CategoryID := p.CategoryID
          Picture := p.Pictures
          Name := p.Name
          Vendor := p.Vendor
          Description := p.Description
          SalesNotes := p.SalesNotes
          Params := p.Params.map (fun q => (⟨q.Name, q.Unit, q.Value⟩ : Param)) }) ∧
    ((createYMLCatalog [] ⟨[], [], []⟩ [] [] [orphanProduct]).Shop.Offers.Offer.map
        (fun offer => (offer.CurrencyID, offer.CategoryID)) =
      [("USD".toList, "7".toList)]) := by
  have hoffer : ∀ p : ProductData, createYMLCatalog.offer p =
      { ID := p.ID
        Available := if p.Available = true then "true".toList else "false".toList
        URL := p.URL
        Price := Sprintf2f p.Price
        CurrencyID := p.CurrencyID
        CategoryID := p.CategoryID
        Picture := p.Pictures
        Name := p.Name
        Vendor := p.Vendor
        Description := p.Description
        SalesNotes := p.SalesNotes
        Params := p.Params.map (fun q => (⟨q.Name, q.Unit, q.Value⟩ : Param)) } := by
    intro p
    unfold createYMLCatalog.offer
    rw [createYMLCatalog_params_eq, List.nil_append]
    rfl
  have hoffers : (createYMLCatalog now shopData currencies categories products).Shop.Offers.Offer =
      products.map createYMLCatalog.offer := by
    simp only [createYMLCatalog, createYMLCatalog_loop_eq, List.nil_append]
  refine ⟨rfl, rfl, rfl, rfl, rfl, ?_, ?_, by rfl⟩
  · rw [hoffers, List.length_map]
  · rw [hoffers]
    exact List.map_congr_left (fun p _ => hoffer p)

/-! ## The XML document -/

theorem marshalOffer_child_names (o : Offer) :
    (marshalOffer o).children.map XmlNode.name =
      ["url".toList, "price".toList, "currencyId".toList, "categoryId".toList] ++
        o.Picture.map (fun _ => "picture".toList) ++ ["name".toList] ++
        (if o.Vendor = [] then [] else ["vendor".toList]) ++
        (if o.Description = [] then [] else ["description".toList]) ++
        (if o.SalesNotes = [] then [] else ["sales_notes".toList]) ++
        o.Params.map (fun _ => "param".toList) := by
  simp only [marshalOffer, XmlNode.children, List.map_append, List.map_map, optionalElement]
  have h1 : (XmlNode.name ∘ textElement "picture".toList) = fun _ => "picture".toList := rfl
  have h2 : (XmlNode.name ∘ marshalParam) = fun _ => "param".toList := rfl
  rw [h1, h2]
  by_cases hv : o.Vendor = [] <;> by_cases hd : o.Description = [] <;>
    by_cases hs : o.SalesNotes = [] <;> simp [hv, hd, hs, textElement, XmlNode.name]

theorem hasChild_iff_mem (node : XmlNode) (name : GoString) :
    node.hasChild name = true ↔ name ∈ node.children.map XmlNode.name := by
  unfold XmlNode.hasChild
  simp only [List.any_eq_true, List.mem_map, beq_iff_eq]

/-- C14: in the document `writeXML` writes, which is the XML declaration followed by the
encoded catalog, the encoding of an offer has a `vendor`, `description` or `sales_notes`
element exactly when the field is not empty, a `picture` element exactly when the offer has a
picture and a `param` element exactly when it has a parameter; the encoding of a category has
the attribute `parentId`, and the encoding of a parameter the attribute `unit`, exactly when
the value is not empty. -/
theorem optional_fields_omitted (sys : System) (ymlCatalog : YMLCatalog)
    (outputFile : GoString) (o : Offer) (c : Category) (p : Param) :
    (((marshalOffer o).hasChild "vendor".toList = true ↔ o.Vendor ≠ []) ∧
      ((marshalOffer o).hasChild "description".toList = true ↔ o.Description ≠ []) ∧
      ((marshalOffer o).hasChild "sales_notes".toList = true ↔ o.SalesNotes ≠ []) ∧
      ((marshalOffer o).hasChild "picture".toList = true ↔ o.Picture ≠ []) ∧
      ((marshalOffer o).hasChild "param".toList = true ↔ o.Params ≠ [])) ∧
    ((marshalCategory c).hasAttr "parentId".toList = true ↔ c.ParentID ≠ []) ∧
    ((marshalParam p).hasAttr "unit".toList = true ↔ p.Unit ≠ []) ∧
    ((writeXML sys ymlCatalog outputFile).1 = none →
      (writeXML sys ymlCatalog outputFile).2 =
        [.create outputFile,
          .write outputFile ⟨xmlDeclaration, marshalYMLCatalog ymlCatalog⟩]) ∧
    (∃ front, (marshalYMLCatalog ymlCatalog).children =
      [.element "shop".toList [] (front ++
        [.element "categories".toList [] (ymlCatalog.Shop.Categories.Category.map marshalCategory),
          .element "offers".toList [] (ymlCatalog.Shop.Offers.Offer.map marshalOffer)])]) ∧
    (∃ front, (marshalOffer o).children = front ++ o.Params.map marshalParam) := by
  refine ⟨⟨?_, ?_, ?_, ?_, ?_⟩, ?_, ?_, ?_, ?_, ?_⟩
  · rw [hasChild_iff_mem, marshalOffer_child_names]
    by_cases hv : o.Vendor = [] <;> simp [hv]
  · rw [hasChild_iff_mem, marshalOffer_child_names]
    by_cases hv : o.Description = [] <;> simp [hv]
  · rw [hasChild_iff_mem, marshalOffer_child_names]
    by_cases hv : o.SalesNotes = [] <;> simp [hv]
  · rw [hasChild_iff_mem, marshalOffer_child_names]
    cases o.Picture <;> simp
  · rw [hasChild_iff_mem, marshalOffer_child_names]
    cases o.Params <;> simp
  · unfold marshalCategory XmlNode.hasAttr optionalAttr
    by_cases hv : c.ParentID = [] <;> simp [hv, XmlNode.attrs]
  · unfold marshalParam XmlNode.hasAttr optionalAttr
    by_cases hv : p.Unit = [] <;> simp [hv, XmlNode.attrs]
  · intro h
    unfold writeXML at h ⊢
    cases hc : sys.Create outputFile with
    | some e => simp [hc] at h
    | none =>
      cases hw : sys.WriteError outputFile with
      | some e => simp [hc, hw] at h
      | none => simp
  · exact ⟨[textElement "name".toList ymlCatalog.Shop.Name,
      textElement "company".toList ymlCatalog.Shop.Company,
      textElement "url".toList ymlCatalog.Shop.URL,
      .element "currencies".toList [] (ymlCatalog.Shop.Currencies.Currency.map marshalCurrency)],
      rfl⟩
  · exact ⟨_, rfl⟩

/-! ## The iteration order of the map -/

theorem fill_same (ord ord' : MapOrder) (hord : ord.Valid) (hord' : ord'.Valid)
    (colIndexes : GoMap) (i : Nat) (row : List GoString) (id name : GoString) :
    (readProducts.fill ord colIndexes i row id name).scalars =
      (readProducts.fill ord' colIndexes i row id name).scalars ∧
    (readProducts.fill ord colIndexes i row id name).Params.Perm
      (readProducts.fill ord' colIndexes i row id name).Params := by
  refine ⟨rfl, ?_⟩
  show (readProducts.params row (ord i colIndexes) []).Perm
    (readProducts.params row (ord' i colIndexes) [])
  rw [params_loop_eq, params_loop_eq, List.nil_append, List.nil_append]
  exact (((hord i colIndexes).trans (hord' i colIndexes).symm).filterMap _)

theorem products_same (ord ord' : MapOrder) (hord : ord.Valid) (hord' : ord'.Valid)
    (colIndexes : GoMap) (n : Nat) (data : List (List GoString)) :
    sameProducts
      ((data.enumFrom n).filterMap (fun ir => readProducts.product ord colIndexes ir.1 ir.2))
      ((data.enumFrom n).filterMap
        (fun ir => readProducts.product ord' colIndexes ir.1 ir.2)) := by
  unfold sameProducts
  induction data generalizing n with
  | nil => simp
  | cons row data ih =>
    simp only [List.enumFrom_cons, List.filterMap_cons]
    by_cases hq : qualifies colIndexes row = true
    · rw [(product_eq_some_iff ord colIndexes n row _).mpr ⟨hq, rfl⟩,
        (product_eq_some_iff ord' colIndexes n row _).mpr ⟨hq, rfl⟩]
      exact List.Forall₂.cons (fill_same ord ord' hord hord' colIndexes n row _ _) (ih (n + 1))
    · have hq' : qualifies colIndexes row = false := by simpa using hq
      rw [(product_eq_none_iff ord colIndexes n row).mpr hq',
        (product_eq_none_iff ord' colIndexes n row).mpr hq']
      exact ih (n + 1)

theorem readProducts_cases (ord : MapOrder) (xlsx : File) :
    (sheetExists xlsx.GetSheetList sheetProducts = false ∧
      readProducts ord xlsx = .error (.sheetNotFound sheetProducts)) ∨
    (∃ err, xlsx.GetRows sheetProducts = .error err ∧
      readProducts ord xlsx = .error (.readSheet sheetProducts err)) ∨
    (xlsx.GetRows sheetProducts = .ok [] ∧
      readProducts ord xlsx = .error (.noData sheetProducts)) ∨
    (∃ header data, sheetExists xlsx.GetSheetList sheetProducts = true ∧
      xlsx.GetRows sheetProducts = .ok (header :: data)) := by
  cases hs : sheetExists xlsx.GetSheetList sheetProducts with
  | false =>
    refine Or.inl ⟨rfl, ?_⟩
    unfold readProducts
    simp [hs]
  | true =>
    cases hr : xlsx.GetRows sheetProducts with
    | error err =>
      refine Or.inr (Or.inl ⟨err, rfl, ?_⟩)
      unfold readProducts
      simp [hs, hr]
    | ok rows =>
      cases rows with
      | nil => exact Or.inr (Or.inr (Or.inl ⟨rfl, readProducts_of_no_rows ord xlsx hs hr⟩))
      | cons header data => exact Or.inr (Or.inr (Or.inr ⟨header, data, rfl, rfl⟩))

theorem sameProducts_length (products products' : List ProductData)
    (h : sameProducts products products') : products.length = products'.length :=
  List.Forall₂.length_eq h

/-- C16: for any two legal orders of iteration over the column-index map, `readProducts` fails
with the same error under both or succeeds under both, and then the two product lists have the
same length and, position by position, the same fields other than the parameters, while the
two parameter lists are permutations of one another. -/
theorem readProducts_order_independent (ord ord' : MapOrder) (hord : ord.Valid)
    (hord' : ord'.Valid) (xlsx : File) :
    (∀ err, readProducts ord xlsx = .error err ↔ readProducts ord' xlsx = .error err) ∧
    (∀ products, readProducts ord xlsx = .ok products →
      ∃ products', readProducts ord' xlsx = .ok products' ∧
        products.length = products'.length ∧ sameProducts products products') := by
  rcases readProducts_cases ord xlsx with ⟨hs, h⟩ | ⟨e, hr, h⟩ | ⟨hr, h⟩ | ⟨header, data, hs, hr⟩
  · have h' : readProducts ord' xlsx = .error (.sheetNotFound sheetProducts) := by
      unfold readProducts
      simp [hs]
    rw [h, h']
    simp
  · have h' : readProducts ord' xlsx = .error (.readSheet sheetProducts e) := by
      rcases readProducts_cases ord' xlsx with ⟨_, h2⟩ | ⟨e2, hr2, h2⟩ | ⟨hr2, _⟩ | ⟨_, _, _, hr2⟩
      · unfold readProducts
        unfold readProducts at h h2
        cases hs : sheetExists xlsx.GetSheetList sheetProducts with
        | false => simp [hs] at h
        | true => simp [hs, hr]
      · rw [hr] at hr2
        cases hr2
        exact h2
      · rw [hr] at hr2
        cases hr2
      · rw [hr] at hr2
        cases hr2
    rw [h, h']
    simp
  · have h' : readProducts ord' xlsx = .error (.noData sheetProducts) := by
      unfold readProducts
      unfold readProducts at h
      cases hs : sheetExists xlsx.GetSheetList sheetProducts with
      | false => simp [hs] at h
      | true => simp [hs, hr]
    rw [h, h']
    simp
  · have hsame := products_same ord ord' hord hord' (buildColIndexes header) 1 data
    have hlen := sameProducts_length _ _ hsame
    rw [readProducts_of_rows ord xlsx header data hs hr,
      readProducts_of_rows ord' xlsx header data hs hr]
    generalize (data.enumFrom 1).filterMap
      (fun ir => readProducts.product ord (buildColIndexes header) ir.1 ir.2) = ps
      at hsame hlen ⊢
    generalize (data.enumFrom 1).filterMap
      (fun ir => readProducts.product ord' (buildColIndexes header) ir.1 ir.2) = ps'
      at hsame hlen ⊢
    by_cases h0 : ps.length = 0
    · have h0' : ps'.length = 0 := by rw [← hlen]; exact h0
      simp [h0, h0']
    · have h0' : ¬ ps'.length = 0 := by rw [← hlen]; exact h0
      simp only [h0, h0', if_false]
      refine ⟨by simp, ?_⟩
      intro products hp
      simp only [Except.ok.injEq] at hp
      subst hp
      exact ⟨ps', rfl, hlen, hsame⟩

theorem reverseOrder_valid : reverseOrder.Valid := fun _ m => List.reverse_perm m

/-- C16, witness: the sample workbook, read with the map ranged over in insertion order and in
the opposite order. -/
theorem readProducts_order_independent_witness :
    insertionOrder.Valid ∧ reverseOrder.Valid ∧
    ∃ products products', readProducts insertionOrder sampleFile = .ok products ∧
      readProducts reverseOrder sampleFile = .ok products' ∧
      sameProducts products products' :=
  ⟨insertionOrder_valid, reverseOrder_valid,
    ((readProducts_of_header_rows insertionOrder sampleFile sampleHeader sampleData
      (by decide) (by rfl)).2 (by decide)).elim
      (fun products h =>
        ((readProducts_order_independent insertionOrder reverseOrder insertionOrder_valid
          reverseOrder_valid sampleFile).2 products h.1).elim
          (fun products' h' => ⟨products, products', h.1, h'.1, h'.2.2⟩))⟩

/-! ## Rows that end before a column -/

theorem headerCell_of_short_row (header row : List GoString) (key : GoString) (idx : Nat)
    (hidx : lastIndexOf header key = some idx) (hlen : row.length ≤ idx) :
    headerCell header row key = none := by
  unfold headerCell
  rw [hidx]
  exact List.getElem?_eq_none hlen

theorem param_of_short_row (row : List GoString) (key : GoString) (idx : Nat)
    (hlen : row.length ≤ idx) : readProducts.param row key idx = none := by
  unfold readProducts.param
  have h : ¬ (HasPrefix key paramPrefix = true ∧ row.length > idx) :=
    fun h => absurd h.2 (Nat.not_lt.mpr hlen)
  simp only [h, dite_false]

theorem param_value (row : List GoString) (key : GoString) (idx : Nat) (q : ParamData)
    (h : readProducts.param row key idx = some q) :
    ∃ hlt : idx < row.length, q.Value = row.get ⟨idx, hlt⟩ := by
  unfold readProducts.param at h
  by_cases hc : HasPrefix key paramPrefix = true ∧ row.length > idx
  · rw [dif_pos hc] at h
    simp at h
    exact ⟨hc.2, by rw [← h.2]; rfl⟩
  · rw [dif_neg hc] at h
    cases h

theorem fill_of_no_cell (ord : MapOrder) (header : List GoString) (i : Nat)
    (row : List GoString) (id name : GoString) :
    (headerCell header row colAvailable = none →
      (readProducts.fill ord (buildColIndexes header) i row id name).Available = true) ∧
    (headerCell header row colPrice = none →
      (readProducts.fill ord (buildColIndexes header) i row id name).Price = Float64.zero) ∧
    (headerCell header row colURL = none →
      (readProducts.fill ord (buildColIndexes header) i row id name).URL = []) ∧
    (headerCell header row colCurrency = none →
      (readProducts.fill ord (buildColIndexes header) i row id name).CurrencyID = []) ∧
    (headerCell header row colCategory = none →
      (readProducts.fill ord (buildColIndexes header) i row id name).CategoryID = []) ∧
    (headerCell header row colVendor = none →
      (readProducts.fill ord (buildColIndexes header) i row id name).Vendor = []) ∧
    (headerCell header row colDescription = none →
      (readProducts.fill ord (buildColIndexes header) i row id name).Description = []) ∧
    (headerCell header row colSalesNotes = none →
      (readProducts.fill ord (buildColIndexes header) i row id name).SalesNotes = []) ∧
    (headerCell header row colPictures = none →
      (readProducts.fill ord (buildColIndexes header) i row id name).Pictures = []) := by
  simp only [← cellAt_eq_headerCell]
  refine ⟨?_, ?_, ?_, ?_, ?_, ?_, ?_, ?_, ?_⟩ <;> intro h <;>
    simp only [readProducts.fill, h, Option.getD_none]

/-- C17: in the product of a qualifying row that ends at or before the column of an optional
header (the row has no cell in that column), the field of that header has its absent-column
value: the availability is true, the price is zero (printed `0.00`), the URL, currency id,
category id, vendor, description and sales notes are empty and there is no picture; the
parameter loop appends nothing for a column at or beyond the end of the row, so every
parameter of the product has the value of a cell inside the row. -/
theorem short_row_fields (ord : MapOrder) (header : List GoString) (i : Nat)
    (row : List GoString) (p : ProductData)
    (hp : readProducts.product ord (buildColIndexes header) i row = some p) :
    (∀ idx, lastIndexOf header colAvailable = some idx → row.length ≤ idx →
      p.Available = true) ∧
    (∀ idx, lastIndexOf header colPrice = some idx → row.length ≤ idx →
      p.Price = Float64.zero ∧ Sprintf2f p.Price = "0.00".toList) ∧
    (∀ idx, lastIndexOf header colURL = some idx → row.length ≤ idx → p.URL = []) ∧
    (∀ idx, lastIndexOf header colCurrency = some idx → row.length ≤ idx →
      p.CurrencyID = []) ∧
    (∀ idx, lastIndexOf header colCategory = some idx → row.length ≤ idx →
      p.CategoryID = []) ∧
    (∀ idx, lastIndexOf header colVendor = some idx → row.length ≤ idx → p.Vendor = []) ∧
    (∀ idx, lastIndexOf header colDescription = some idx → row.length ≤ idx →
      p.Description = []) ∧
    (∀ idx, lastIndexOf header colSalesNotes = some idx → row.length ≤ idx →
      p.SalesNotes = []) ∧
    (∀ idx, lastIndexOf header colPictures = some idx → row.length ≤ idx →
      p.Pictures = []) ∧
    (∀ key idx, row.length ≤ idx → readProducts.param row key idx = none) ∧
    (∀ q ∈ p.Params, ∃ j, ∃ h : j < row.length, q.Value = row.get ⟨j, h⟩) := by
  rw [product_eq_some_iff] at hp
  obtain ⟨_, hfill⟩ := hp
  obtain ⟨h1, h2, h3, h4, h5, h6, h7, h8, h9⟩ := fill_of_no_cell ord header i row
    (rowID (buildColIndexes header) row) (rowName (buildColIndexes header) row)
  rw [← hfill] at h1 h2 h3 h4 h5 h6 h7 h8 h9
  refine ⟨?_, ?_, ?_, ?_, ?_, ?_, ?_, ?_, ?_, ?_, ?_⟩
  · exact fun idx hidx hlen => h1 (headerCell_of_short_row header row _ idx hidx hlen)
  · intro idx hidx hlen
    have := h2 (headerCell_of_short_row header row _ idx hidx hlen)
    exact ⟨this, by rw [this]; exact Sprintf2f_zero _⟩
  · exact fun idx hidx hlen => h3 (headerCell_of_short_row header row _ idx hidx hlen)
  · exact fun idx hidx hlen => h4 (headerCell_of_short_row header row _ idx hidx hlen)
  · exact fun idx hidx hlen => h5 (headerCell_of_short_row header row _ idx hidx hlen)
  · exact fun idx hidx hlen => h6 (headerCell_of_short_row header row _ idx hidx hlen)
  · exact fun idx hidx hlen => h7 (headerCell_of_short_row header row _ idx hidx hlen)
  · exact fun idx hidx hlen => h8 (headerCell_of_short_row header row _ idx hidx hlen)
  · exact fun idx hidx hlen => h9 (headerCell_of_short_row header row _ idx hidx hlen)
  · exact fun key idx hlen => param_of_short_row row key idx hlen
  · intro q hq
    have hP : p.Params = readProducts.params row (ord i (buildColIndexes header)) [] := by
      rw [hfill]
      rfl
    rw [hP, params_loop_eq, List.nil_append, List.mem_filterMap] at hq
    obtain ⟨⟨key, idx⟩, _, hparam⟩ := hq
    obtain ⟨hlt, hval⟩ := param_value row key idx q hparam
    exact ⟨idx, hlt, hval⟩

/-- C17, witness: the row `3`, `B` of the sample sheet ends after the name. -/
theorem short_row_fields_witness :
    readProducts.product insertionOrder (buildColIndexes sampleHeader) 4
        ["3".toList, "B".toList] =
      some (readProducts.fill insertionOrder (buildColIndexes sampleHeader) 4
        ["3".toList, "B".toList] "3".toList "B".toList) ∧
    lastIndexOf sampleHeader colAvailable = some 2 ∧
    (readProducts.fill insertionOrder (buildColIndexes sampleHeader) 4
        ["3".toList, "B".toList] "3".toList "B".toList).Available = true :=
  ⟨by rfl, by decide,
    (short_row_fields insertionOrder sampleHeader 4 ["3".toList, "B".toList]
      (readProducts.fill insertionOrder (buildColIndexes sampleHeader) 4
        ["3".toList, "B".toList] "3".toList "B".toList) (by rfl)).1 2 (by decide) (by decide)⟩

/-! ## Repeated header texts -/

theorem param_eq_of_cell (row : List GoString) (key : GoString) (idx : Nat) :
    readProducts.param row key idx =
      if HasPrefix key paramPrefix = true then
        match row[idx]? with
        | some cell =>
          if cell ≠ [] then
            some ⟨(readProducts.nameUnit (TrimPrefix key paramPrefix)).1,
              (readProducts.nameUnit (TrimPrefix key paramPrefix)).2, cell⟩
          else none
        | none => none
      else none := by
  unfold readProducts.param
  by_cases hpre : HasPrefix key paramPrefix = true
  · by_cases hlt : idx < row.length
    · rw [List.getElem?_eq_getElem hlt]
      by_cases hcell : row[idx] = [] <;> simp [hpre, hlt, hcell]
    · rw [List.getElem?_eq_none (Nat.le_of_not_lt hlt)]
      simp [hpre, hlt]
  · simp [hpre]

theorem param_congr (row row' : List GoString) (key : GoString) (idx : Nat)
    (h : row'[idx]? = row[idx]?) :
    readProducts.param row' key idx = readProducts.param row key idx := by
  rw [param_eq_of_cell, param_eq_of_cell, h]

theorem product_eq_ite (ord : MapOrder) (colIndexes : GoMap) (i : Nat) (row : List GoString) :
    readProducts.product ord colIndexes i row =
      if qualifies colIndexes row = true then
        some (readProducts.fill ord colIndexes i row (rowID colIndexes row)
          (rowName colIndexes row))
      else none := by
  by_cases hq : qualifies colIndexes row = true
  · rw [if_pos hq]
    exact (product_eq_some_iff ord colIndexes i row _).mpr ⟨hq, rfl⟩
  · rw [if_neg hq]
    exact (product_eq_none_iff ord colIndexes i row).mpr (by simpa using hq)

theorem product_congr (ord : MapOrder) (hord : ord.Valid) (header : List GoString) (i : Nat)
    (row row' : List GoString)
    (h : ∀ key j, lastIndexOf header key = some j → row'[j]? = row[j]?) :
    readProducts.product ord (buildColIndexes header) i row' =
      readProducts.product ord (buildColIndexes header) i row := by
  have hcell : ∀ key, cellAt (buildColIndexes header) row' key =
      cellAt (buildColIndexes header) row key := by
    intro key
    rw [cellAt_buildColIndexes, cellAt_buildColIndexes]
    cases hl : lastIndexOf header key with
    | none => rfl
    | some j => exact h key j hl
  have hparams : readProducts.params row' (ord i (buildColIndexes header)) [] =
      readProducts.params row (ord i (buildColIndexes header)) [] := by
    rw [params_loop_eq, params_loop_eq]
    congr 1
    apply List.filterMap_congr
    intro e he
    have hmem : e ∈ buildColIndexes header := (hord i (buildColIndexes header)).mem_iff.mp he
    obtain ⟨key, idx⟩ := e
    exact param_congr row row' key idx (h key idx ((mem_buildColIndexes header key idx).mp hmem))
  rw [product_eq_ite, product_eq_ite]
  simp only [qualifies, rowID, rowName, readProducts.fill, hcell, hparams]

theorem filterMap_length_le_one {α β : Type} (f : α → Option β) (a0 : α) (l : List α)
    (hnodup : l.Nodup) (h : ∀ a ∈ l, f a ≠ none → a = a0) : (l.filterMap f).length ≤ 1 := by
  induction l with
  | nil => simp
  | cons a l ih =>
    rw [List.nodup_cons] at hnodup
    cases hfa : f a with
    | none =>
      rw [List.filterMap_cons_none hfa]
      exact ih hnodup.2 (fun a' ha' => h a' (List.mem_cons_of_mem _ ha'))
    | some b =>
      have ha : a = a0 := h a (List.mem_cons_self _ _) (by rw [hfa]; simp)
      have hnil : l.filterMap f = [] := by
        rw [List.filterMap_eq_nil_iff]
        intro a' ha'
        by_contra hne
        have := h a' (List.mem_cons_of_mem _ ha') hne
        rw [this, ← ha] at ha'
        exact hnodup.1 ha'
      rw [List.filterMap_cons_some hfa, hnil]
      simp

theorem columnParam_ne_none (header row : List GoString) (j : Nat) (key : GoString)
    (h : columnParam header row j key ≠ none) : lastIndexOf header key = some j := by
  by_contra hc
  exact h (columnParam_of_not_last header row j key hc)

theorem params_of_key_le_one (header row : List GoString) (key : GoString) :
    ((header.enum.filter (fun jk => decide (jk.2 = key))).filterMap
      (fun jk => columnParam header row jk.1 jk.2)).length ≤ 1 := by
  have hnodup : (header.enum.filter (fun jk => decide (jk.2 = key))).Nodup :=
    (List.Nodup.of_map Prod.fst (List.nodup_enum_map_fst header)).filter _
  cases hl : lastIndexOf header key with
  | none =>
    refine filterMap_length_le_one _ (0, key) _ hnodup ?_
    intro a ha hne
    obtain ⟨j, k⟩ := a
    have hk : k = key := by simpa using (List.mem_filter.mp ha).2
    subst hk
    have := columnParam_ne_none header row j k hne
    rw [hl] at this
    cases this
  | some j0 =>
    refine filterMap_length_le_one _ (j0, key) _ hnodup ?_
    intro a ha hne
    obtain ⟨j, k⟩ := a
    have hk : k = key := by simpa using (List.mem_filter.mp ha).2
    subst hk
    have := columnParam_ne_none header row j k hne
    rw [hl] at this
    simp only [Option.some.injEq] at this
    rw [this]

/-- C18: the column-index map sends a header text to the rightmost column of the header row
that carries it, so every lookup of a cell (id, name and optional fields) reads that column;
the product of a row does not change when cells in other columns, such as the earlier copies of
a repeated header, are changed; and the parameters of a product are, up to order, the entries
of the rightmost parameter columns, so that all the columns that carry one and the same
header text yield at most one parameter.  With the header `Параметр: W` in two columns over
the cells `x` and `y`, the only parameter has the value `y`. -/
theorem repeated_headers_use_rightmost (ord : MapOrder) (hord : ord.Valid)
    (header : List GoString) (i : Nat) (row : List GoString) :
    (∀ key, mapLookup (buildColIndexes header) key = lastIndexOf header key) ∧
    (∀ key j, lastIndexOf header key = some j →
      header[j]? = some key ∧ ∀ k, j < k → header[k]? ≠ some key) ∧
    (∀ key, cellAt (buildColIndexes header) row key =
      (lastIndexOf header key).bind (fun j => row[j]?)) ∧
    (∀ row', (∀ key j, lastIndexOf header key = some j → row'[j]? = row[j]?) →
      readProducts.product ord (buildColIndexes header) i row' =
        readProducts.product ord (buildColIndexes header) i row) ∧
    (∀ p, readProducts.product ord (buildColIndexes header) i row = some p →
      p.Params.Perm (header.enum.filterMap (fun jk => columnParam header row jk.1 jk.2))) ∧
    (∀ key, ((header.enum.filter (fun jk => decide (jk.2 = key))).filterMap
      (fun jk => columnParam header row jk.1 jk.2)).length ≤ 1) ∧
    ((readProducts.product insertionOrder (buildColIndexes repeatedHeader) 1
        repeatedRowBoth).map (fun p => p.Params) =
      some [⟨"W".toList, [], "y".toList⟩]) := by
  refine ⟨mapLookup_buildColIndexes header, lastIndexOf_some header,
    cellAt_buildColIndexes header row, ?_, ?_, params_of_key_le_one header row, by decide⟩
  · exact fun row' h => product_congr ord hord header i row row' h
  · intro p hp
    rw [product_eq_some_iff] at hp
    have hP : p.Params = readProducts.params row (ord i (buildColIndexes header)) [] := by
      rw [hp.2]
      rfl
    rw [hP]
    exact params_perm_columns ord hord header i row

/-- C18, witness: the header with `Параметр: W` in the columns 2 and 3; the cell of the row in
column 2 is changed and the product stays the same. -/
theorem repeated_headers_use_rightmost_witness :
    insertionOrder.Valid ∧
    lastIndexOf repeatedHeader "Параметр: W".toList = some 3 ∧
    readProducts.product insertionOrder (buildColIndexes repeatedHeader) 1
        ["1".toList, "A".toList, "other".toList, "y".toList] =
      readProducts.product insertionOrder (buildColIndexes repeatedHeader) 1 repeatedRowBoth :=
  ⟨insertionOrder_valid, by decide,
    (repeated_headers_use_rightmost insertionOrder insertionOrder_valid repeatedHeader 1
      repeatedRowBoth).2.2.2.1 ["1".toList, "A".toList, "other".toList, "y".toList]
      (fun key j h => by
        have h3 := ((repeated_headers_use_rightmost insertionOrder insertionOrder_valid
          repeatedHeader 1 repeatedRowBoth).2.1 key j h).1
        have hj : j < 4 := by
          by_contra hc
          rw [List.getElem?_eq_none (by simpa [repeatedHeader] using hc)] at h3
          cases h3
        interval_cases j
        · rfl
        · rfl
        · exfalso
          have hkey : key = "Параметр: W".toList := by
            have : repeatedHeader[2]? = some "Параметр: W".toList := by decide
            rw [this] at h3
            exact (Option.some.inj h3).symm
          rw [hkey] at h
          exact absurd h (by decide)
        · rfl)⟩

/-! ## Permuting the columns -/

theorem permuteColumns_range (l : List GoString) :
    permuteColumns (List.range l.length) l = l := by
  apply List.ext_getElem?
  intro i
  unfold permuteColumns
  rw [List.getElem?_map]
  by_cases h : i < l.length
  · rw [List.getElem?_range h, List.getElem?_eq_getElem h]
    simp [List.getD_eq_getElem?_getD, List.getElem?_eq_getElem h]
  · rw [List.getElem?_eq_none (by simpa using h), List.getElem?_eq_none (Nat.le_of_not_lt h)]
    rfl

theorem permuteColumns_perm (cols : List Nat) (l : List GoString)
    (hcols : cols.Perm (List.range l.length)) : (permuteColumns cols l).Perm l := by
  have h := hcols.map (fun j => l.getD j [])
  rw [show (List.range l.length).map (fun j => l.getD j []) = l from permuteColumns_range l] at h
  exact h

theorem lastIndexOf_of_nodup (header : List GoString) (hnodup : header.Nodup) (key : GoString)
    (j : Nat) (h : header[j]? = some key) : lastIndexOf header key = some j := by
  cases hl : lastIndexOf header key with
  | none => exact absurd (List.getElem?_mem h) ((lastIndexOf_eq_none_iff header key).mp hl)
  | some j' =>
    have h' := (lastIndexOf_some header key j' hl).1
    have hlt : j' < header.length := by
      by_contra hc
      rw [List.getElem?_eq_none (Nat.le_of_not_lt hc)] at h'
      cases h'
    rw [List.getElem?_inj hlt hnodup (h'.trans h.symm)]

theorem permuteColumns_getElem? (cols : List Nat) (l : List GoString) (k : Nat) :
    (permuteColumns cols l)[k]? = cols[k]?.map (fun j => l.getD j []) := by
  unfold permuteColumns
  rw [List.getElem?_map]

theorem getD_of_lt (l : List GoString) (j : Nat) (h : j < l.length) :
    l[j]? = some (l.getD j []) := by
  rw [List.getElem?_eq_getElem h, List.getD_eq_getElem?_getD, List.getElem?_eq_getElem h]
  rfl

theorem headerCell_permuteColumns (cols : List Nat) (header row : List GoString)
    (hnodup : header.Nodup) (hwidth : row.length = header.length)
    (hcols : cols.Perm (List.range header.length)) (key : GoString) :
    headerCell (permuteColumns cols header) (permuteColumns cols row) key =
      headerCell header row key := by
  have hperm := permuteColumns_perm cols header hcols
  have hnodup' : (permuteColumns cols header).Nodup := hperm.nodup_iff.mpr hnodup
  unfold headerCell
  cases hl : lastIndexOf header key with
  | none =>
    have hnot := (lastIndexOf_eq_none_iff header key).mp hl
    have hnot' : key ∉ permuteColumns cols header := fun hm => hnot (hperm.mem_iff.mp hm)
    rw [(lastIndexOf_eq_none_iff _ key).mpr hnot']
    rfl
  | some j =>
    have hj := (lastIndexOf_some header key j hl).1
    have hmem : key ∈ permuteColumns cols header := hperm.mem_iff.mpr (List.getElem?_mem hj)
    cases hl' : lastIndexOf (permuteColumns cols header) key with
    | none => exact absurd hmem ((lastIndexOf_eq_none_iff _ key).mp hl')
    | some k =>
      have hk := (lastIndexOf_some _ key k hl').1
      rw [permuteColumns_getElem?] at hk
      cases hc : cols[k]? with
      | none => simp [hc] at hk
      | some c =>
        rw [hc] at hk
        simp only [Option.map_some', Option.some.injEq] at hk
        have hclt : c < header.length := List.mem_range.mp (hcols.mem_iff.mp (List.getElem?_mem hc))
        have hcj : c = j := by
          have h1 : header[c]? = some key := by rw [getD_of_lt header c hclt, hk]
          have hjlt : j < header.length := by
            by_contra hcon
            rw [List.getElem?_eq_none (Nat.le_of_not_lt hcon)] at hj
            cases hj
          exact List.getElem?_inj hclt hnodup (h1.trans hj.symm)
        subst hcj
        simp only [Option.some_bind]
        rw [permuteColumns_getElem?, hc, getD_of_lt row c (by rw [hwidth]; exact hclt)]
        rfl

theorem qualifyingRow_permuteColumns (cols : List Nat) (header row : List GoString)
    (hnodup : header.Nodup) (hwidth : row.length = header.length)
    (hcols : cols.Perm (List.range header.length)) :
    qualifyingRow (permuteColumns cols header) (permuteColumns cols row) =
      qualifyingRow header row := by
  unfold qualifyingRow
  rw [headerCell_permuteColumns cols header row hnodup hwidth hcols,
    headerCell_permuteColumns cols header row hnodup hwidth hcols]

theorem map_getD_range {α : Type} (l : List α) (d : α) :
    (List.range l.length).map (fun j => l.getD j d) = l := by
  apply List.ext_getElem?
  intro i
  rw [List.getElem?_map]
  by_cases h : i < l.length
  · rw [List.getElem?_range h, List.getElem?_eq_getElem h]
    simp [List.getD_eq_getElem?_getD, List.getElem?_eq_getElem h]
  · rw [List.getElem?_eq_none (by simpa using h), List.getElem?_eq_none (Nat.le_of_not_lt h)]
    rfl

theorem enum_eq_map_range {α : Type} (l : List α) (d : α) :
    l.enum = (List.range l.length).map (fun j => (j, l.getD j d)) := by
  apply List.ext_getElem?
  intro i
  rw [List.getElem?_enum, List.getElem?_map]
  by_cases h : i < l.length
  · rw [List.getElem?_range h, List.getElem?_eq_getElem h]
    simp [List.getD_eq_getElem?_getD, List.getElem?_eq_getElem h]
  · rw [List.getElem?_eq_none (l := l) (Nat.le_of_not_lt h),
      List.getElem?_eq_none (l := List.range l.length) (by simpa using h)]
    rfl

theorem columnParam_eq_columnParamOf (header row : List GoString) (hnodup : header.Nodup)
    (hwidth : row.length = header.length) (j : Nat) (hj : j < header.length) :
    columnParam header row j (header.getD j []) = columnParamOf header row j := by
  have hlast : lastIndexOf header (header.getD j []) = some j :=
    lastIndexOf_of_nodup header hnodup _ j (getD_of_lt header j hj)
  unfold columnParam columnParamOf
  rw [getD_of_lt row j (by rw [hwidth]; exact hj)]
  simp only [hlast, true_and]

theorem columns_filterMap_eq (header row : List GoString) (hnodup : header.Nodup)
    (hwidth : row.length = header.length) :
    header.enum.filterMap (fun jk => columnParam header row jk.1 jk.2) =
      (List.range header.length).filterMap (columnParamOf header row) := by
  rw [enum_eq_map_range header [], List.filterMap_map]
  apply List.filterMap_congr
  intro j hj
  exact columnParam_eq_columnParamOf header row hnodup hwidth j (List.mem_range.mp hj)

theorem permuteColumns_length (cols : List Nat) (l : List GoString) :
    (permuteColumns cols l).length = cols.length := by
  simp [permuteColumns]

theorem permuteColumns_getD (cols : List Nat) (l : List GoString) (k : Nat)
    (hk : k < cols.length) :
    (permuteColumns cols l).getD k [] = l.getD (cols.getD k 0) [] := by
  rw [List.getD_eq_getElem?_getD, permuteColumns_getElem?, List.getElem?_eq_getElem hk,
    List.getD_eq_getElem?_getD (l := cols), List.getElem?_eq_getElem hk]
  rfl

theorem permuted_columns_filterMap_eq (cols : List Nat) (header row : List GoString)
    (hnodup : header.Nodup) (hcols : cols.Perm (List.range header.length)) :
    (permuteColumns cols header).enum.filterMap
        (fun jk => columnParam (permuteColumns cols header) (permuteColumns cols row)
          jk.1 jk.2) =
      cols.filterMap (columnParamOf header row) := by
  have hnodup' : (permuteColumns cols header).Nodup :=
    (permuteColumns_perm cols header hcols).nodup_iff.mpr hnodup
  rw [columns_filterMap_eq _ _ hnodup'
    (by rw [permuteColumns_length, permuteColumns_length]), permuteColumns_length]
  conv_rhs => rw [← map_getD_range cols 0, List.filterMap_map]
  apply List.filterMap_congr
  intro k hk
  have hk' : k < cols.length := List.mem_range.mp hk
  simp only [Function.comp, columnParamOf, permuteColumns_getD cols header k hk',
    permuteColumns_getD cols row k hk']

theorem params_perm_permuteColumns (ord ord' : MapOrder) (hord : ord.Valid)
    (hord' : ord'.Valid) (cols : List Nat) (header row : List GoString)
    (hnodup : header.Nodup) (hwidth : row.length = header.length)
    (hcols : cols.Perm (List.range header.length)) (i : Nat) :
    (readProducts.params row (ord i (buildColIndexes header)) []).Perm
      (readProducts.params (permuteColumns cols row)
        (ord' i (buildColIndexes (permuteColumns cols header))) []) := by
  refine (params_perm_columns ord hord header i row).trans ?_
  refine List.Perm.trans ?_
    (params_perm_columns ord' hord' (permuteColumns cols header) i
      (permuteColumns cols row)).symm
  rw [columns_filterMap_eq header row hnodup hwidth,
    permuted_columns_filterMap_eq cols header row hnodup hcols]
  exact (hcols.symm.filterMap _)

theorem fill_permuteColumns (ord ord' : MapOrder) (hord : ord.Valid) (hord' : ord'.Valid)
    (cols : List Nat) (header row : List GoString) (hnodup : header.Nodup)
    (hwidth : row.length = header.length) (hcols : cols.Perm (List.range header.length))
    (i : Nat) :
    (readProducts.fill ord (buildColIndexes header) i row
        (rowID (buildColIndexes header) row) (rowName (buildColIndexes header) row)).scalars =
      (readProducts.fill ord' (buildColIndexes (permuteColumns cols header)) i
        (permuteColumns cols row)
        (rowID (buildColIndexes (permuteColumns cols header)) (permuteColumns cols row))
        (rowName (buildColIndexes (permuteColumns cols header))
          (permuteColumns cols row))).scalars ∧
    (readProducts.fill ord (buildColIndexes header) i row
        (rowID (buildColIndexes header) row) (rowName (buildColIndexes header) row)).Params.Perm
      (readProducts.fill ord' (buildColIndexes (permuteColumns cols header)) i
        (permuteColumns cols row)
        (rowID (buildColIndexes (permuteColumns cols header)) (permuteColumns cols row))
        (rowName (buildColIndexes (permuteColumns cols header))
          (permuteColumns cols row))).Params := by
  constructor
  · simp only [ProductData.scalars, readProducts.fill, rowID, rowName, cellAt_eq_headerCell,
      headerCell_permuteColumns cols header row hnodup hwidth hcols]
  · exact params_perm_permuteColumns ord ord' hord hord' cols header row hnodup hwidth hcols i

theorem products_permuteColumns (ord ord' : MapOrder) (hord : ord.Valid) (hord' : ord'.Valid)
    (cols : List Nat) (header : List GoString) (hnodup : header.Nodup)
    (hcols : cols.Perm (List.range header.length)) (n : Nat) (data : List (List GoString))
    (hwidth : ∀ row ∈ data, row.length = header.length) :
    sameProducts
      ((data.enumFrom n).filterMap
        (fun ir => readProducts.product ord (buildColIndexes header) ir.1 ir.2))
      (((data.map (permuteColumns cols)).enumFrom n).filterMap
        (fun ir => readProducts.product ord' (buildColIndexes (permuteColumns cols header))
          ir.1 ir.2)) := by
  unfold sameProducts
  induction data generalizing n with
  | nil => simp
  | cons row data ih =>
    have hrow := hwidth row (List.mem_cons_self _ _)
    have hrest : ∀ r ∈ data, r.length = header.length :=
      fun r hr => hwidth r (List.mem_cons_of_mem _ hr)
    have hq : qualifies (buildColIndexes (permuteColumns cols header))
        (permuteColumns cols row) = qualifies (buildColIndexes header) row := by
      rw [qualifies_eq_qualifyingRow, qualifies_eq_qualifyingRow,
        qualifyingRow_permuteColumns cols header row hnodup hrow hcols]
    simp only [List.map_cons, List.enumFrom_cons, List.filterMap_cons]
    rw [product_eq_ite, product_eq_ite, hq]
    by_cases hk : qualifies (buildColIndexes header) row = true
    · simp only [hk, if_true]
      exact List.Forall₂.cons
        (fill_permuteColumns ord ord' hord hord' cols header row hnodup hrow hcols n)
        (ih (n + 1) hrest)
    · simp only [hk]
      exact ih (n + 1) hrest

/-- C15: on a products sheet whose header cells are pairwise distinct and whose data rows all
have the width of the header, permuting the columns of the header row and of every data row in
the same way changes nothing but the order of the parameters: the same rows qualify,
`readProducts` fails with the same error or succeeds on both sheets, and then the two product
lists have the same length and, position by position, the same fields other than the
parameters, with parameter lists that are permutations of one another.  This holds for any
legal orders of iteration over the two column-index maps. -/
theorem readProducts_column_permutation (ord ord' : MapOrder) (hord : ord.Valid)
    (hord' : ord'.Valid) (xlsx xlsx' : File) (header : List GoString)
    (data : List (List GoString)) (cols : List Nat)
    (hnodup : header.Nodup)
    (hwidth : ∀ row ∈ data, row.length = header.length)
    (hcols : cols.Perm (List.range header.length))
    (hsheet : sheetExists xlsx.GetSheetList sheetProducts = true)
    (hrows : xlsx.GetRows sheetProducts = .ok (header :: data))
    (hsheet' : sheetExists xlsx'.GetSheetList sheetProducts = true)
    (hrows' : xlsx'.GetRows sheetProducts =
      .ok (permuteColumns cols header :: data.map (permuteColumns cols))) :
    (∀ row ∈ data, qualifyingRow (permuteColumns cols header) (permuteColumns cols row) =
      qualifyingRow header row) ∧
    (∀ err, readProducts ord xlsx = .error err ↔ readProducts ord' xlsx' = .error err) ∧
    (∀ products, readProducts ord xlsx = .ok products →
      ∃ products', readProducts ord' xlsx' = .ok products' ∧
        products.length = products'.length ∧ sameProducts products products') := by
  have hsame := products_permuteColumns ord ord' hord hord' cols header hnodup hcols 1 data
    hwidth
  have hlen := sameProducts_length _ _ hsame
  rw [readProducts_of_rows ord xlsx header data hsheet hrows,
    readProducts_of_rows ord' xlsx' _ _ hsheet' hrows']
  generalize (data.enumFrom 1).filterMap
    (fun ir => readProducts.product ord (buildColIndexes header) ir.1 ir.2) = ps
    at hsame hlen ⊢
  generalize ((data.map (permuteColumns cols)).enumFrom 1).filterMap
    (fun ir => readProducts.product ord' (buildColIndexes (permuteColumns cols header))
      ir.1 ir.2) = ps' at hsame hlen ⊢
  refine ⟨fun row hrow =>
    qualifyingRow_permuteColumns cols header row hnodup (hwidth row hrow) hcols, ?_⟩
  by_cases h0 : ps.length = 0
  · have h0' : ps'.length = 0 := by rw [← hlen]; exact h0
    simp [h0, h0']
  · have h0' : ¬ ps'.length = 0 := by rw [← hlen]; exact h0
    simp only [h0, h0', if_false]
    refine ⟨by simp, ?_⟩
    intro products hp
    simp only [Except.ok.injEq] at hp
    subst hp
    exact ⟨ps', rfl, hlen, hsame⟩

/-- C15, witness: the sample header over three rows of its width, and the same sheet with its
columns in the order 6, 0, 5, 1, 4, 2, 3. -/
theorem readProducts_column_permutation_witness :
    insertionOrder.Valid ∧ reverseOrder.Valid ∧ sampleHeader.Nodup ∧
    (∀ row ∈ wideData, row.length = sampleHeader.length) ∧
    sampleColumns.Perm (List.range sampleHeader.length) ∧
    ∃ products products',
      readProducts insertionOrder (productsFile (sampleHeader :: wideData)) = .ok products ∧
      readProducts reverseOrder (productsFile (permuteColumns sampleColumns sampleHeader ::
        wideData.map (permuteColumns sampleColumns))) = .ok products' ∧
      sameProducts products products' :=
  ⟨insertionOrder_valid, reverseOrder_valid, by decide, by decide, by decide,
    ((readProducts_of_header_rows insertionOrder (productsFile (sampleHeader :: wideData))
      sampleHeader wideData (by decide) (by rfl)).2 (by decide)).elim
      (fun products h =>
        ((readProducts_column_permutation insertionOrder reverseOrder insertionOrder_valid
          reverseOrder_valid (productsFile (sampleHeader :: wideData))
          (productsFile (permuteColumns sampleColumns sampleHeader ::
            wideData.map (permuteColumns sampleColumns)))
          sampleHeader wideData sampleColumns (by decide) (by decide) (by decide)
          (by decide) (by rfl) (by decide) (by rfl)).2.2 products h.1).elim
          (fun products' h' => ⟨products, products', h.1, h'.1, h'.2.2⟩))⟩

/-! ## Shop settings: the last value wins -/

theorem foldl_field_lastValue (field : ShopData → GoString) (key : GoString)
    (hrow : ∀ (shopData : ShopData) (row : List GoString),
      field (readShopSettings.row shopData row) = (rowValue row key).getD (field shopData))
    (rows : List (List GoString)) (shopData : ShopData) :
    field (rows.foldl readShopSettings.row shopData) =
      (lastValue rows key).getD (field shopData) := by
  induction rows generalizing shopData with
  | nil => rfl
  | cons row rows ih =>
    rw [List.foldl_cons, ih, lastValue, hrow]
    cases lastValue rows key with
    | some v => rfl
    | none => rfl

theorem row_Name_eq (shopData : ShopData) (row : List GoString) :
    (readShopSettings.row shopData row).Name =
      (rowValue row keyShopName).getD shopData.Name := by
  unfold readShopSettings.row rowValue
  match row with
  | [] => rfl
  | [_] => rfl
  | key :: value :: _ =>
    simp only []
    split_ifs <;> rfl

theorem row_Company_eq (shopData : ShopData) (row : List GoString) :
    (readShopSettings.row shopData row).Company =
      (rowValue row keyCompany).getD shopData.Company := by
  unfold readShopSettings.row rowValue
  match row with
  | [] => rfl
  | [_] => rfl
  | key :: value :: _ =>
    simp only []
    have hne : keyShopName ≠ keyCompany := by decide
    split_ifs with h1 h2 <;> first | rfl | exact absurd (h1.symm.trans h2) hne

theorem row_URL_eq (shopData : ShopData) (row : List GoString) :
    (readShopSettings.row shopData row).URL = (rowValue row keyURL).getD shopData.URL := by
  unfold readShopSettings.row rowValue
  match row with
  | [] => rfl
  | [_] => rfl
  | key :: value :: _ =>
    simp only []
    have hne1 : keyShopName ≠ keyURL := by decide
    have hne2 : keyCompany ≠ keyURL := by decide
    split_ifs with h1 h2 h3 h4 <;>
      first
      | rfl
      | exact absurd (h1.symm.trans h2) hne1
      | exact absurd (h2.symm.trans h3) hne2
      | exact absurd (h1.symm.trans h3) hne1
      | exact absurd (h3.symm.trans h4) hne2

theorem defaults_eq (shopData : ShopData) :
    readShopSettings.defaults shopData =
      ⟨if shopData.Name = [] then defaultShopName else shopData.Name,
        if shopData.Company = [] then defaultCompany else shopData.Company,
        if shopData.URL = [] then defaultURL else shopData.URL⟩ := by
  unfold readShopSettings.defaults
  by_cases a : shopData.Name = [] <;> by_cases b : shopData.Company = [] <;>
    by_cases c : shopData.URL = [] <;> simp [a, b, c]

theorem settingOr_eq (value : Option GoString) (default : GoString) :
    settingOr value default =
      if value.getD [] = [] then default else value.getD [] := by
  cases value with
  | none => simp [settingOr]
  | some v => by_cases h : v = [] <;> simp [settingOr, h]

theorem settingOr_ne_nil (value : Option GoString) (default : GoString) (h : default ≠ []) :
    settingOr value default ≠ [] := by
  cases value with
  | none => simpa [settingOr] using h
  | some v => by_cases hv : v = [] <;> simp [settingOr, hv, h]

/-- C19: when the shop-settings sheet exists and its rows are read, every field returned by
`readShopSettings` is the value of the last row after the header that has at least two cells
and carries the key of the field, when that value is not empty, and the default of the field
otherwise (no such row, or an empty value in the last one); so the name, the company and the
URL are never empty. -/
theorem readShopSettings_last_value (xlsx : File) (rows : List (List GoString))
    (hsheet : sheetExists xlsx.GetSheetList sheetShopSettings = true)
    (hrows : xlsx.GetRows sheetShopSettings = .ok rows) :
    readShopSettings xlsx =
      .ok ⟨settingOr (lastValue (rows.drop 1) "Название магазина".toList) "Мой магазин".toList,
        settingOr (lastValue (rows.drop 1) "Название компании".toList) "Моя компания".toList,
        settingOr (lastValue (rows.drop 1) "URL сайта".toList) "https://example.com".toList⟩ ∧
    (∀ shopData, readShopSettings xlsx = .ok shopData →
      shopData.Name ≠ [] ∧ shopData.Company ≠ [] ∧ shopData.URL ≠ []) ∧
    (lastValue [["Название магазина".toList, "A".toList], ["Название магазина".toList, []]]
      "Название магазина".toList = some []) := by
  have hres : readShopSettings xlsx =
      .ok ⟨settingOr (lastValue (rows.drop 1) keyShopName) defaultShopName,
        settingOr (lastValue (rows.drop 1) keyCompany) defaultCompany,
        settingOr (lastValue (rows.drop 1) keyURL) defaultURL⟩ := by
    rw [readShopSettings_of_rows xlsx rows hsheet hrows, defaults_eq,
      foldl_field_lastValue ShopData.Name keyShopName row_Name_eq,
      foldl_field_lastValue ShopData.Company keyCompany row_Company_eq,
      foldl_field_lastValue ShopData.URL keyURL row_URL_eq,
      settingOr_eq, settingOr_eq, settingOr_eq]
  refine ⟨hres, ?_, by decide⟩
  intro shopData h
  rw [hres] at h
  simp only [Except.ok.injEq] at h
  subst h
  exact ⟨settingOr_ne_nil _ _ (by decide), settingOr_ne_nil _ _ (by decide),
    settingOr_ne_nil _ _ (by decide)⟩

/-- C19, witness: the sample shop-settings sheet gives the name `Shop` and the two other
defaults. -/
theorem readShopSettings_last_value_witness :
    sheetExists sampleFile.GetSheetList sheetShopSettings = true ∧
    sampleFile.GetRows sheetShopSettings = .ok sampleShopRows ∧
    readShopSettings sampleFile =
      .ok ⟨"Shop".toList, "Моя компания".toList, "https://example.com".toList⟩ :=
  ⟨by decide, by rfl,
    (readShopSettings_last_value sampleFile sampleShopRows (by decide) (by rfl)).1.trans
      (by rfl)⟩

end ExcelToYml
